import Mathlib

/-! # Remote watch multiplexer (`pkg/remote/watch.go`)

A shallow embedding of the `remote` package of `konveyor/controller` as vendored by
virt-controller: `Watch`, `Relay`, `Remote`, `Container`, `RelayDefinition` and the
`Forward` filter, followed by theorems about `EnsureWatch`, `EnsureRelay`, `EndRelay`,
`Start`, `Shutdown`, `TakeWorkload`, `EnsureRelayDefinition`, `Container.Ensure`, the
forward filter and `Relay.send`.  The vSphere reconciler follows in the namespace
`Vmware`, the oVirt adapters in the namespace `Ovirt`.

Conventions of the embedding.

* Go slices are lists.  A pointer into a slice (`[]*Watch`, `[]*Relay`) is a position in
  the list, and a write through the pointer is an update at that position.  One Go
  object is held by one owner: a `*Relay` or `*Remote` handed to two owners at once is
  outside the embedding.
* The map of the container is an association list; `map[key]` reads the first entry of a
  key and `map[key] = v` overwrites it or adds an entry.
* Calls into controller-runtime (`manager.New`, `controller.New`, `controller.Watch`)
  are answered by an `Upstream` value: a deterministic environment saying which calls
  fail and with what error.
* Go `error` is `Option Error` with `none` for `nil`.  A run-time panic that leaves the
  function is `none` of an outer `Option`.
* Pointer arguments (`*Relay`, `*Remote`, `*RelayDefinition`) and the objects in them are
  not nil, except where a field is an `Option`.
* Mutexes and goroutines are not part of the embedding: every operation is taken as one
  atomic step, which is what the locks provide.
-/

namespace RemoteWatch

/-! ## Errors (`pkg/error/wrap.go`) -/

/-- A Go `error` value: either an error of some other type, known by its message, or a
`*LibError` carrying the wrapped cause and the stack snapshot. -/
inductive Error where
  | other (msg : String)
  | lib (wrapped : Error) (stack : String)
deriving DecidableEq, Repr

/-- Go `Wrap(err)`: `nil` and `*LibError` values are returned as they are, any other error is
wrapped together with the stack snapshot `stack` of the call site (`runtime.Stack`). -/
def Wrap (stack : String) : Option Error → Option Error
  | none => none
  | some (Error.lib wrapped st) => some (Error.lib wrapped st)
  | some (Error.other msg) => some (Error.lib (Error.other msg) stack)

/-! ## Data model -/

/-- A k8s object as far as this package looks at it (`meta.Object` and `Resource`): the
kind that `ref.ToKind` reads, the namespace and the name. -/
structure Resource where
  Kind : String
  Namespace : String
  Name : String
deriving DecidableEq, Repr

/-- Modelled from the spec: `ref.ToKind` is not among the sources; it yields the
resource kind of the object, the identity the spec gives a watch. -/
def ToKind (r : Resource) : String := r.Kind

/-- Go `Key = core.ObjectReference`, of which `Container.key` fills three fields. -/
structure Key where
  Kind : String
  Namespace : String
  Name : String
deriving DecidableEq, Repr

/-- A `predicate.Predicate` interface value, kept by identity. -/
structure Predicate where
  id : Nat
deriving DecidableEq, Repr

/-- An element of the predicate chain handed to `controller.Watch`: one of the watch's own
predicates or the `Forward` filter of the remote. -/
inductive Filter where
  | pred (p : Predicate)
  | forward
deriving DecidableEq, Repr

/-- A `chan event.GenericEvent`, compared by identity. -/
structure Channel where
  id : Nat
deriving DecidableEq, Repr

/-- Go `rest.Config`, compared structurally by `reflect.DeepEqual`. -/
structure RestConfig where
  Host : String
  BearerToken : String
deriving DecidableEq, Repr

/-- The `done chan struct{}` of a remote: a nil channel, an open one or a closed one. -/
inductive DoneChan where
  | isNil
  | isOpen
  | isClosed
deriving DecidableEq, Repr

/-- Go `type Watch struct`. -/
structure Watch where
  Subject : Resource
  Predicates : List Predicate
  started : Bool
deriving DecidableEq, Repr

/-- Go `type Relay struct` (`Target` may be nil, as in the relay `EndRelay` is called with). -/
structure Relay where
  Target : Option Resource
  Channel : Channel
  Watch : List Watch
deriving DecidableEq, Repr

/-- Go `type Remote struct`.  The `manager` and `controller` fields are handles of
controller-runtime objects; what calls on them return is in `Upstream`. -/
structure Remote where
  Name : String
  RestCfg : Option RestConfig
  relay : List Relay
  watch : List Watch
  started : Bool
  done : DoneChan
deriving DecidableEq, Repr

/-- The controller-runtime environment: the result (`none` for a nil error) of
`manager.New` on a configuration, of `controller.New` on a name, and of
`controller.Watch` on a subject with a predicate chain. -/
structure Upstream where
  managerNew : RestConfig → Option Error
  controllerNew : String → Option Error
  controllerWatch : Resource → List Filter → Option Error

/-- Go `type WatchDefinition struct`. -/
structure WatchDefinition where
  RemoteOwner : Resource
  Watch : List Watch
deriving DecidableEq, Repr

/-- Go `type RelayDefinition struct`. -/
structure RelayDefinition where
  Channel : Channel
  Target : Option Resource
  Watch : List WatchDefinition
deriving DecidableEq, Repr

/-- Go `type Container struct`: the map from key to remote. -/
structure Container where
  remote : List (Key × Remote)
deriving DecidableEq, Repr

/-! ## Slice helpers -/

/-- The first element satisfying `p` together with its position: what a Go loop
`for _, x := range xs { if p(x) { return x, true } }` over a slice of pointers returns. -/
def findFirst {α : Type} (p : α → Bool) : List α → Option (Nat × α)
  | [] => none
  | x :: xs =>
    if p x then some (0, x)
    else match findFirst p xs with
      | none => none
      | some (i, y) => some (i + 1, y)

/-- A write through the pointer at position `i`. -/
def updateAt {α : Type} (f : α → α) : Nat → List α → List α
  | _, [] => []
  | 0, x :: xs => f x :: xs
  | i + 1, x :: xs => x :: updateAt f i xs

/-! ## Watch -/

/-- Go `func (w *Watch) reset()`. -/
def Watch.reset (w : Watch) : Watch := { w with started := false }

/-- Go `func (w *Watch) Match(r Resource) bool`. -/
def Watch.Match (w : Watch) (r : Resource) : Bool :=
  ToKind w.Subject == ToKind r

/-- Go `func (w *Watch) merge(other Watch)`. -/
def Watch.merge (w : Watch) (other : Watch) : Watch :=
  { w with Predicates := other.Predicates }

/-- The chain `append(w.Predicates, &Forward{remote: remote})` built by `Watch.start`. -/
def Watch.chain (w : Watch) : List Filter :=
  w.Predicates.map Filter.pred ++ [Filter.forward]

/-- Go `func (w *Watch) start(remote *Remote) error`: the watch afterwards and the error. -/
def Watch.start (up : Upstream) (w : Watch) (remote : Remote) : Watch × Option Error :=
  if w.started || !remote.started then (w, none)
  else
    match up.controllerWatch w.Subject w.chain with
    | some err => (w, Wrap "Watch.start" (some err))
    | none => ({ w with started := true }, none)

/-! ## Relay -/

/-- Go `func (r *Relay) reset()`: empty body. -/
def Relay.reset (r : Relay) : Relay := r

/-- Go `func (r *Relay) Match(other *Relay) bool`. -/
def Relay.Match (r : Relay) (other : Relay) : Bool :=
  r.Channel == other.Channel

/-- Go `func (r *Relay) findWatch(watch Watch) (*Watch, bool)`.  `r.Watch` is a `[]Watch`
and the loop returns `&w`, the address of the range variable: the caller receives a
copy of the element found, not a position in `r.Watch`. -/
def Relay.findWatch (r : Relay) (watch : RemoteWatch.Watch) : Option RemoteWatch.Watch :=
  match findFirst (fun w => w.Match watch.Subject) r.Watch with
  | none => none
  | some (_, w) => some w

/-- One iteration of the loop of `Relay.merge`.  In the `found` branch `w.merge(watch)`
writes to the copy returned by `findWatch`, which is dropped; `r.Watch` is untouched. -/
def Relay.mergeStep (r : Relay) (watch : RemoteWatch.Watch) : Relay :=
  match r.findWatch watch with
  | none => { r with Watch := r.Watch ++ [watch] }
  | some w =>
    let _copy := w.merge watch
    r

/-- Go `func (r *Relay) merge(other *Relay)`. -/
def Relay.merge (r : Relay) (other : Relay) : Relay :=
  other.Watch.foldl Relay.mergeStep r

/-! ## Remote -/

/-- Go `&Remote{}`. -/
def Remote.zero : Remote :=
  { Name := "", RestCfg := none, relay := [], watch := [], started := false,
    done := DoneChan.isNil }

/-- Go `func (r *Remote) findWatch(object Resource) (*Watch, bool)`: position and value. -/
def Remote.findWatch (r : Remote) (object : Resource) : Option (Nat × Watch) :=
  findFirst (fun w => w.Match object) r.watch

/-- Go `func (r *Remote) findRelay(relay *Relay) (*Relay, bool)`: position and value. -/
def Remote.findRelay (r : Remote) (relay : Relay) : Option (Nat × Relay) :=
  findFirst (fun rl => rl.Match relay) r.relay

/-- Go `func (r *Remote) ensureWatch(watch Watch) error`.  In the second branch `&watch` is
appended and `watch.start(r)` then writes to that same object. -/
def Remote.ensureWatch (up : Upstream) (r : Remote) (watch : Watch) :
    Remote × Option Error :=
  match r.findWatch watch.Subject with
  | some (i, _) =>
    ({ r with watch := updateAt (fun w => w.merge watch) i r.watch }, none)
  | none =>
    let r1 := { r with watch := r.watch ++ [watch] }
    match watch.start up r1 with
    | (w, some err) => ({ r with watch := r.watch ++ [w] }, Wrap "Remote.ensureWatch" (some err))
    | (w, none) => ({ r with watch := r.watch ++ [w] }, none)

/-- Go `func (r *Remote) EnsureWatch(watch Watch) error`. -/
def Remote.EnsureWatch (up : Upstream) (r : Remote) (watch : Watch) :
    Remote × Option Error :=
  match r.ensureWatch up watch with
  | (r1, some err) => (r1, Wrap "Remote.EnsureWatch" (some err))
  | (r1, none) => (r1, none)

/-- The loop `for _, watch := range relay.Watch { r.ensureWatch(Watch{Subject: ...}) }`
of `EnsureRelay`, returning at the first error. -/
def Remote.ensureWatches (up : Upstream) : Remote → List Watch → Remote × Option Error
  | r, [] => (r, none)
  | r, watch :: rest =>
    match r.ensureWatch up { Subject := watch.Subject, Predicates := [], started := false } with
    | (r1, some err) => (r1, Wrap "Remote.EnsureRelay" (some err))
    | (r1, none) => Remote.ensureWatches up r1 rest

/-- Go `func (r *Remote) EnsureRelay(relay *Relay) error`. -/
def Remote.EnsureRelay (up : Upstream) (r : Remote) (relay : Relay) :
    Remote × Option Error :=
  match r.findRelay relay with
  | some (i, rl) =>
    let r1 := { r with relay := updateAt (fun x => x.merge relay) i r.relay }
    Remote.ensureWatches up r1 (rl.merge relay).Watch
  | none =>
    let r1 := { r with relay := r.relay ++ [relay] }
    Remote.ensureWatches up r1 relay.Watch

/-- The slice expression `append(s[:i], s[i+1:]...)` on a slice of length `len` whose
backing array holds `arr`: elements `i+1 .. len-1` move one place down inside the
array and the array keeps its stale tail.  Requires `i + 1 ≤ len`. -/
def removeInPlace {α : Type} (arr : List α) (i len : Nat) : List α :=
  arr.take i ++ (arr.drop (i + 1)).take (len - 1 - i) ++ arr.drop (len - 1)

/-- The loop of `EndRelay`.  `range r.relay` fixes the number of iterations and reads
element `i` from the backing array `arr` at iteration `i`; `len` is the current length of
`r.relay`.  `r.relay[i+1:]` panics when `i + 1` exceeds the current length. -/
def Remote.endRelayLoop (relay : Relay) : Nat → Nat → List Relay → Nat →
    Option (List Relay × Nat)
  | 0, _, arr, len => some (arr, len)
  | fuel + 1, i, arr, len =>
    match arr[i]? with
    | none => some (arr, len)
    | some found =>
      if found.Match relay then
        if i + 1 ≤ len then
          Remote.endRelayLoop relay fuel (i + 1) (removeInPlace arr i len) (len - 1)
        else none
      else Remote.endRelayLoop relay fuel (i + 1) arr len

/-- Go `func (r *Remote) EndRelay(relay *Relay)`; `none` when the call panics. -/
def Remote.EndRelay (r : Remote) (relay : Relay) : Option Remote :=
  match Remote.endRelayLoop relay r.relay.length 0 r.relay r.relay.length with
  | none => none
  | some (arr, len) => some { r with relay := arr.take len }

/-- Go `func (r *Remote) Reset()`. -/
def Remote.Reset (r : Remote) : Remote := { r with watch := [], relay := [] }

/-- Go `func (r *Remote) Equals(other *Remote) bool`. -/
def Remote.Equals (r : Remote) (other : Remote) : Bool :=
  other.RestCfg == r.RestCfg

/-- The loop `for _, watch := range r.watch { watch.start(r) }` of `Start`: `todo` are the
watches still to visit, `visited` those already visited. -/
def Remote.startWatches (up : Upstream) (r : Remote) :
    List Watch → List Watch → Remote × Option Error
  | visited, [] => ({ r with watch := visited }, none)
  | visited, watch :: todo =>
    match watch.start up r with
    | (w, some err) =>
      ({ r with watch := visited ++ w :: todo }, Wrap "Remote.Start" (some err))
    | (w, none) => Remote.startWatches up r (visited ++ [w]) todo

/-- Go `func (r *Remote) Start() error`.  `liberr.New` is not among the sources; it is taken
to return a `*LibError` around a new error with the given message. -/
def Remote.Start (up : Upstream) (r : Remote) : Remote × Option Error :=
  if r.started then (r, none)
  else
    match r.RestCfg with
    | none => (r, some (Error.lib (Error.other "not configured") "Remote.Start"))
    | some cfg =>
      match up.managerNew cfg with
      | some err => (r, Wrap "Remote.Start" (some err))
      | none =>
        match up.controllerNew (r.Name ++ "-R") with
        | some err => (r, Wrap "Remote.Start" (some err))
        | none =>
          match Remote.startWatches up r [] r.watch with
          | (r1, some err) => (r1, some err)
          | (r1, none) => ({ r1 with started := true }, none)

/-- Go `func (r *Remote) Shutdown()`: `close(r.done)` panics on a nil or closed channel, the
deferred `recover()` swallows the panic and the assignment after it is not reached. -/
def Remote.Shutdown (r : Remote) : Remote :=
  match r.done with
  | DoneChan.isOpen => { r with done := DoneChan.isClosed, started := false }
  | DoneChan.isNil => r
  | DoneChan.isClosed => r

/-- First loop of `TakeWorkload`: `watch.reset(); r.EnsureWatch(*watch)`. -/
def Remote.takeWatches (up : Upstream) : Remote → List Watch → Remote
  | r, [] => r
  | r, watch :: rest => Remote.takeWatches up (r.EnsureWatch up watch.reset).1 rest

/-- Second loop of `TakeWorkload`: `relay.reset(); r.EnsureRelay(relay)`. -/
def Remote.takeRelays (up : Upstream) : Remote → List Relay → Remote
  | r, [] => r
  | r, relay :: rest => Remote.takeRelays up (r.EnsureRelay up relay.reset).1 rest

/-- Go `func (r *Remote) TakeWorkload(other *Remote)`: the receiver and `other` afterwards. -/
def Remote.TakeWorkload (up : Upstream) (r : Remote) (other : Remote) : Remote × Remote :=
  let r1 := Remote.takeWatches up r other.watch
  let other1 := { other with watch := other.watch.map Watch.reset }
  let r2 := Remote.takeRelays up r1 other1.relay
  (r2, other1.Reset)

/-! ## Container -/

/-- Go `func (r *Container) key(owner meta.Object) Key`. -/
def Container.key (owner : Resource) : Key :=
  { Kind := ToKind owner, Namespace := owner.Namespace, Name := owner.Name }

/-- The lookup `m[key]` in the entries of a map. -/
def lookupIn (key : Key) : List (Key × Remote) → Option Remote
  | [] => none
  | (k, r) :: rest => if k = key then some r else lookupIn key rest

/-- The assignment `m[key] = remote` on the entries of a map. -/
def storeIn (key : Key) (remote : Remote) : List (Key × Remote) → List (Key × Remote)
  | [] => [(key, remote)]
  | (k, r) :: rest =>
    if k = key then (key, remote) :: rest else (k, r) :: storeIn key remote rest

/-- The lookup `r.remote[key]`. -/
def Container.lookup (c : Container) (key : Key) : Option Remote :=
  lookupIn key c.remote

/-- The assignment `r.remote[key] = remote`, also standing for a write into the remote the
map points to. -/
def Container.store (c : Container) (key : Key) (remote : Remote) : Container :=
  { remote := storeIn key remote c.remote }

/-- Go `func (r *RelayDefinition) hasRemote(key Key, fn func(meta.Object) Key) bool`. -/
def RelayDefinition.hasRemote (d : RelayDefinition) (key : Key) (fn : Resource → Key) : Bool :=
  d.Watch.any (fun w => fn w.RemoteOwner == key)

/-- First loop of `EnsureRelayDefinition`, over the entries of the map; `none` when an
`EndRelay` panics. -/
def Container.endStale (d : RelayDefinition) : List (Key × Remote) → Option (List (Key × Remote))
  | [] => some []
  | (key, remote) :: rest =>
    if !d.hasRemote key Container.key then
      match remote.EndRelay { Target := none, Channel := d.Channel, Watch := [] } with
      | none => none
      | some remote1 =>
        match Container.endStale d rest with
        | none => none
        | some rest1 => some ((key, remote1) :: rest1)
    else
      match Container.endStale d rest with
      | none => none
      | some rest1 => some ((key, remote) :: rest1)

/-- The literal `&Relay{Channel: def.Channel, Target: def.Target, Watch: wDef.Watch}` built
in the second loop of `EnsureRelayDefinition`. -/
def RelayDefinition.relayFor (d : RelayDefinition) (wDef : WatchDefinition) : Relay :=
  { Target := d.Target, Channel := d.Channel, Watch := wDef.Watch }

/-- Second loop of `EnsureRelayDefinition`, over `def.Watch`. -/
def Container.ensureDefs (up : Upstream) (d : RelayDefinition) :
    Container → List WatchDefinition → Container × Option Error
  | c, [] => (c, none)
  | c, wDef :: rest =>
    let key := Container.key wDef.RemoteOwner
    let c0 := match c.lookup key with
      | some _ => c
      | none => c.store key Remote.zero
    let remote := (c0.lookup key).getD Remote.zero
    match remote.EnsureRelay up (d.relayFor wDef) with
    | (remote1, some err) =>
      (c0.store key remote1, Wrap "Container.EnsureRelayDefinition" (some err))
    | (remote1, none) => Container.ensureDefs up d (c0.store key remote1) rest

/-- Go `func (r *Container) EnsureRelayDefinition(def *RelayDefinition) error`; `none` when
the call panics. -/
def Container.EnsureRelayDefinition (up : Upstream) (c : Container) (d : RelayDefinition) :
    Option (Container × Option Error) :=
  match Container.endStale d c.remote with
  | none => none
  | some remotes => some (Container.ensureDefs up d { remote := remotes } d.Watch)

/-- Go `&Container{remote: map[Key]*Remote{}}`, the container built by `init`. -/
def Container.empty : Container := { remote := [] }

/-! ## Sample values used in the concrete checks -/

/-- An upstream on which every call succeeds. -/
def Sample.upOk : Upstream :=
  { managerNew := fun _ => none, controllerNew := fun _ => none,
    controllerWatch := fun _ _ => none }

/-- An upstream on which `controller.Watch` fails for the kind `Pod` only. -/
def Sample.upNoPod : Upstream :=
  { managerNew := fun _ => none, controllerNew := fun _ => none,
    controllerWatch := fun s _ =>
      if ToKind s == "Pod" then some (Error.other "no kind Pod") else none }

def Sample.pod : Resource := { Kind := "Pod", Namespace := "", Name := "" }

def Sample.svc : Resource := { Kind := "Service", Namespace := "", Name := "" }

def Sample.ownerA : Resource := { Kind := "Cluster", Namespace := "ns", Name := "a" }

def Sample.ownerB : Resource := { Kind := "Cluster", Namespace := "ns", Name := "b" }

def Sample.target1 : Resource := { Kind := "Plan", Namespace := "ns", Name := "t1" }

def Sample.target2 : Resource := { Kind := "Plan", Namespace := "ns", Name := "t2" }

def Sample.chan : Channel := { id := 1 }

def Sample.p1 : Predicate := { id := 1 }

def Sample.p2 : Predicate := { id := 2 }

def Sample.cfg : RestConfig := { Host := "https://a", BearerToken := "t" }

/-- A watch on `Pod` as a caller builds it. -/
def Sample.watchPod (ps : List Predicate) : Watch :=
  { Subject := Sample.pod, Predicates := ps, started := false }

/-- A watch on `Service` as a caller builds it. -/
def Sample.watchSvc (ps : List Predicate) : Watch :=
  { Subject := Sample.svc, Predicates := ps, started := false }

/-- A relay on `Sample.chan` towards `Sample.target1` that mentions `Pod`. -/
def Sample.relayPod : Relay :=
  { Target := some Sample.target1, Channel := Sample.chan, Watch := [Sample.watchPod []] }

/-- A started remote holding a started `Service` watch. -/
def Sample.running : Remote :=
  { Name := "a", RestCfg := some Sample.cfg, relay := [],
    watch := [{ Subject := Sample.svc, Predicates := [], started := true }],
    started := true, done := DoneChan.isNil }

/-- The remote reached from `&Remote{}` by `EnsureRelay(Sample.relayPod)`. -/
def Sample.held : Remote := (Remote.zero.EnsureRelay Sample.upOk Sample.relayPod).1

/-- A remote with two watches and no relay. -/
def Sample.loaded : Remote :=
  { Remote.zero with
    watch := [Sample.watchPod [Sample.p1], Sample.watchSvc [Sample.p2]] }

def Sample.wDefA : WatchDefinition :=
  { RemoteOwner := Sample.ownerA, Watch := [Sample.watchPod []] }

def Sample.wDefB : WatchDefinition :=
  { RemoteOwner := Sample.ownerB, Watch := [Sample.watchPod []] }

/-- The definition `{channel c, target t1, watches [(A, Pod)]}`. -/
def Sample.defA : RelayDefinition :=
  { Channel := Sample.chan, Target := some Sample.target1, Watch := [Sample.wDefA] }

/-- The container after `Sample.defA` has been applied to the empty container. -/
def Sample.afterA : Container :=
  { remote := [(Container.key Sample.ownerA,
      { Remote.zero with relay := [Sample.relayPod], watch := [Sample.watchPod []] })] }

/-! ## Reachable remotes -/

/-- The remotes a client of the package can arrive at: a `Remote` literal has its
exported fields `Name` and `RestCfg` set and no watches or relays, is not started and has a
nil `done`; from there the exported fields can be assigned and the exported methods
called, against any upstream. -/
inductive Remote.Reachable : Remote → Prop
  | literal (name : String) (cfg : Option RestConfig) :
      Remote.Reachable
        { Name := name, RestCfg := cfg, relay := [], watch := [], started := false,
          done := DoneChan.isNil }
  | assign (r : Remote) (name : String) (cfg : Option RestConfig) :
      Remote.Reachable r → Remote.Reachable { r with Name := name, RestCfg := cfg }
  | start (up : Upstream) (r : Remote) :
      Remote.Reachable r → Remote.Reachable (r.Start up).1
  | shutdown (r : Remote) : Remote.Reachable r → Remote.Reachable r.Shutdown
  | reset (r : Remote) : Remote.Reachable r → Remote.Reachable r.Reset
  | ensureWatch (up : Upstream) (r : Remote) (w : Watch) :
      Remote.Reachable r → Remote.Reachable (r.EnsureWatch up w).1
  | ensureRelay (up : Upstream) (r : Remote) (relay : Relay) :
      Remote.Reachable r → Remote.Reachable (r.EnsureRelay up relay).1
  | endRelay (r : Remote) (relay : Relay) (r1 : Remote) :
      Remote.Reachable r → r.EndRelay relay = some r1 → Remote.Reachable r1
  | takeWorkload (up : Upstream) (r other : Remote) :
      Remote.Reachable r → Remote.Reachable other →
      Remote.Reachable (r.TakeWorkload up other).1
  | takenFrom (up : Upstream) (r other : Remote) :
      Remote.Reachable r → Remote.Reachable other →
      Remote.Reachable (r.TakeWorkload up other).2

/-- No two relays of the list have the same channel. -/
def ChannelsDistinct (l : List Relay) : Prop :=
  (l.map (fun rl => rl.Channel)).Nodup

/-- No two watches of the list have the same kind. -/
def KindsDistinct (l : List Watch) : Prop :=
  (l.map (fun w => ToKind w.Subject)).Nodup

/-! ## Predicates on containers used in the statements -/

/-- Every remote of the container holds at most one relay per channel. -/
def Container.RelaysDistinct (c : Container) : Prop :=
  ∀ kr ∈ c.remote, ChannelsDistinct kr.2.relay

/-- The relay `EnsureRelayDefinition` passes to `EndRelay`. -/
def RelayDefinition.probe (d : RelayDefinition) : Relay :=
  { Target := none, Channel := d.Channel, Watch := [] }

/-- An entry of the map after the first loop of `EnsureRelayDefinition`, when the remote
holds at most one relay per channel: the relays on the channel of the definition are
gone from a remote the definition does not name. -/
def RelayDefinition.ended (d : RelayDefinition) (kr : Key × Remote) : Key × Remote :=
  if d.hasRemote kr.1 Container.key then kr
  else (kr.1, { kr.2 with relay := kr.2.relay.filter (fun rl => !rl.Match d.probe) })

/-- The first watch of the kind of `s` in the list has an empty predicate list. -/
def NilFirst (l : List Watch) (s : Resource) : Prop :=
  ∃ i x, findFirst (fun w : Watch => w.Match s) l = some (i, x) ∧ x.Predicates = []

/-- The remote has the relay of the definition for `wDef` in place: its first relay on
the channel mentions every kind of `wDef`, and for every kind that relay mentions the
first watch of the remote of that kind has an empty predicate list. -/
def Saturated (d : RelayDefinition) (wDef : WatchDefinition) (r : Remote) : Prop :=
  ∃ i rl, r.findRelay (d.relayFor wDef) = some (i, rl) ∧
    (∀ w ∈ wDef.Watch, ∃ x ∈ rl.Watch, ToKind x.Subject = ToKind w.Subject) ∧
    (∀ x ∈ rl.Watch, NilFirst r.watch x.Subject)

/-- The remote under `key` after the second loop of `EnsureRelayDefinition` has run
over `ws` without error, from the remote `o` under `key` before (`none`: no entry). -/
def Container.remoteAfter (up : Upstream) (d : RelayDefinition) (key : Key) :
    Option Remote → List WatchDefinition → Option Remote
  | o, [] => o
  | o, wDef :: rest =>
    if Container.key wDef.RemoteOwner = key then
      Container.remoteAfter up d key
        (some ((o.getD Remote.zero).EnsureRelay up (d.relayFor wDef)).1) rest
    else Container.remoteAfter up d key o rest

/-! ## `Container.Ensure` and the lazy container operations -/

set_option linter.dupNamespace false

/-- Go `func (e LibError) Error() string`, with the message of an error of another type. -/
def Error.Error : Error → String
  | Error.other msg => msg
  | Error.lib wrapped _ => wrapped.Error

/-- The outcome of `Container.Ensure`: the container and the `new` remote afterwards, the
remote found under the key (if any) as the call leaves it, which of the two pointers is
returned, and the error. -/
structure EnsureResult where
  container : Container
  new : Remote
  found : Option Remote
  returnsNew : Bool
  err : Option Error
deriving DecidableEq, Repr

/-- Go `func (r *Container) Ensure(owner meta.Object, new *Remote) (*Remote, error)`.  The map
points to the remote found, so what `TakeWorkload` and `Shutdown` do to it shows under the
key until `r.remote[key] = new` is reached. -/
def Container.Ensure (up : Upstream) (c : Container) (owner : Resource) (new : Remote) :
    EnsureResult :=
  let key := Container.key owner
  match c.lookup key with
  | some remote =>
    if remote.Equals new then
      { container := c, new := new, found := some remote, returnsNew := false, err := none }
    else
      let taken := new.TakeWorkload up remote
      let remote1 := taken.2.Shutdown
      let c1 := c.store key remote1
      match taken.1.Start up with
      | (new1, some err) =>
        { container := c1, new := new1, found := some remote1, returnsNew := true,
          err := Wrap "Container.Ensure" (some err) }
      | (new1, none) =>
        { container := c1.store key new1, new := new1, found := some remote1,
          returnsNew := true, err := none }
  | none =>
    match new.Start up with
    | (new1, some err) =>
      { container := c, new := new1, found := none, returnsNew := true,
        err := Wrap "Container.Ensure" (some err) }
    | (new1, none) =>
      { container := c.store key new1, new := new1, found := none, returnsNew := true,
        err := none }

/-- Go `func (r *Container) EnsureWatch(owner meta.Object, watch Watch) error`. -/
def Container.EnsureWatch (up : Upstream) (c : Container) (owner : Resource) (watch : Watch) :
    Container × Option Error :=
  let key := Container.key owner
  let c0 := match c.lookup key with
    | some _ => c
    | none => c.store key Remote.zero
  let remote := (c0.lookup key).getD Remote.zero
  match remote.EnsureWatch up watch with
  | (remote1, some err) => (c0.store key remote1, Wrap "Container.EnsureWatch" (some err))
  | (remote1, none) => (c0.store key remote1, none)

/-- Go `func (r *Container) EnsureRelay(owner meta.Object, relay *Relay) error`. -/
def Container.EnsureRelay (up : Upstream) (c : Container) (owner : Resource) (relay : Relay) :
    Container × Option Error :=
  let key := Container.key owner
  let c0 := match c.lookup key with
    | some _ => c
    | none => c.store key Remote.zero
  let remote := (c0.lookup key).getD Remote.zero
  match remote.EnsureRelay up relay with
  | (remote1, some err) => (c0.store key remote1, Wrap "Container.EnsureRelay" (some err))
  | (remote1, none) => (c0.store key remote1, none)

/-! ## `Remote.Shutdown` with its lock and its deferred calls -/

/-- Go `close(ch)` on the `done` channel: `none` when it panics, which it does on a nil
channel and on a closed one. -/
def DoneChan.close : DoneChan → Option DoneChan
  | DoneChan.isOpen => some DoneChan.isClosed
  | DoneChan.isNil => none
  | DoneChan.isClosed => none

/-- How a call of `Shutdown` ends: the remote, whether `r.mutex` is still held, and whether
a panic leaves the function. -/
structure ShutdownEnd where
  remote : Remote
  locked : Bool
  panics : Bool
deriving DecidableEq, Repr

/-- The body of `Shutdown` statement by statement.  The deferred calls run in reverse
order of their `defer`, also when `close` panics: first `r.mutex.Unlock()`, then
`func() { recover() }`, which stops the panic. -/
def Remote.ShutdownRun (r : Remote) : ShutdownEnd :=
  -- r.mutex.Lock(); close(r.done); r.started = false
  let body : ShutdownEnd :=
    match r.done.close with
    | none => { remote := r, locked := true, panics := true }
    | some d =>
      { remote := { r with done := d, started := false }, locked := true, panics := false }
  -- deferred: r.mutex.Unlock()
  let unlocked : ShutdownEnd := { body with locked := false }
  -- deferred: func() { recover() }
  { unlocked with panics := false }

/-! ## Events, predicates and the forward filter -/

/-- Go `event.CreateEvent`; `Object` is nil in `none`. -/
structure CreateEvent where
  Meta : Option Resource
  Object : Option Resource
deriving DecidableEq, Repr

/-- Go `event.UpdateEvent`. -/
structure UpdateEvent where
  MetaOld : Option Resource
  ObjectOld : Option Resource
  MetaNew : Option Resource
  ObjectNew : Option Resource
deriving DecidableEq, Repr

/-- Go `event.DeleteEvent`. -/
structure DeleteEvent where
  Meta : Option Resource
  Object : Option Resource
  DeleteStateUnknown : Bool
deriving DecidableEq, Repr

/-- Go `event.GenericEvent`. -/
structure GenericEvent where
  Meta : Option Resource
  Object : Option Resource
deriving DecidableEq, Repr

/-- The four methods of a `predicate.Predicate`. -/
structure PredicateFuncs where
  Create : CreateEvent → Bool
  Update : UpdateEvent → Bool
  Delete : DeleteEvent → Bool
  Generic : GenericEvent → Bool

/-- What each predicate value does: the methods behind the interface value. -/
abbrev PredicateEnv := Predicate → PredicateFuncs

/-- Go `func (w *Watch) create(e event.CreateEvent) bool`: the loop over `w.Predicates`. -/
def Watch.create (env : PredicateEnv) (e : CreateEvent) : List Predicate → Bool
  | [] => true
  | p :: rest => if !(env p).Create e then false else Watch.create env e rest

/-- Go `func (w *Watch) update(e event.UpdateEvent) bool`. -/
def Watch.update (env : PredicateEnv) (e : UpdateEvent) : List Predicate → Bool
  | [] => true
  | p :: rest => if !(env p).Update e then false else Watch.update env e rest

/-- Go `func (w *Watch) delete(e event.DeleteEvent) bool`. -/
def Watch.delete (env : PredicateEnv) (e : DeleteEvent) : List Predicate → Bool
  | [] => true
  | p :: rest => if !(env p).Delete e then false else Watch.delete env e rest

/-- Go `func (w *Watch) generic(e event.GenericEvent) bool`. -/
def Watch.generic (env : PredicateEnv) (e : GenericEvent) : List Predicate → Bool
  | [] => true
  | p :: rest => if !(env p).Generic e then false else Watch.generic env e rest

/-- The event `event.GenericEvent{Meta: r.Target, Object: r.Target}` that `send` builds. -/
def Relay.event (r : Relay) : GenericEvent :=
  { Meta := r.Target, Object := r.Target }

/-- One call of `relay.send()`: the channel sent on and the event sent. -/
structure Sent where
  Channel : Channel
  Event : GenericEvent
deriving DecidableEq, Repr

/-- The inner loop `for _, watch := range relay.Watch` of the forward filter, with
`approve` standing for `watch.create(e)` (or `update`, `delete`, `generic`): the calls of
`relay.send()` it makes, in order.  A send that has to wait for its receiver is taken to
complete; what one send does to its channel is `Relay.send`. -/
def Forward.watchLoop (subject : Watch) (approve : Watch → Bool) (relay : Relay) :
    List Watch → List Sent
  | [] => []
  | watch :: rest =>
    if !subject.Match watch.Subject || !approve watch then
      Forward.watchLoop subject approve relay rest
    else
      { Channel := relay.Channel, Event := relay.event } ::
        Forward.watchLoop subject approve relay rest

/-- The outer loop `for _, relay := range p.remote.relay` of the forward filter. -/
def Forward.relayLoop (subject : Watch) (approve : Watch → Bool) : List Relay → List Sent
  | [] => []
  | relay :: rest =>
    Forward.watchLoop subject approve relay relay.Watch ++
      Forward.relayLoop subject approve rest

/-- Go `func (p *Forward) Create(e event.CreateEvent) bool`: the value returned and the
sends made; `none` when the type assertion `e.Object.(Resource)` panics on a nil object. -/
def Forward.Create (env : PredicateEnv) (remote : Remote) (e : CreateEvent) :
    Option (Bool × List Sent) :=
  match e.Object with
  | none => none
  | some object =>
    let subject : Watch := { Subject := object, Predicates := [], started := false }
    some (false,
      Forward.relayLoop subject (fun w => Watch.create env e w.Predicates) remote.relay)

/-- Go `func (p *Forward) Update(e event.UpdateEvent) bool`; the subject is `e.ObjectNew`. -/
def Forward.Update (env : PredicateEnv) (remote : Remote) (e : UpdateEvent) :
    Option (Bool × List Sent) :=
  match e.ObjectNew with
  | none => none
  | some object =>
    let subject : Watch := { Subject := object, Predicates := [], started := false }
    some (false,
      Forward.relayLoop subject (fun w => Watch.update env e w.Predicates) remote.relay)

/-- Go `func (p *Forward) Delete(e event.DeleteEvent) bool`. -/
def Forward.Delete (env : PredicateEnv) (remote : Remote) (e : DeleteEvent) :
    Option (Bool × List Sent) :=
  match e.Object with
  | none => none
  | some object =>
    let subject : Watch := { Subject := object, Predicates := [], started := false }
    some (false,
      Forward.relayLoop subject (fun w => Watch.delete env e w.Predicates) remote.relay)

/-- Go `func (p *Forward) Generic(e event.GenericEvent) bool`. -/
def Forward.Generic (env : PredicateEnv) (remote : Remote) (e : GenericEvent) :
    Option (Bool × List Sent) :=
  match e.Object with
  | none => none
  | some object =>
    let subject : Watch := { Subject := object, Predicates := [], started := false }
    some (false,
      Forward.relayLoop subject (fun w => Watch.generic env e w.Predicates) remote.relay)

/-- The sends the specification asks for: relay by relay and watch by watch, one event
`{Meta: relay.Target, Object: relay.Target}` on `relay.Channel` for every watch of the
kind of the object whose predicates all hold (`holds p` is the answer of predicate `p`
to the event). -/
def Forward.expected (holds : Predicate → Bool) (object : Resource) (relays : List Relay) :
    List Sent :=
  relays.flatMap (fun relay =>
    (relay.Watch.filter (fun w =>
        decide (ToKind w.Subject = ToKind object) && w.Predicates.all holds)).map
      (fun _ => { Channel := relay.Channel,
                  Event := { Meta := relay.Target, Object := relay.Target } }))

/-! ## The channel of a relay -/

/-- The state of a `chan event.GenericEvent` when no receiver is waiting on it: nil, open
with a buffer of `capacity` places holding `queue`, or closed. -/
inductive ChanState where
  | isNil
  | isOpen (capacity : Nat) (queue : List GenericEvent)
  | isClosed (queue : List GenericEvent)
deriving DecidableEq, Repr

/-- What the send statement `ch <- v` does with no receiver waiting. -/
inductive SendOp where
  | proceeds (after : ChanState)
  | panics
  | parks
deriving DecidableEq, Repr

/-- Go `ch <- v`: a send on a closed channel panics, a send on a nil channel parks the
goroutine for ever, a send on an open channel proceeds when the buffer has room and parks
until a receiver makes room otherwise. -/
def ChanState.send (ch : ChanState) (v : GenericEvent) : SendOp :=
  match ch with
  | ChanState.isNil => SendOp.parks
  | ChanState.isClosed _ => SendOp.panics
  | ChanState.isOpen capacity queue =>
    if queue.length < capacity then SendOp.proceeds (ChanState.isOpen capacity (queue ++ [v]))
    else SendOp.parks

/-- How a call ends: it returns, a panic leaves it, or it is parked in a channel
operation. -/
inductive CallEnd where
  | returns
  | panics
  | parked
deriving DecidableEq, Repr

/-- Go `func (r *Relay) send()` on the state `ch` of `r.Channel`: the channel afterwards
and how the call ends.  The deferred `recover()` turns a panic of the send statement
into a normal return. -/
def Relay.send (r : Relay) (ch : ChanState) : ChanState × CallEnd :=
  match ch.send r.event with
  | SendOp.proceeds after => (after, CallEnd.returns)
  | SendOp.panics => (ch, CallEnd.returns)
  | SendOp.parks => (ch, CallEnd.parked)

/-- Go `<-ch` by a receiver on an open channel with a buffered element: the element
received and the channel afterwards. -/
def ChanState.receive : ChanState → Option (GenericEvent × ChanState)
  | ChanState.isOpen capacity (v :: queue) => some (v, ChanState.isOpen capacity queue)
  | _ => none

/-! ## Unwrapping, and sequences of calls on a remote -/

/-- Go `func (e LibError) Unwrap() error`; an error of another type has no cause here. -/
def Error.Unwrap : RemoteWatch.Error → Option RemoteWatch.Error
  | Error.lib wrapped _ => some wrapped
  | Error.other _ => none

/-- One call on a remote: `EnsureWatch`, `EnsureRelay`, `EndRelay`, `Reset`, or
`TakeWorkload` from another remote, each with the upstream it runs against. -/
inductive Call where
  | ensureWatch (up : Upstream) (watch : Watch)
  | ensureRelay (up : Upstream) (relay : Relay)
  | endRelay (relay : Relay)
  | reset
  | takeWorkload (up : Upstream) (other : Remote)

/-- The remote after one call; `none` when the call panics. -/
def Remote.call (r : Remote) : Call → Option Remote
  | Call.ensureWatch up watch => some (r.EnsureWatch up watch).1
  | Call.ensureRelay up relay => some (r.EnsureRelay up relay).1
  | Call.endRelay relay => r.EndRelay relay
  | Call.reset => some r.Reset
  | Call.takeWorkload up other => some (r.TakeWorkload up other).1

/-- The remote after a sequence of calls; `none` when one of them panics. -/
def Remote.calls : Remote → List Call → Option Remote
  | r, [] => some r
  | r, c :: rest =>
    match r.call c with
    | none => none
    | some r1 => Remote.calls r1 rest

/-! ## The forward filter on the channels of the relays -/

/-- The state of every channel, by channel. -/
abbrev Channels := Channel → ChanState

/-- The channels with the state of `c` replaced by `s`. -/
def Channels.set (chs : Channels) (c : Channel) (s : ChanState) : Channels :=
  fun x => if x = c then s else chs x

/-- How the loops of the forward filter end: the channels afterwards, the calls of
`relay.send()` that have returned, in order, and whether the loops have run through
(`returns`) or the goroutine is parked in a send. -/
structure ForwardEnd where
  channels : Channels
  sent : List Sent
  ending : CallEnd

/-- The inner loop `for _, watch := range relay.Watch` of the forward filter on the
channels `chs`: every `relay.send()` acts on the state of `relay.Channel`, and the loop
goes on only when the call returns. -/
def Forward.watchRun (subject : Watch) (approve : Watch → Bool) (relay : Relay) :
    Channels → List Watch → ForwardEnd
  | chs, [] => { channels := chs, sent := [], ending := CallEnd.returns }
  | chs, watch :: rest =>
    if !subject.Match watch.Subject || !approve watch then
      Forward.watchRun subject approve relay chs rest
    else
      match relay.send (chs relay.Channel) with
      | (ch1, CallEnd.returns) =>
        let e := Forward.watchRun subject approve relay (chs.set relay.Channel ch1) rest
        { e with sent := { Channel := relay.Channel, Event := relay.event } :: e.sent }
      | (ch1, ending) =>
        { channels := chs.set relay.Channel ch1, sent := [], ending := ending }

/-- The outer loop `for _, relay := range p.remote.relay` of the forward filter on the
channels `chs`. -/
def Forward.relayRun (subject : Watch) (approve : Watch → Bool) :
    Channels → List Relay → ForwardEnd
  | chs, [] => { channels := chs, sent := [], ending := CallEnd.returns }
  | chs, relay :: rest =>
    let e1 := Forward.watchRun subject approve relay chs relay.Watch
    match e1.ending with
    | CallEnd.returns =>
      let e2 := Forward.relayRun subject approve e1.channels rest
      { e2 with sent := e1.sent ++ e2.sent }
    | _ => e1

/-- Go `func (p *Forward) Create(e event.CreateEvent) bool` on the channels `chs`; `none`
when the type assertion panics.  When the loops have run through, the method returns
`false`. -/
def Forward.CreateOn (env : PredicateEnv) (remote : Remote) (chs : Channels)
    (e : CreateEvent) : Option ForwardEnd :=
  match e.Object with
  | none => none
  | some object =>
    let subject : Watch := { Subject := object, Predicates := [], started := false }
    some (Forward.relayRun subject (fun w => Watch.create env e w.Predicates) chs
      remote.relay)

/-- Go `func (p *Forward) Update(e event.UpdateEvent) bool` on the channels `chs`. -/
def Forward.UpdateOn (env : PredicateEnv) (remote : Remote) (chs : Channels)
    (e : UpdateEvent) : Option ForwardEnd :=
  match e.ObjectNew with
  | none => none
  | some object =>
    let subject : Watch := { Subject := object, Predicates := [], started := false }
    some (Forward.relayRun subject (fun w => Watch.update env e w.Predicates) chs
      remote.relay)

/-- Go `func (p *Forward) Delete(e event.DeleteEvent) bool` on the channels `chs`. -/
def Forward.DeleteOn (env : PredicateEnv) (remote : Remote) (chs : Channels)
    (e : DeleteEvent) : Option ForwardEnd :=
  match e.Object with
  | none => none
  | some object =>
    let subject : Watch := { Subject := object, Predicates := [], started := false }
    some (Forward.relayRun subject (fun w => Watch.delete env e w.Predicates) chs
      remote.relay)

/-- Go `func (p *Forward) Generic(e event.GenericEvent) bool` on the channels `chs`. -/
def Forward.GenericOn (env : PredicateEnv) (remote : Remote) (chs : Channels)
    (e : GenericEvent) : Option ForwardEnd :=
  match e.Object with
  | none => none
  | some object =>
    let subject : Watch := { Subject := object, Predicates := [], started := false }
    some (Forward.relayRun subject (fun w => Watch.generic env e w.Predicates) chs
      remote.relay)

/-! ## More sample values -/

def Sample.cfg2 : RestConfig := { Host := "https://b", BearerToken := "t" }

/-- A remote `A` as `Start` and the `Ensure...` calls made on a started remote leave it:
started, with two installed watches and one relay. -/
def Sample.remoteA : Remote :=
  { Name := "a", RestCfg := some Sample.cfg, relay := [Sample.relayPod],
    watch := [{ Subject := Sample.pod, Predicates := [], started := true },
              { Subject := Sample.svc, Predicates := [], started := true }],
    started := true, done := DoneChan.isNil }

/-- The literal `&Remote{Name: "a2", RestCfg: cfg2}`. -/
def Sample.remoteA2 : Remote :=
  { Remote.zero with Name := "a2", RestCfg := some Sample.cfg2 }

/-- A predicate environment: `p1` approves everything, every other predicate nothing. -/
def Sample.env : PredicateEnv := fun p =>
  if p = Sample.p1 then
    { Create := fun _ => true, Update := fun _ => true, Delete := fun _ => true,
      Generic := fun _ => true }
  else
    { Create := fun _ => false, Update := fun _ => false, Delete := fun _ => false,
      Generic := fun _ => false }

/-- A relay on a second channel towards `Sample.target2` that mentions `Pod`. -/
def Sample.relayPod2 : Relay :=
  { Target := some Sample.target2, Channel := { id := 2 }, Watch := [Sample.watchPod []] }

/-- A remote holding `Sample.relayPod` and then `Sample.relayPod2`. -/
def Sample.twoRelays : Remote :=
  { Remote.zero with relay := [Sample.relayPod, Sample.relayPod2] }

/-- The channel of `Sample.relayPod` is nil, every other channel is open with one free
buffer place. -/
def Sample.chansNil : Channels := fun c =>
  if c = Sample.chan then ChanState.isNil else ChanState.isOpen 1 []

/-- The channel of `Sample.relayPod` is closed, every other channel is open with one free
buffer place. -/
def Sample.chansClosed : Channels := fun c =>
  if c = Sample.chan then ChanState.isClosed [] else ChanState.isOpen 1 []

/-- The event that a `Pod` was created. -/
def Sample.podCreated : CreateEvent :=
  { Meta := some Sample.pod, Object := some Sample.pod }

end RemoteWatch

/-! # The vSphere reconciler (`pkg/controller/provider/container/vmware/reconciler.go`)

A shallow embedding of `Reconciler`, `Update` and of the model `Base` / `VM`
(`pkg/controller/provider/model/vmware`).

* The store `libmodel.DB` and the vSphere session are outside the sources; the store is a
  table of VM records with scripted faults, the session a list of the responses
  `WaitForUpdatesEx` gives.
* The string in `Base.Object` is either empty or the JSON text of an object; the text is
  represented by the members of the object it encodes (`Blob`).  `json.Marshal` and
  `json.Unmarshal` are the standard library: the first rejects some values, the second
  gives every number back as a `float64`.
* The goroutine `Start` launches is not run by `Start`; its body is `getUpdates`.
-/

namespace Vmware

/-! ## The model (`model/vmware/base.go`, `vm.go`) -/

/-- A property value (`types.AnyType`, held in an `interface{}`): nil, a boolean, an integer
(of a Go integer type, so within the range of `int64`), a string (valid UTF-8), or the
`float64` NaN.  NaN is a value `json.Marshal` rejects ("unsupported value"), as it does
the infinities, channels and functions. -/
inductive Val where
  | null
  | bool (b : Bool)
  | num (n : Int)
  | str (s : String)
  | nan
deriving DecidableEq, Repr

/-- Whether `json.Marshal` accepts the value. -/
def Val.marshals : Val → Bool
  | Val.nan => false
  | _ => true

/-- Go `types.PropertyChange`: `Op` is one of `add`, `remove`, `assign`,
`indirectRemove`. -/
structure PropertyChange where
  Name : String
  Op : String
  Val : Val
deriving DecidableEq, Repr

/-- A `map[string]interface{}`, and the members of a JSON object: the entries, each name
once.  The order of the entries carries no meaning. -/
abbrev JsonObject := List (String × Val)

/-- The read `object[name]`. -/
def JsonObject.get (name : String) : JsonObject → Option Val
  | [] => none
  | (n, v) :: rest => if n = name then some v else JsonObject.get name rest

/-- The assignment `object[name] = val`. -/
def JsonObject.set (name : String) (val : Val) : JsonObject → JsonObject
  | [] => [(name, val)]
  | (n, v) :: rest =>
    if n = name then (name, val) :: rest else (n, v) :: JsonObject.set name val rest

/-- The string in `Base.Object`: the empty string, or the JSON text of an object, given by
its members.  The numbers in the text are the integers written out, the other values are
as they are. -/
inductive Blob where
  | empty
  | json (object : JsonObject)
deriving DecidableEq, Repr

/-- Go `j, _ := json.Marshal(object)` followed by `string(j)`: when `json.Marshal` rejects a
value of the map it returns a nil slice and an error; the error is discarded and the
string of the nil slice is the empty string. -/
def Blob.marshal (object : JsonObject) : Blob :=
  if object.all (fun p => p.2.marshals) then Blob.json object else Blob.empty

/-- Go `type Base struct`. -/
structure Base where
  PK : String
  ID : String
  Object : Blob
deriving DecidableEq, Repr

/-- The loop of `Base.With` over the change set; `p.Op` is not looked at (the `switch` has
only its `default` case). -/
def Base.withLoop : JsonObject → List PropertyChange → JsonObject
  | object, [] => object
  | object, p :: rest => Base.withLoop (object.set p.Name p.Val) rest

/-- Go `func (m *Base) With(changeSet []types.PropertyChange)`: the object starts as the
empty map `map[string]interface{}{}`, the loop fills it, and `m.Object` becomes the string
of what `json.Marshal` returns for it. -/
def Base.With (m : Base) (changeSet : List PropertyChange) : Base :=
  { m with Object := Blob.marshal (Base.withLoop [] changeSet) }

/-- Go `type VM struct { Base }`. -/
structure VM where
  Base : Base
deriving DecidableEq, Repr

/-- The method `With` that `VM` has from the embedded `Base`. -/
def VM.With (m : VM) (changeSet : List PropertyChange) : VM :=
  { m with Base := m.Base.With changeSet }

/-- Go `func (m *VM) Equals(other libmodel.Model) bool`. -/
def VM.Equals (m other : VM) : Bool := m.Base.ID == other.Base.ID

/-! ## The store -/

/-- The errors of the store: the sentinels `NotFound` and `Conflict`, and any other. -/
inductive DBError where
  | NotFound
  | Conflict
  | other (msg : String)
deriving DecidableEq, Repr

/-- Modelled from the spec: `libmodel.DB` is not among the sources.  The spec takes the
store to provide transactional insert, update, delete and get and a `Conflict`
sentinel, with at most one record for a native identifier.  The table of VM records,
whether the store is open, and for `Open`, `Get` and `Update` a script of what the coming
calls answer (`some err`: the call fails with `err` and changes nothing; `none` or an
empty script: the call does its work). -/
structure DB where
  rows : List VM
  isOpen : Bool
  openFaults : List (Option DBError)
  getFaults : List (Option DBError)
  updateFaults : List (Option DBError)
deriving DecidableEq, Repr

/-- The record of the native identifier `id`. -/
def DB.find (id : String) : List VM → Option VM
  | [] => none
  | m :: rest => if m.Base.ID = id then some m else DB.find id rest

/-- The table with the record of the identifier of `m` replaced by `m`. -/
def DB.replace (m : VM) : List VM → List VM
  | [] => []
  | x :: rest => if x.Base.ID = m.Base.ID then m :: rest else x :: DB.replace m rest

/-- Modelled from the spec: `db.Open(purge)`. -/
def DB.Open (db : DB) (_purge : Bool) : DB × Option DBError :=
  match db.openFaults with
  | some err :: script => ({ db with openFaults := script }, some err)
  | none :: script => ({ db with openFaults := script, isOpen := true }, none)
  | [] => ({ db with isOpen := true }, none)

/-- Modelled from the spec: `db.Close(purge)`. -/
def DB.Close (db : DB) (_purge : Bool) : DB := { db with isOpen := false }

/-- The work of `db.Get(m)`: `m` is filled from the record of its identifier. -/
def DB.getRow (db : DB) (m : VM) : VM × Option DBError :=
  match DB.find m.Base.ID db.rows with
  | some row => (row, none)
  | none => (m, some DBError.NotFound)

/-- Modelled from the spec: `db.Get(m)`; the store, the model and the error. -/
def DB.Get (db : DB) (m : VM) : DB × VM × Option DBError :=
  match db.getFaults with
  | some err :: script => ({ db with getFaults := script }, m, some err)
  | none :: script =>
    ({ db with getFaults := script }, (db.getRow m).1, (db.getRow m).2)
  | [] => (db, (db.getRow m).1, (db.getRow m).2)

/-- The work of `db.Update(m)`: the record of the identifier of `m` becomes `m`. -/
def DB.updateRow (db : DB) (m : VM) : DB × Option DBError :=
  match DB.find m.Base.ID db.rows with
  | some _ => ({ db with rows := DB.replace m db.rows }, none)
  | none => (db, some DBError.NotFound)

/-- Modelled from the spec: `db.Update(m)`. -/
def DB.Update (db : DB) (m : VM) : DB × Option DBError :=
  match db.updateFaults with
  | some err :: script => ({ db with updateFaults := script }, some err)
  | none :: script => DB.updateRow { db with updateFaults := script } m
  | [] => DB.updateRow db m

/-- Modelled from the spec: `db.Insert(m)`; a second record for an identifier is
refused. -/
def DB.Insert (db : DB) (m : VM) : DB × Option DBError :=
  match DB.find m.Base.ID db.rows with
  | some _ => (db, some (DBError.other "unique constraint"))
  | none => ({ db with rows := db.rows ++ [m] }, none)

/-- Modelled from the spec: `db.Delete(m)`. -/
def DB.Delete (db : DB) (m : VM) : DB × Option DBError :=
  match DB.find m.Base.ID db.rows with
  | some _ => ({ db with rows := db.rows.filter (fun x => x.Base.ID != m.Base.ID) }, none)
  | none => (db, some DBError.NotFound)

/-! ## Updates (`reconciler.go`) -/

/-- The constants `Enter`, `Leave`, `Modify` and `VirtualMachine`. -/
def Enter : String := "enter"

def Leave : String := "leave"

def Modify : String := "modify"

def VirtualMachine : String := "VirtualMachine"

/-- A `context.Context`: whether it has been cancelled. -/
structure Context where
  cancelled : Bool
deriving DecidableEq, Repr

/-- Go `type Update struct`; the store is shared with the reconciler, so the store an
update leaves is the store of the reconciler. -/
structure Update where
  db : DB
  kind : String
  changeSet : List PropertyChange
  model : VM
deriving DecidableEq, Repr

/-- How `Update.update` ends: the update, the number of `db.Update` calls made, and
whether the loop was left (`false`: the iterations allowed were used up). -/
structure UpdateEnd where
  update : Update
  attempts : Nat
  left : Bool
deriving DecidableEq, Repr

/-- The `for` loop of `Update.update`, for at most `fuel` iterations.  After a `Conflict`
the `select` waits for `time.After(time.Second)` or `ctx.Done()`; its `break` leaves
the `select` only, so `continue` is reached in both cases. -/
def Update.updateLoop : Nat → Context → Update → Nat → UpdateEnd
  | 0, _, u, attempts => { update := u, attempts := attempts, left := false }
  | fuel + 1, ctx, u, attempts =>
    match u.db.Get u.model with
    | (db1, m1, some _) =>
      { update := { u with db := db1, model := m1 }, attempts := attempts, left := true }
    | (db1, m1, none) =>
      let m2 := m1.With u.changeSet
      match db1.Update m2 with
      | (db2, none) =>
        { update := { u with db := db2, model := m2 }, attempts := attempts + 1,
          left := true }
      | (db2, some err) =>
        if err = DBError.Conflict then
          Update.updateLoop fuel ctx { u with db := db2, model := m2 } (attempts + 1)
        else
          { update := { u with db := db2, model := m2 }, attempts := attempts + 1,
            left := true }

/-- Go `func (u *Update) update(ctx context.Context)`.  A further iteration needs a
`Conflict`, which uses up one entry of the script of `db.Update`: one iteration more
than the script is long is all the loop can make. -/
def Update.update (ctx : Context) (u : Update) : UpdateEnd :=
  Update.updateLoop (u.db.updateFaults.length + 1) ctx u 0

/-- Go `func (u *Update) insert()`. -/
def Update.insert (u : Update) : Update :=
  let m := u.model.With u.changeSet
  { u with db := (u.db.Insert m).1, model := m }

/-- Go `func (u *Update) delete()`. -/
def Update.delete (u : Update) : Update :=
  { u with db := (u.db.Delete u.model).1 }

/-- Go `func (u *Update) Apply(ctx context.Context)`. -/
def Update.Apply (ctx : Context) (u : Update) : Update :=
  if u.kind = Enter then u.insert
  else if u.kind = Modify then (u.update ctx).update
  else if u.kind = Leave then u.delete
  else u

/-! ## The reconciler -/

/-- Go `types.ManagedObjectReference`; `TypeName` is its field `Type`. -/
structure ManagedObjectReference where
  TypeName : String
  Value : String
deriving DecidableEq, Repr

/-- Go `types.ObjectUpdate`. -/
structure ObjectUpdate where
  Kind : String
  Obj : ManagedObjectReference
  ChangeSet : List PropertyChange
deriving DecidableEq, Repr

/-- Go `types.UpdateSet`, with `FilterSet` reduced to the object sets; `Truncated` is a
`*bool`. -/
structure UpdateSet where
  Version : String
  FilterSet : List (List ObjectUpdate)
  Truncated : Option Bool
deriving DecidableEq, Repr

/-- One answer of `methods.WaitForUpdatesEx`: an error (with whether the context was
cancelled by then), a response without update set, or an update set. -/
inductive Response where
  | fault (err : RemoteWatch.Error) (cancelled : Bool)
  | ended
  | updates (updateSet : UpdateSet)
deriving DecidableEq, Repr

/-- The vSphere endpoint: what `govmomi.NewClient`, `pc.Create` and `pc.CreateFilter`
answer, and the answers of the successive `WaitForUpdatesEx` calls. -/
structure Endpoint where
  newClient : Option RemoteWatch.Error
  create : Option RemoteWatch.Error
  createFilter : Option RemoteWatch.Error
  responses : List Response
deriving DecidableEq, Repr

/-- Go `type Reconciler struct`: `client` is whether the client has been built, `cancel`
whether the cancel function has been set. -/
structure Reconciler where
  host : String
  user : String
  password : String
  db : DB
  client : Bool
  cancel : Bool
  consistent : Bool
deriving DecidableEq, Repr

/-- Go `func New(host string, secret *core.Secret, db libmodel.DB) *Reconciler`, the secret
given by its `user` and `password` entries. -/
def New (host user password : String) (db : DB) : Reconciler :=
  { host := host, user := user, password := password, db := db, client := false,
    cancel := false, consistent := false }

/-- Go `func (r *Reconciler) Reset()`. -/
def Reconciler.Reset (r : Reconciler) : Reconciler := { r with consistent := false }

/-- Go `func (r *Reconciler) HasConsistency() bool`. -/
def Reconciler.HasConsistency (r : Reconciler) : Bool := r.consistent

/-- Go `func (r Reconciler) apply(ctx context.Context, updates []types.ObjectUpdate)`. -/
def Reconciler.apply (ctx : Context) : Reconciler → List ObjectUpdate → Reconciler
  | r, [] => r
  | r, u :: rest =>
    if u.Obj.TypeName = VirtualMachine then
      let update : Update :=
        { db := r.db, kind := u.Kind, changeSet := u.ChangeSet,
          model := { Base := { PK := "", ID := u.Obj.Value, Object := Blob.empty } } }
      Reconciler.apply ctx { r with db := (update.Apply ctx).db } rest
    else Reconciler.apply ctx r rest

/-- The loop `for _, fs := range updateSet.FilterSet { r.apply(ctx, fs.ObjectSet) }`. -/
def Reconciler.applyAll (ctx : Context) : Reconciler → List (List ObjectUpdate) → Reconciler
  | r, [] => r
  | r, objectSet :: rest => Reconciler.applyAll ctx (Reconciler.apply ctx r objectSet) rest

/-- How `getUpdates` stands once the answers given so far are used up: it has returned
(with its error), or it is in `WaitForUpdatesEx` waiting for the next answer. -/
inductive LoopEnd where
  | returned (err : Option RemoteWatch.Error)
  | waiting
deriving DecidableEq, Repr

/-- The `for` loop of `getUpdates` over the answers of `WaitForUpdatesEx`. -/
def Reconciler.updateLoop (ctx : Context) : Reconciler → List Response → Reconciler × LoopEnd
  | r, [] => (r, LoopEnd.waiting)
  | r, Response.fault err cancelled :: _ =>
    if cancelled then (r, LoopEnd.returned none) else (r, LoopEnd.returned (some err))
  | r, Response.ended :: _ => (r, LoopEnd.returned none)
  | r, Response.updates updateSet :: rest =>
    let r1 := Reconciler.applyAll ctx r updateSet.FilterSet
    let r2 :=
      if updateSet.Truncated = none || updateSet.Truncated = some false then
        { r1 with consistent := true }
      else r1
    Reconciler.updateLoop ctx r2 rest

/-- Go `func (r *Reconciler) getUpdates(ctx context.Context) error`. -/
def Reconciler.getUpdates (endpoint : Endpoint) (ctx : Context) (r : Reconciler) :
    Reconciler × LoopEnd :=
  match endpoint.create with
  | some err => (r, LoopEnd.returned (some err))
  | none =>
    match endpoint.createFilter with
    | some err => (r, LoopEnd.returned (some err))
    | none => Reconciler.updateLoop ctx r endpoint.responses

/-- How `Start` ends: the reconciler, the error returned, and whether the goroutine running
`getUpdates` has been launched. -/
structure StartEnd where
  reconciler : Reconciler
  err : Option RemoteWatch.Error
  launched : Bool
deriving DecidableEq, Repr

/-- The Go error of a store error. -/
def DBError.toError : DBError → RemoteWatch.Error
  | DBError.NotFound => RemoteWatch.Error.other "not found"
  | DBError.Conflict => RemoteWatch.Error.other "conflict"
  | DBError.other msg => RemoteWatch.Error.other msg

/-- Go `func (r *Reconciler) Start() error`. -/
def Reconciler.Start (endpoint : Endpoint) (r : Reconciler) : StartEnd :=
  match r.db.Open true with
  | (db1, some err) =>
    { reconciler := { r with db := db1 }, err := some err.toError, launched := false }
  | (db1, none) =>
    let r1 := { r with db := db1, cancel := true }
    match endpoint.newClient with
    | some err => { reconciler := r1, err := some err, launched := false }
    | none => { reconciler := { r1 with client := true }, err := none, launched := true }

/-- Go `func (r *Reconciler) Shutdown(purge bool)`; `purge` is not used. -/
def Reconciler.Shutdown (r : Reconciler) (_purge : Bool) : Reconciler :=
  { r with db := r.db.Close true }

/-! ## Sample values -/

/-- A stored VM whose blob holds `name` and `summary`. -/
def Sample.vm1 : VM :=
  { Base := { PK := "pk-1", ID := "vm-1",
              Object := Blob.json [("name", Val.str "vm-1"), ("summary", Val.str "s0")] } }

/-- An open store holding `Sample.vm1`, with nothing scripted. -/
def Sample.store : DB :=
  { rows := [Sample.vm1], isOpen := true, openFaults := [], getFaults := [],
    updateFaults := [] }

/-- The `modify` update of `vm-1` that assigns `summary`. -/
def Sample.modifySummary : Update :=
  { db := Sample.store, kind := Modify,
    changeSet := [{ Name := "summary", Op := "assign", Val := Val.str "s1" }],
    model := { Base := { PK := "", ID := "vm-1", Object := Blob.empty } } }


/-! ## Decoding the blob (`web/vmware/vm.go`) -/

/-- A value as `json.Unmarshal` stores it in an `interface{}`: nil for `null`, a `bool`, a
`float64` for every number, a `string`.  The `float64` is given by the integer it holds:
the numbers of a blob are integers, and the `float64` nearest to an integer is an
integer. -/
inductive Decoded where
  | null
  | bool (b : Bool)
  | number (value : Int)
  | str (s : String)
deriving DecidableEq, Repr

/-- The number of low bits of `a` that the 53-bit significand of a `float64` cannot hold,
for `a` below `2 ^ (53 + fuel)`. -/
def excessBits : Nat → Nat → Nat
  | 0, _ => 0
  | fuel + 1, a => if a < 2 ^ 53 then 0 else excessBits fuel (a / 2) + 1

/-- The `float64` that `strconv.ParseFloat(s, 64)` makes of the decimal text of the integer
`n`, for `n` within the range of `int64`: the nearest value with a 53-bit significand,
a tie going to the even significand. -/
def float64 (n : Int) : Int :=
  let a := n.natAbs
  let shift := excessBits 64 a
  let q := a / 2 ^ shift
  let r := a % 2 ^ shift
  let up := decide (2 ^ shift < 2 * r) || (decide (2 * r = 2 ^ shift) && decide (q % 2 = 1))
  Int.sign n * (((if up then q + 1 else q) * 2 ^ shift : Nat) : Int)

/-- What `json.Unmarshal` makes of one value of the JSON text.  NaN cannot be written in
JSON text and does not occur in a blob `Blob.marshal` has made. -/
def Val.decode : Val → Decoded
  | Val.null => Decoded.null
  | Val.bool b => Decoded.bool b
  | Val.num n => Decoded.number (float64 n)
  | Val.str s => Decoded.str s
  | Val.nan => Decoded.null

/-- Go `object := map[string]interface{}{}` followed by
`json.Unmarshal([]byte(m.Object), &object)`: on the empty string `json.Unmarshal` fails
("unexpected end of JSON input"), its error is discarded and the map stays empty; on the
text of an object the map gets one entry for every member. -/
def Blob.decode : Blob → List (String × Decoded)
  | Blob.empty => []
  | Blob.json object => object.map (fun p => (p.1, p.2.decode))

/-- The read `object[name]` on a decoded map: nil when the map has no such entry. -/
def Decoded.get (name : String) : List (String × Decoded) → Decoded
  | [] => Decoded.null
  | (n, v) :: rest => if n = name then v else Decoded.get name rest

/-- Go `type VM struct` of the web package: the REST resource.  `Name` is an `interface{}`
holding a decoded value; `Object` is an `interface{}` that is nil in `none` and holds the
decoded map otherwise. -/
structure WebVM where
  ID : String
  Name : Decoded
  Object : Option (List (String × Decoded))
deriving DecidableEq, Repr

/-- Go `func (r *VM) With(m *model.VM, detail bool)` of the web package. -/
def WebVM.With (r : WebVM) (m : VM) (detail : Bool) : WebVM :=
  let object := m.Base.Object.decode
  let r1 := { r with ID := m.Base.ID, Name := Decoded.get "name" object }
  if detail then { r1 with Object := some object } else r1

/-! ## More sample values -/

/-- The `enter` update of `vm-2` with its `name` and, twice, its `summary`. -/
def Sample.enterVm2 : Update :=
  { db := Sample.store, kind := Enter,
    changeSet := [{ Name := "summary", Op := "assign", Val := Val.str "old" },
                  { Name := "name", Op := "assign", Val := Val.str "vm-2" },
                  { Name := "summary", Op := "assign", Val := Val.str "new" }],
    model := { Base := { PK := "", ID := "vm-2", Object := Blob.empty } } }

/-- The `enter` update of `vm-3` with its `name` and a property whose value is NaN. -/
def Sample.enterNaN : Update :=
  { db := Sample.store, kind := Enter,
    changeSet := [{ Name := "name", Op := "assign", Val := Val.str "vm-3" },
                  { Name := "load", Op := "assign", Val := Val.nan }],
    model := { Base := { PK := "", ID := "vm-3", Object := Blob.empty } } }

/-- The `enter` update of `vm-4` with a property whose value is `2 ^ 53 + 1`. -/
def Sample.enterBig : Update :=
  { db := Sample.store, kind := Enter,
    changeSet := [{ Name := "memory", Op := "assign", Val := Val.num 9007199254740993 }],
    model := { Base := { PK := "", ID := "vm-4", Object := Blob.empty } } }

/-- A store holding `Sample.vm1` whose next three `db.Update` calls answer `Conflict`. -/
def Sample.contended : DB :=
  { Sample.store with
    updateFaults := [some DBError.Conflict, some DBError.Conflict, some DBError.Conflict] }

/-- The `modify` update of `vm-1` on the contended store. -/
def Sample.modifyContended : Update :=
  { Sample.modifySummary with db := Sample.contended }

/-- A reconciler as `New` builds it on a store that is not open and opens without fault. -/
def Sample.fresh : Reconciler :=
  New "vcenter" "user" "password"
    { rows := [], isOpen := false, openFaults := [], getFaults := [], updateFaults := [] }

/-- An endpoint that refuses the connection. -/
def Sample.unreachable : Endpoint :=
  { newClient := some (RemoteWatch.Error.other "connection refused"), create := none,
    createFilter := none, responses := [] }

end Vmware

/-! # The oVirt adapters (`pkg/controller/provider/container/ovirt/model.go`)

A shallow embedding of the adapter list, of the map from event code to adapter that `init`
builds, and of `Apply` of each adapter.

* The event code constants, `Event`, `Client` and the REST resources are declared outside
  the sources: the constants are taken as given (`EventCodes`), `client.get` is answered by
  a `Client` value, and `libmodel.Tx` is a table of records.
* `Apply` yields the transaction it leaves, the error it returns and the references it has
  fetched with `client.get`, in order.
-/

namespace Ovirt

/-! ## The model (`model/ovirt/model.go`) -/

/-- Go `base.Ref`. -/
structure Ref where
  Kind : String
  ID : String
deriving DecidableEq, Repr

/-- Go `type Base struct` of the oVirt model. -/
structure Base where
  ID : String
  Parent : Ref
  Name : String
  Description : String
  Revision : Int
deriving DecidableEq, Repr

/-- The composite literal `model.Base{ID: id}`: every other field has its zero value. -/
def Base.withID (id : String) : Base :=
  { ID := id, Parent := { Kind := "", ID := "" }, Name := "", Description := "",
    Revision := 0 }

/-- The record types the adapters write: `model.DataCenter`, `model.Cluster`, `model.Host`
and `model.VM`, each a struct around `Base` with a table of its own. -/
inductive Table where
  | DataCenter
  | Cluster
  | Host
  | VM
deriving DecidableEq, Repr

/-- A record: its type and its `Base`. -/
structure Model where
  table : Table
  Base : Base
deriving DecidableEq, Repr

/-! ## The store transaction -/

/-- Modelled from the spec: `libmodel.Tx` is not among the sources.  The spec takes the
store to provide transactional insert, update and delete with a `NotFound` sentinel, each
kind having its own table with one record for an identifier. -/
structure Tx where
  rows : List Model
deriving DecidableEq, Repr

/-- Whether `x` is the record of the table and identifier of `m`. -/
def Model.same (m x : Model) : Bool := x.table = m.table && x.Base.ID = m.Base.ID

/-- Modelled from the spec: `tx.Insert(m)`; a second record for an identifier is refused. -/
def Tx.Insert (tx : Tx) (m : Model) : Tx × Option RemoteWatch.Error :=
  if tx.rows.any m.same then (tx, some (RemoteWatch.Error.other "unique constraint"))
  else ({ rows := tx.rows ++ [m] }, none)

/-- Modelled from the spec: `tx.Update(m)`. -/
def Tx.Update (tx : Tx) (m : Model) : Tx × Option RemoteWatch.Error :=
  if tx.rows.any m.same then
    ({ rows := tx.rows.map (fun x => if m.same x then m else x) }, none)
  else (tx, some (RemoteWatch.Error.other "not found"))

/-- Modelled from the spec: `tx.Delete(m)`. -/
def Tx.Delete (tx : Tx) (m : Model) : Tx × Option RemoteWatch.Error :=
  if tx.rows.any m.same then ({ rows := tx.rows.filter (fun x => !m.same x) }, none)
  else (tx, some (RemoteWatch.Error.other "not found"))

/-! ## Events and the client -/

/-- The event code constants the adapters name; they are declared outside the sources and
their values are taken as given. -/
structure EventCodes where
  DataCenterAdded : Int
  DataCenterUpdated : Int
  DataCenterDeleted : Int
  ClusterAdded : Int
  ClusterUpdated : Int
  ClusterDeleted : Int
  HostAdded : Int
  HostUpdated : Int
  HostDeleted : Int
  VmAdded : Int
  VmUpdated : Int
  VmDeleted : Int
deriving DecidableEq, Repr

/-- The twelve constants, in the order of the adapter list. -/
def EventCodes.all (codes : EventCodes) : List Int :=
  [codes.DataCenterAdded, codes.DataCenterUpdated, codes.DataCenterDeleted,
   codes.ClusterAdded, codes.ClusterUpdated, codes.ClusterDeleted,
   codes.HostAdded, codes.HostUpdated, codes.HostDeleted,
   codes.VmAdded, codes.VmUpdated, codes.VmDeleted]

/-- The field of an event that names an object: `event.DataCenter.Ref` and the like. -/
structure EventRef where
  Ref : String
deriving DecidableEq, Repr

/-- Modelled from the spec: `type Event` is not among the sources; an event carries its code
and the reference of the object it is about, in the field of the kind of the object. -/
structure Event where
  Code : Int
  DataCenter : EventRef
  Cluster : EventRef
  Host : EventRef
  VM : EventRef
deriving DecidableEq, Repr

/-- Modelled from the spec: `event.code()`. -/
def Event.code (event : Event) : Int := event.Code

/-- Modelled from the spec: the REST resources `DataCenter`, `Cluster`, `Host` and `VM` of
the container package are not among the sources; a resource is its `ID` and what its
`ApplyTo` makes of a record. -/
structure Object where
  ID : String
  ApplyTo : Base → Base

/-- Modelled from the spec: `client.get(ref, object)`, answered for each reference with the
object or with the error. -/
structure Client where
  get : String → Except RemoteWatch.Error Object

/-! ## The adapters -/

/-- The adapter types, each without fields. -/
inductive Adapter where
  | DataCenterAdapter
  | StorageDomainAdapter
  | VNICProfileAdapter
  | NetworkAdapter
  | ClusterAdapter
  | HostAdapter
  | VMAdapter
deriving DecidableEq, Repr

/-- The list `adapterList` as `init` assigns it. -/
def adapterList : List Adapter :=
  [Adapter.DataCenterAdapter, Adapter.StorageDomainAdapter, Adapter.VNICProfileAdapter,
   Adapter.NetworkAdapter, Adapter.ClusterAdapter, Adapter.HostAdapter, Adapter.VMAdapter]

/-- The methods `Event() []int` of the seven adapters. -/
def Adapter.Event (codes : EventCodes) : Adapter → List Int
  | Adapter.DataCenterAdapter =>
    [codes.DataCenterAdded, codes.DataCenterUpdated, codes.DataCenterDeleted]
  | Adapter.StorageDomainAdapter => []
  | Adapter.VNICProfileAdapter => []
  | Adapter.NetworkAdapter => []
  | Adapter.ClusterAdapter => [codes.ClusterAdded, codes.ClusterUpdated, codes.ClusterDeleted]
  | Adapter.HostAdapter => [codes.HostAdded, codes.HostUpdated, codes.HostDeleted]
  | Adapter.VMAdapter => [codes.VmAdded, codes.VmUpdated, codes.VmDeleted]

/-- A `map[int]Adapter`, for any type of adapters: the entries, each code once. -/
abbrev AdapterMap (A : Type) := List (Int × A)

/-- The read `adapterMap[event]`. -/
def AdapterMap.get {A : Type} (event : Int) : AdapterMap A → Option A
  | [] => none
  | (c, a) :: rest => if c = event then some a else AdapterMap.get event rest

/-- The assignment `adapterMap[event] = adapter`. -/
def AdapterMap.set {A : Type} (event : Int) (adapter : A) : AdapterMap A → AdapterMap A
  | [] => [(event, adapter)]
  | (c, a) :: rest =>
    if c = event then (event, adapter) :: rest
    else (c, a) :: AdapterMap.set event adapter rest

/-- The inner loop of `init`: `for _, event := range adapter.Event()`. -/
def registerEvents {A : Type} (adapter : A) : AdapterMap A → List Int → AdapterMap A
  | m, [] => m
  | m, event :: rest => registerEvents adapter (AdapterMap.set event adapter m) rest

/-- The outer loop of `init`: `for _, adapter := range adapterList`, over any list of
adapters, `event` being their method `Event()`. -/
def register {A : Type} (event : A → List Int) : AdapterMap A → List A → AdapterMap A
  | m, [] => m
  | m, adapter :: rest => register event (registerEvents adapter m (event adapter)) rest

/-- Go `func init()`: the map `adapterMap`, built from the empty map over `adapterList`. -/
def init (codes : EventCodes) : AdapterMap Adapter :=
  register (Adapter.Event codes) [] adapterList

/-- How `Apply` ends: the transaction, the error returned, and the references fetched with
`client.get`. -/
structure ApplyEnd where
  tx : Tx
  err : Option RemoteWatch.Error
  fetched : List String
deriving DecidableEq, Repr

/-- The error `liberr.New("unknown event", "event", event)`; `liberr.New` is not among the
sources and is taken to return a `*LibError` around a new error with the given message. -/
def unknownEvent : RemoteWatch.Error :=
  RemoteWatch.Error.lib (RemoteWatch.Error.other "unknown event") "Adapter.Apply"

/-- The `Added` and `Updated` cases of every `Apply`: fetch the object of `ref`, build the
record with `ID: object.ID`, `object.ApplyTo(m)`, then the store operation `op`. -/
def fetchThen (client : Client) (tx : Tx) (table : Table) (ref : String)
    (op : Tx → Model → Tx × Option RemoteWatch.Error) : ApplyEnd :=
  match client.get ref with
  | Except.error err => { tx := tx, err := some err, fetched := [ref] }
  | Except.ok object =>
    let m : Model := { table := table, Base := object.ApplyTo (Base.withID object.ID) }
    { tx := (op tx m).1, err := (op tx m).2, fetched := [ref] }

/-- Go `func (r *DataCenterAdapter) Apply(client *Client, tx *libmodel.Tx, event *Event)`.
The case `DataCenterDeleted` fetches the object and deletes the record with
`ID: object.ID`. -/
def DataCenterAdapter.Apply (codes : EventCodes) (client : Client) (tx : Tx)
    (event : Event) : ApplyEnd :=
  if event.code = codes.DataCenterAdded then
    fetchThen client tx Table.DataCenter event.DataCenter.Ref Tx.Insert
  else if event.code = codes.DataCenterUpdated then
    fetchThen client tx Table.DataCenter event.DataCenter.Ref Tx.Update
  else if event.code = codes.DataCenterDeleted then
    match client.get event.DataCenter.Ref with
    | Except.error err => { tx := tx, err := some err, fetched := [event.DataCenter.Ref] }
    | Except.ok object =>
      let m : Model := { table := Table.DataCenter, Base := Base.withID object.ID }
      { tx := (tx.Delete m).1, err := (tx.Delete m).2, fetched := [event.DataCenter.Ref] }
  else { tx := tx, err := some unknownEvent, fetched := [] }

/-- Go `func (r *ClusterAdapter) Apply(client *Client, tx *libmodel.Tx, event *Event)`. -/
def ClusterAdapter.Apply (codes : EventCodes) (client : Client) (tx : Tx)
    (event : Event) : ApplyEnd :=
  if event.code = codes.ClusterAdded then
    fetchThen client tx Table.Cluster event.Cluster.Ref Tx.Insert
  else if event.code = codes.ClusterUpdated then
    fetchThen client tx Table.Cluster event.Cluster.Ref Tx.Update
  else if event.code = codes.ClusterDeleted then
    let m : Model := { table := Table.Cluster, Base := Base.withID event.Cluster.Ref }
    { tx := (tx.Delete m).1, err := (tx.Delete m).2, fetched := [] }
  else { tx := tx, err := some unknownEvent, fetched := [] }

/-- Go `func (r *HostAdapter) Apply(client *Client, tx *libmodel.Tx, event *Event)`. -/
def HostAdapter.Apply (codes : EventCodes) (client : Client) (tx : Tx)
    (event : Event) : ApplyEnd :=
  if event.code = codes.HostAdded then
    fetchThen client tx Table.Host event.Host.Ref Tx.Insert
  else if event.code = codes.HostUpdated then
    fetchThen client tx Table.Host event.Host.Ref Tx.Update
  else if event.code = codes.HostDeleted then
    let m : Model := { table := Table.Host, Base := Base.withID event.Host.Ref }
    { tx := (tx.Delete m).1, err := (tx.Delete m).2, fetched := [] }
  else { tx := tx, err := some unknownEvent, fetched := [] }

/-- Go `func (r *VMAdapter) Apply(client *Client, tx *libmodel.Tx, event *Event)`. -/
def VMAdapter.Apply (codes : EventCodes) (client : Client) (tx : Tx)
    (event : Event) : ApplyEnd :=
  if event.code = codes.VmAdded then
    fetchThen client tx Table.VM event.VM.Ref Tx.Insert
  else if event.code = codes.VmUpdated then
    fetchThen client tx Table.VM event.VM.Ref Tx.Update
  else if event.code = codes.VmDeleted then
    let m : Model := { table := Table.VM, Base := Base.withID event.VM.Ref }
    { tx := (tx.Delete m).1, err := (tx.Delete m).2, fetched := [] }
  else { tx := tx, err := some unknownEvent, fetched := [] }

/-- The method `Apply` of the adapter: `NetworkAdapter`, `VNICProfileAdapter` and
`StorageDomainAdapter` have only the `default` case. -/
def Adapter.Apply (codes : EventCodes) (client : Client) (tx : Tx) (event : Ovirt.Event) :
    Adapter → ApplyEnd
  | Adapter.DataCenterAdapter => DataCenterAdapter.Apply codes client tx event
  | Adapter.ClusterAdapter => ClusterAdapter.Apply codes client tx event
  | Adapter.HostAdapter => HostAdapter.Apply codes client tx event
  | Adapter.VMAdapter => VMAdapter.Apply codes client tx event
  | Adapter.NetworkAdapter => { tx := tx, err := some unknownEvent, fetched := [] }
  | Adapter.VNICProfileAdapter => { tx := tx, err := some unknownEvent, fetched := [] }
  | Adapter.StorageDomainAdapter => { tx := tx, err := some unknownEvent, fetched := [] }

/-! ## Sample values -/

/-- Twelve distinct event codes. -/
def Sample.codes : EventCodes :=
  { DataCenterAdded := 1, DataCenterUpdated := 2, DataCenterDeleted := 3,
    ClusterAdded := 4, ClusterUpdated := 5, ClusterDeleted := 6,
    HostAdded := 7, HostUpdated := 8, HostDeleted := 9,
    VmAdded := 10, VmUpdated := 11, VmDeleted := 12 }

/-- A remote that no longer returns any object. -/
def Sample.gone : Client :=
  { get := fun _ => Except.error (RemoteWatch.Error.other "404 not found") }

/-- A transaction over a store holding the data center `dc-1` and the cluster `cl-1`. -/
def Sample.tx : Tx :=
  { rows := [{ table := Table.DataCenter,
               Base := { Base.withID "dc-1" with Name := "Default" } },
             { table := Table.Cluster,
               Base := { Base.withID "cl-1" with Name := "Default" } }] }

/-- The event that the data center `dc-1` was deleted. -/
def Sample.dataCenterDeleted : Event :=
  { Code := 3, DataCenter := { Ref := "dc-1" }, Cluster := { Ref := "" },
    Host := { Ref := "" }, VM := { Ref := "" } }

/-- The event that the cluster `cl-1` was deleted. -/
def Sample.clusterDeleted : Event :=
  { Code := 6, DataCenter := { Ref := "" }, Cluster := { Ref := "cl-1" },
    Host := { Ref := "" }, VM := { Ref := "" } }

/-- Event codes in which `ClusterAdded` has the value of `DataCenterAdded`. -/
def Sample.clash : EventCodes := { Sample.codes with ClusterAdded := 1 }

end Ovirt

namespace RemoteWatch

/-! ## Slice lemmas -/

theorem findFirst_eq_none {α : Type} (p : α → Bool) (l : List α) :
    findFirst p l = none ↔ ∀ x ∈ l, p x = false := by
  induction l with
  | nil => simp [findFirst]
  | cons a t ih =>
    cases hpa : p a with
    | true => simp [findFirst, hpa]
    | false =>
      cases hft : findFirst p t with
      | none => simpa [findFirst, hpa, hft] using ih.mp hft
      | some iy =>
        have hne : ¬ ∀ x ∈ t, p x = false := fun h => by
          rw [ih.mpr h] at hft; cases hft
        simpa [findFirst, hpa, hft] using hne

theorem findFirst_eq_some {α : Type} (p : α → Bool) (l : List α) (i : Nat) (x : α)
    (h : findFirst p l = some (i, x)) :
    ∃ pre post, l = pre ++ x :: post ∧ pre.length = i ∧ (∀ y ∈ pre, p y = false) ∧
      p x = true := by
  induction l generalizing i with
  | nil => simp [findFirst] at h
  | cons a t ih =>
    cases hpa : p a with
    | true =>
      simp [findFirst, hpa] at h
      obtain ⟨rfl, rfl⟩ := h
      exact ⟨[], t, rfl, rfl, by simp, hpa⟩
    | false =>
      cases hft : findFirst p t with
      | none => simp [findFirst, hpa, hft] at h
      | some jy =>
        obtain ⟨j, y⟩ := jy
        simp [findFirst, hpa, hft] at h
        obtain ⟨rfl, rfl⟩ := h
        obtain ⟨pre, post, hl, hlen, hpre, hx⟩ := ih j hft
        refine ⟨a :: pre, post, by simp [hl], by simp [hlen], ?_, hx⟩
        intro z hz
        rcases List.mem_cons.mp hz with rfl | hz
        · exact hpa
        · exact hpre z hz

theorem findFirst_append {α : Type} (p : α → Bool) (pre post : List α) (x : α)
    (hpre : ∀ y ∈ pre, p y = false) (hx : p x = true) :
    findFirst p (pre ++ x :: post) = some (pre.length, x) := by
  induction pre with
  | nil => simp [findFirst, hx]
  | cons a t ih =>
    have ha : p a = false := hpre a (List.mem_cons_self _ _)
    have ht := ih (fun y hy => hpre y (List.mem_cons_of_mem _ hy))
    simp [findFirst, ha, ht]

theorem updateAt_append {α : Type} (f : α → α) (pre post : List α) (x : α) :
    updateAt f pre.length (pre ++ x :: post) = pre ++ f x :: post := by
  induction pre with
  | nil => simp [updateAt]
  | cons a t ih => simp [updateAt, ih]

theorem exists_of_not_all_false {α : Type} (p : α → Bool) (l : List α)
    (h : ∃ x ∈ l, p x = true) : ∃ i x, findFirst p l = some (i, x) := by
  cases hf : findFirst p l with
  | none =>
    obtain ⟨x, hx, hpx⟩ := h
    have := (findFirst_eq_none p l).mp hf x hx
    rw [this] at hpx; cases hpx
  | some ix => exact ⟨ix.1, ix.2, rfl⟩

/-! ## Watch lemmas -/

theorem Match_iff (w : Watch) (r : Resource) :
    w.Match r = true ↔ ToKind w.Subject = ToKind r := by
  simp [Watch.Match]

theorem Match_false_iff (w : Watch) (r : Resource) :
    w.Match r = false ↔ ToKind w.Subject ≠ ToKind r := by
  simp [Watch.Match]

theorem start_subject (up : Upstream) (w : Watch) (r : Remote) :
    (w.start up r).1.Subject = w.Subject ∧ (w.start up r).1.Predicates = w.Predicates := by
  unfold Watch.start
  split
  · exact ⟨rfl, rfl⟩
  · split <;> exact ⟨rfl, rfl⟩

theorem start_started (up : Upstream) (w : Watch) (r : Remote) (hw : w.started = false) :
    (w.start up r).1.started = true ↔
      (r.started = true ∧ up.controllerWatch w.Subject w.chain = none) := by
  unfold Watch.start
  cases hr : r.started <;> simp [hw]
  cases hc : up.controllerWatch w.Subject w.chain <;> simp [hw]

theorem start_unstarted (up : Upstream) (w : Watch) (r : Remote) (hr : r.started = false) :
    w.start up r = (w, none) := by
  simp [Watch.start, hr]

/-! ## `ensureWatch` -/

theorem ensureWatch_found (up : Upstream) (r : Remote) (w : Watch) (i : Nat) (x : Watch)
    (h : r.findWatch w.Subject = some (i, x)) :
    r.ensureWatch up w = ({ r with watch := updateAt (fun y => y.merge w) i r.watch }, none) := by
  simp [Remote.ensureWatch, h]

theorem ensureWatch_absent (up : Upstream) (r : Remote) (w : Watch)
    (h : r.findWatch w.Subject = none) :
    (r.ensureWatch up w).1 =
      { r with watch := r.watch ++ [(w.start up { r with watch := r.watch ++ [w] }).1] } := by
  simp only [Remote.ensureWatch, h]
  rcases hs : w.start up { r with watch := r.watch ++ [w] } with ⟨w1, _ | err⟩ <;> simp

theorem EnsureWatch_fst (up : Upstream) (r : Remote) (w : Watch) :
    (r.EnsureWatch up w).1 = (r.ensureWatch up w).1 := by
  unfold Remote.EnsureWatch
  rcases r.ensureWatch up w with ⟨r1, _ | err⟩ <;> rfl

/-! ## `Relay.merge` -/

theorem mergeStep_cases (r : Relay) (w : Watch) :
    (r.mergeStep w = r ∧ ∃ x ∈ r.Watch, ToKind x.Subject = ToKind w.Subject) ∨
    (r.mergeStep w = { r with Watch := r.Watch ++ [w] } ∧
      ∀ x ∈ r.Watch, ToKind x.Subject ≠ ToKind w.Subject) := by
  unfold Relay.mergeStep Relay.findWatch
  cases hf : findFirst (fun v : Watch => v.Match w.Subject) r.Watch with
  | none =>
    right
    exact ⟨rfl, fun x hx => (Match_false_iff x w.Subject).mp
      ((findFirst_eq_none _ _).mp hf x hx)⟩
  | some ix =>
    obtain ⟨i, x⟩ := ix
    left
    obtain ⟨pre, post, hl, _, _, hx⟩ := findFirst_eq_some _ _ _ _ hf
    exact ⟨rfl, x, by simp [hl], (Match_iff x w.Subject).mp hx⟩

theorem foldl_mergeStep_frame (ws : List Watch) (r : Relay) :
    ∃ ext, ws.foldl Relay.mergeStep r = { r with Watch := r.Watch ++ ext } ∧
      (∀ w ∈ ext, w ∈ ws) := by
  induction ws generalizing r with
  | nil => exact ⟨[], by simp, by simp⟩
  | cons w t ih =>
    simp only [List.foldl_cons]
    obtain ⟨ext, he, hsub⟩ := ih (r.mergeStep w)
    rcases mergeStep_cases r w with ⟨h, _⟩ | ⟨h, _⟩
    · rw [h] at he ⊢
      exact ⟨ext, he, fun v hv => List.mem_cons_of_mem _ (hsub v hv)⟩
    · rw [h] at he ⊢
      refine ⟨w :: ext, by simpa using he, ?_⟩
      intro v hv
      rcases List.mem_cons.mp hv with rfl | hv
      · exact List.mem_cons_self _ _
      · exact List.mem_cons_of_mem _ (hsub v hv)

theorem merge_frame (r o : Relay) :
    ∃ ext, r.merge o = { r with Watch := r.Watch ++ ext } ∧ (∀ w ∈ ext, w ∈ o.Watch) :=
  foldl_mergeStep_frame o.Watch r

theorem merge_Channel (r o : Relay) : (r.merge o).Channel = r.Channel := by
  obtain ⟨ext, h, _⟩ := merge_frame r o
  rw [h]

theorem merge_Target (r o : Relay) : (r.merge o).Target = r.Target := by
  obtain ⟨ext, h, _⟩ := merge_frame r o
  rw [h]

theorem foldl_mergeStep_covers (ws : List Watch) (r : Relay) :
    ∀ w ∈ ws, ∃ x ∈ (ws.foldl Relay.mergeStep r).Watch,
      ToKind x.Subject = ToKind w.Subject := by
  induction ws generalizing r with
  | nil => simp
  | cons a t ih =>
    intro w hw
    simp only [List.foldl_cons]
    rcases List.mem_cons.mp hw with rfl | hw
    · obtain ⟨ext, he, _⟩ := foldl_mergeStep_frame t (r.mergeStep w)
      rw [he]
      rcases mergeStep_cases r w with ⟨h, x, hx, hk⟩ | ⟨h, _⟩
      · exact ⟨x, by simp [h, hx], hk⟩
      · exact ⟨w, by simp [h], rfl⟩
    · exact ih (r.mergeStep a) w hw

theorem merge_covers (r o : Relay) :
    ∀ w ∈ o.Watch, ∃ x ∈ (r.merge o).Watch, ToKind x.Subject = ToKind w.Subject :=
  foldl_mergeStep_covers o.Watch r

theorem foldl_mergeStep_saturated (ws : List Watch) (r : Relay)
    (h : ∀ w ∈ ws, ∃ x ∈ r.Watch, ToKind x.Subject = ToKind w.Subject) :
    ws.foldl Relay.mergeStep r = r := by
  induction ws with
  | nil => rfl
  | cons a t ih =>
    simp only [List.foldl_cons]
    rcases mergeStep_cases r a with ⟨h1, _⟩ | ⟨_, h2⟩
    · rw [h1]
      exact ih (fun w hw => h w (List.mem_cons_of_mem _ hw))
    · obtain ⟨x, hx, hk⟩ := h a (List.mem_cons_self _ _)
      exact absurd hk (h2 x hx)

theorem merge_saturated (r o : Relay)
    (h : ∀ w ∈ o.Watch, ∃ x ∈ r.Watch, ToKind x.Subject = ToKind w.Subject) :
    r.merge o = r :=
  foldl_mergeStep_saturated o.Watch r h

/-! ## `ensureWatch` and the loop of `EnsureRelay` -/

theorem ensureWatch_frame (up : Upstream) (r : Remote) (w : Watch) :
    ∃ l, (r.ensureWatch up w).1 = { r with watch := l } := by
  cases hf : r.findWatch w.Subject with
  | some ix => exact ⟨_, by rw [ensureWatch_found up r w ix.1 ix.2 hf]⟩
  | none => exact ⟨_, ensureWatch_absent up r w hf⟩

theorem ensureWatch_has_kind (up : Upstream) (r : Remote) (w : Watch) :
    ∃ x ∈ (r.ensureWatch up w).1.watch, ToKind x.Subject = ToKind w.Subject := by
  cases hf : r.findWatch w.Subject with
  | some ix =>
    obtain ⟨i, x⟩ := ix
    obtain ⟨pre, post, hl, hlen, _, hx⟩ := findFirst_eq_some _ _ _ _ hf
    subst hlen
    rw [ensureWatch_found up r w _ x hf]
    refine ⟨x.merge w, ?_, (Match_iff x w.Subject).mp hx⟩
    simp [hl, updateAt_append]
  | none =>
    rw [ensureWatch_absent up r w hf]
    exact ⟨(w.start up { r with watch := r.watch ++ [w] }).1, by simp,
      by rw [(start_subject up w _).1]⟩

theorem ensureWatch_kind_mono (up : Upstream) (r : Remote) (w : Watch) (k : String)
    (h : ∃ x ∈ r.watch, ToKind x.Subject = k) :
    ∃ x ∈ (r.ensureWatch up w).1.watch, ToKind x.Subject = k := by
  obtain ⟨x, hx, hk⟩ := h
  cases hf : r.findWatch w.Subject with
  | some iy =>
    obtain ⟨i, y⟩ := iy
    obtain ⟨pre, post, hl, hlen, _, _⟩ := findFirst_eq_some _ _ _ _ hf
    subst hlen
    rw [ensureWatch_found up r w _ y hf]
    simp only [hl, updateAt_append]
    rw [hl] at hx
    rcases List.mem_append.mp hx with hx | hx
    · exact ⟨x, by simp [hx], hk⟩
    · rcases List.mem_cons.mp hx with rfl | hx
      · exact ⟨x.merge w, by simp, hk⟩
      · exact ⟨x, by simp [hx], hk⟩
  | none =>
    rw [ensureWatch_absent up r w hf]
    exact ⟨x, by simp [hx], hk⟩

theorem ensureWatches_frame (up : Upstream) (ws : List Watch) (r : Remote) :
    ∃ l, (Remote.ensureWatches up r ws).1 = { r with watch := l } := by
  induction ws generalizing r with
  | nil => exact ⟨r.watch, rfl⟩
  | cons a t ih =>
    unfold Remote.ensureWatches
    obtain ⟨l, hl⟩ := ensureWatch_frame up r
      { Subject := a.Subject, Predicates := [], started := false }
    rcases hres : r.ensureWatch up
      { Subject := a.Subject, Predicates := [], started := false } with ⟨r1, _ | err⟩
    · rw [hres] at hl
      simp only at hl
      subst hl
      obtain ⟨l2, hl2⟩ := ih { r with watch := l }
      exact ⟨l2, hl2⟩
    · rw [hres] at hl
      exact ⟨l, hl⟩

theorem ensureWatches_kind_mono (up : Upstream) (ws : List Watch) (r : Remote) (k : String)
    (h : ∃ x ∈ r.watch, ToKind x.Subject = k) :
    ∃ x ∈ (Remote.ensureWatches up r ws).1.watch, ToKind x.Subject = k := by
  induction ws generalizing r with
  | nil => exact h
  | cons a t ih =>
    unfold Remote.ensureWatches
    have h1 := ensureWatch_kind_mono up r
      { Subject := a.Subject, Predicates := [], started := false } k h
    rcases hres : r.ensureWatch up
      { Subject := a.Subject, Predicates := [], started := false } with ⟨r1, _ | err⟩
    · rw [hres] at h1
      exact ih r1 h1
    · rw [hres] at h1
      exact h1

theorem ensureWatches_covers (up : Upstream) (ws : List Watch) (r : Remote)
    (hok : (Remote.ensureWatches up r ws).2 = none) :
    ∀ w ∈ ws, ∃ x ∈ (Remote.ensureWatches up r ws).1.watch,
      ToKind x.Subject = ToKind w.Subject := by
  induction ws generalizing r with
  | nil => simp
  | cons a t ih =>
    intro w hw
    unfold Remote.ensureWatches at hok ⊢
    have h1 := ensureWatch_has_kind up r
      { Subject := a.Subject, Predicates := [], started := false }
    rcases hres : r.ensureWatch up
      { Subject := a.Subject, Predicates := [], started := false } with ⟨r1, _ | err⟩
    · rw [hres] at h1 hok
      simp only at hok ⊢
      rcases List.mem_cons.mp hw with rfl | hw
      · exact ensureWatches_kind_mono up t r1 _ h1
      · exact ih r1 hok w hw
    · rw [hres] at hok
      cases err <;> simp [Wrap] at hok

theorem EnsureRelay_absent (up : Upstream) (r : Remote) (relay : Relay)
    (h : r.findRelay relay = none) :
    r.EnsureRelay up relay =
      Remote.ensureWatches up { r with relay := r.relay ++ [relay] } relay.Watch := by
  simp [Remote.EnsureRelay, h]

theorem EnsureRelay_found (up : Upstream) (r : Remote) (relay : Relay) (i : Nat) (rl : Relay)
    (h : r.findRelay relay = some (i, rl)) :
    r.EnsureRelay up relay =
      Remote.ensureWatches up
        { r with relay := updateAt (fun x => x.merge relay) i r.relay }
        (rl.merge relay).Watch := by
  simp [Remote.EnsureRelay, h]

theorem Relay_Match_iff (a b : Relay) : a.Match b = true ↔ a.Channel = b.Channel := by
  simp [Relay.Match]

theorem Relay_Match_false_iff (a b : Relay) : a.Match b = false ↔ a.Channel ≠ b.Channel := by
  simp [Relay.Match]


/-! ## The loop of `EndRelay` -/

theorem getElem?_mid {α : Type} (lead post : List α) (x : α) :
    (lead ++ x :: post)[lead.length]? = some x := by
  induction lead with
  | nil => simp
  | cons a t ih => simpa using ih

theorem endRelayLoop_miss (relay : Relay) (fuel i : Nat) (arr : List Relay) (len : Nat)
    (found : Relay) (hg : arr[i]? = some found) (hm : found.Match relay = false) :
    Remote.endRelayLoop relay (fuel + 1) i arr len =
      Remote.endRelayLoop relay fuel (i + 1) arr len := by
  rw [Remote.endRelayLoop]
  simp only [hg, hm, Bool.false_eq_true, if_false]

theorem endRelayLoop_hit (relay : Relay) (fuel i : Nat) (arr : List Relay) (len : Nat)
    (found : Relay) (hg : arr[i]? = some found) (hm : found.Match relay = true)
    (hlen : i + 1 ≤ len) :
    Remote.endRelayLoop relay (fuel + 1) i arr len =
      Remote.endRelayLoop relay fuel (i + 1) (removeInPlace arr i len) (len - 1) := by
  rw [Remote.endRelayLoop]
  simp only [hg, hm, hlen, if_true]

theorem endRelayLoop_skip (relay : Relay) (fuel : Nat) :
    ∀ (i : Nat) (arr : List Relay) (len : Nat),
      (∀ x ∈ arr.drop i, x.Match relay = false) →
      Remote.endRelayLoop relay fuel i arr len = some (arr, len) := by
  induction fuel with
  | zero => intro i arr len _; rfl
  | succ n ih =>
    intro i arr len h
    cases hg : arr[i]? with
    | none =>
      rw [Remote.endRelayLoop]
      simp only [hg]
    | some found =>
      have hlt : i < arr.length := by
        by_contra hge
        rw [List.getElem?_eq_none (Nat.le_of_not_lt hge)] at hg
        cases hg
      have hd : arr.drop i = found :: arr.drop (i + 1) := by
        rw [List.drop_eq_getElem_cons hlt]
        rw [List.getElem?_eq_getElem hlt] at hg
        cases hg
        rfl
      have hfound : found.Match relay = false := h found (by rw [hd]; simp)
      rw [endRelayLoop_miss relay n i arr len found hg hfound]
      exact ih (i + 1) arr len (fun x hx => h x (by rw [hd]; exact List.mem_cons_of_mem _ hx))

theorem endRelayLoop_lead (relay : Relay) (lead : List Relay)
    (hlead : ∀ y ∈ lead, y.Match relay = false) :
    ∀ (seen rest arr : List Relay) (k len i j : Nat),
      arr = seen ++ lead ++ rest → i = seen.length → j = seen.length + lead.length →
      Remote.endRelayLoop relay (lead.length + k) i arr len =
      Remote.endRelayLoop relay k j arr len := by
  induction lead with
  | nil =>
    intro seen rest arr k len i j _ hi hj
    subst hi hj
    simp
  | cons a t ih =>
    intro seen rest arr k len i j harr hi hj
    have ha : a.Match relay = false := hlead a (List.mem_cons_self _ _)
    have hg : arr[i]? = some a := by
      rw [harr, hi, List.append_assoc]
      exact getElem?_mid seen (t ++ rest) a
    have e1 : (a :: t).length + k = (t.length + k) + 1 := by simp; omega
    rw [e1, endRelayLoop_miss relay _ _ _ _ a hg ha]
    exact ih (fun y hy => hlead y (List.mem_cons_of_mem _ hy)) (seen ++ [a]) rest arr k len
      (i + 1) j (by simp [harr]) (by simp [hi]) (by simp [hj]; omega)

theorem removeInPlace_at (lead post : List Relay) (x : Relay) :
    removeInPlace (lead ++ x :: post) lead.length (lead.length + 1 + post.length) =
      lead ++ post ++ (x :: post).drop post.length := by
  unfold removeInPlace
  have h1 : (lead ++ x :: post).take lead.length = lead := by simp
  have h2 : ((lead ++ x :: post).drop (lead.length + 1)).take
      (lead.length + 1 + post.length - 1 - lead.length) = post := by
    have : (lead ++ x :: post).drop (lead.length + 1) = post := by
      rw [List.drop_append_eq_append_drop]
      simp
    rw [this]
    have e : lead.length + 1 + post.length - 1 - lead.length = post.length := by omega
    rw [e, List.take_length]
  have h3 : (lead ++ x :: post).drop (lead.length + 1 + post.length - 1) =
      (x :: post).drop post.length := by
    have e : lead.length + 1 + post.length - 1 = lead.length + post.length := by omega
    rw [e, List.drop_append_eq_append_drop]
    simp
  rw [h1, h2, h3]

theorem mem_post_of_mem_tail (post : List Relay) (x y : Relay)
    (hy : y ∈ (post ++ (x :: post).drop post.length).drop 1) : y ∈ post := by
  cases post with
  | nil => simp at hy
  | cons b t =>
    simp only [List.length_cons, List.drop_succ_cons, List.cons_append, List.drop_zero] at hy
    rcases List.mem_append.mp hy with h | h
    · exact List.mem_cons_of_mem _ h
    · exact List.mem_of_mem_drop h

theorem endRelayLoop_unique (relay : Relay) (lead post : List Relay) (x : Relay)
    (hlead : ∀ y ∈ lead, y.Match relay = false) (hx : x.Match relay = true)
    (hpost : ∀ y ∈ post, y.Match relay = false) :
    Remote.endRelayLoop relay (lead ++ x :: post).length 0 (lead ++ x :: post)
        (lead ++ x :: post).length =
      some (lead ++ post ++ (x :: post).drop post.length, lead.length + post.length) := by
  have e1 : (lead ++ x :: post).length = lead.length + (post.length + 1) := by simp
  rw [e1]
  rw [endRelayLoop_lead relay lead hlead [] (x :: post) (lead ++ x :: post) (post.length + 1)
    (lead.length + (post.length + 1)) 0 lead.length (by simp) rfl (by simp)]
  have hg : (lead ++ x :: post)[lead.length]? = some x := getElem?_mid lead post x
  rw [endRelayLoop_hit relay _ _ _ _ x hg hx (by omega)]
  have e2 : lead.length + (post.length + 1) = lead.length + 1 + post.length := by omega
  rw [e2, removeInPlace_at]
  have e3 : lead.length + 1 + post.length - 1 = lead.length + post.length := by omega
  rw [e3]
  apply endRelayLoop_skip
  intro y hy
  apply hpost
  apply mem_post_of_mem_tail post x y
  have : (lead ++ post ++ (x :: post).drop post.length).drop (lead.length + 1) =
      (post ++ (x :: post).drop post.length).drop 1 := by
    rw [List.append_assoc, List.drop_append_eq_append_drop]
    simp
  rw [← this]
  exact hy

theorem filter_all_keep {α : Type} (p : α → Bool) (l : List α) (h : ∀ x ∈ l, p x = true) :
    l.filter p = l := by
  induction l with
  | nil => rfl
  | cons a t ih =>
    simp [List.filter, h a (List.mem_cons_self _ _),
      ih (fun x hx => h x (List.mem_cons_of_mem _ hx))]

/-- Go `EndRelay` on a relay list without repeated channels: no panic, and the relay list is
filtered. -/
theorem EndRelay_of_distinct (r : Remote) (relay : Relay) (h : ChannelsDistinct r.relay) :
    r.EndRelay relay =
      some { r with relay := r.relay.filter (fun rl => !rl.Match relay) } := by
  unfold Remote.EndRelay
  cases hf : findFirst (fun v : Relay => v.Match relay) r.relay with
  | none =>
    have hall := (findFirst_eq_none _ _).mp hf
    rw [endRelayLoop_skip relay _ 0 r.relay _ (by simpa using hall)]
    simp only [List.take_length]
    rw [filter_all_keep _ _ (fun x hx => by simp [hall x hx])]
  | some ix =>
    obtain ⟨i, x⟩ := ix
    obtain ⟨lead, post, hl, _, hlead, hx⟩ := findFirst_eq_some _ _ _ _ hf
    have hpost : ∀ y ∈ post, y.Match relay = false := by
      intro y hy
      unfold ChannelsDistinct at h
      rw [hl, List.map_append, List.map_cons] at h
      have h2 := (List.nodup_append.mp h).2.1
      have h3 : x.Channel ∉ post.map (fun rl => rl.Channel) := (List.nodup_cons.mp h2).1
      rw [Relay_Match_false_iff]
      intro hc
      apply h3
      rw [← (Relay_Match_iff x relay).mp hx] at hc
      exact List.mem_map.mpr ⟨y, hy, hc⟩
    rw [hl, endRelayLoop_unique relay lead post x hlead hx hpost]
    simp only
    congr 2
    have e : (lead ++ post ++ (x :: post).drop post.length).take (lead.length + post.length) =
        lead ++ post := by
      rw [← List.length_append, List.take_left]
    rw [e, List.filter_append, List.filter_cons]
    simp only [hx, Bool.not_true, Bool.false_eq_true, if_false]
    rw [filter_all_keep _ lead (fun y hy => by simp [hlead y hy]),
      filter_all_keep _ post (fun y hy => by simp [hpost y hy])]

/-! ## Channels stay distinct -/

theorem startWatches_frame (up : Upstream) (r : Remote) (todo : List Watch) :
    ∀ visited, ∃ l, (Remote.startWatches up r visited todo).1 = { r with watch := l } := by
  induction todo with
  | nil => intro visited; exact ⟨visited, rfl⟩
  | cons a t ih =>
    intro visited
    unfold Remote.startWatches
    rcases a.start up r with ⟨w, _ | err⟩
    · exact ih (visited ++ [w])
    · exact ⟨_, rfl⟩

theorem Start_relay (up : Upstream) (r : Remote) : (r.Start up).1.relay = r.relay := by
  unfold Remote.Start
  split
  · rfl
  · split
    · rfl
    · split
      · rfl
      · split
        · rfl
        · obtain ⟨l, hl⟩ := startWatches_frame up r r.watch []
          rcases hres : Remote.startWatches up r [] r.watch with ⟨r1, _ | err⟩
          · rw [hres] at hl
            simp only at hl ⊢
            rw [hl]
          · rw [hres] at hl
            simp only at hl ⊢
            rw [hl]

theorem Shutdown_relay (r : Remote) : r.Shutdown.relay = r.relay := by
  unfold Remote.Shutdown
  cases r.done <;> rfl

theorem EnsureWatch_frame (up : Upstream) (r : Remote) (w : Watch) :
    ∃ l, (r.EnsureWatch up w).1 = { r with watch := l } := by
  rw [EnsureWatch_fst]
  exact ensureWatch_frame up r w

theorem EnsureRelay_relay (up : Upstream) (r : Remote) (relay : Relay) :
    (r.findRelay relay = none ∧ (r.EnsureRelay up relay).1.relay = r.relay ++ [relay]) ∨
    (∃ lead rl post, r.findRelay relay = some (lead.length, rl) ∧
      r.relay = lead ++ rl :: post ∧
      (∀ y ∈ lead, y.Match relay = false) ∧ rl.Match relay = true ∧
      (r.EnsureRelay up relay).1.relay = lead ++ rl.merge relay :: post) := by
  cases hf : r.findRelay relay with
  | none =>
    left
    rw [EnsureRelay_absent up r relay hf]
    obtain ⟨l, hl⟩ := ensureWatches_frame up relay.Watch { r with relay := r.relay ++ [relay] }
    exact ⟨rfl, by rw [hl]⟩
  | some ix =>
    obtain ⟨i, rl⟩ := ix
    right
    obtain ⟨lead, post, hl, hlen, hlead, hrl⟩ := findFirst_eq_some _ _ _ _ hf
    subst hlen
    rw [EnsureRelay_found up r relay _ rl hf]
    obtain ⟨l, hfr⟩ := ensureWatches_frame up (rl.merge relay).Watch
      { r with relay := updateAt (fun x => x.merge relay) lead.length r.relay }
    refine ⟨lead, rl, post, rfl, hl, hlead, hrl, ?_⟩
    rw [hfr]
    simp only [hl, updateAt_append]

theorem EnsureRelay_channels (up : Upstream) (r : Remote) (relay : Relay) :
    (r.findRelay relay = none ∧
      (r.EnsureRelay up relay).1.relay.map (fun rl => rl.Channel) =
        r.relay.map (fun rl => rl.Channel) ++ [relay.Channel]) ∨
    ((∃ ix, r.findRelay relay = some ix) ∧
      (r.EnsureRelay up relay).1.relay.map (fun rl => rl.Channel) =
        r.relay.map (fun rl => rl.Channel)) := by
  rcases EnsureRelay_relay up r relay with ⟨hf, h⟩ | ⟨lead, rl, post, hf, hl, _, _, h⟩
  · left
    exact ⟨hf, by rw [h]; simp⟩
  · right
    exact ⟨⟨_, hf⟩, by rw [h, hl]; simp [merge_Channel]⟩

theorem EnsureRelay_distinct (up : Upstream) (r : Remote) (relay : Relay)
    (h : ChannelsDistinct r.relay) : ChannelsDistinct (r.EnsureRelay up relay).1.relay := by
  unfold ChannelsDistinct at h ⊢
  rcases EnsureRelay_channels up r relay with ⟨hf, hc⟩ | ⟨_, hc⟩
  · rw [hc]
    have hall := (findFirst_eq_none _ _).mp hf
    refine List.nodup_append.mpr ⟨h, List.nodup_singleton _, ?_⟩
    intro c hc1 hc2
    obtain ⟨y, hy, rfl⟩ := List.mem_map.mp hc1
    have := (Relay_Match_false_iff y relay).mp (hall y hy)
    simp at hc2
    exact this hc2
  · rw [hc]
    exact h

theorem takeWatches_frame (up : Upstream) (ws : List Watch) :
    ∀ r, ∃ l, Remote.takeWatches up r ws = { r with watch := l } := by
  induction ws with
  | nil => intro r; exact ⟨r.watch, rfl⟩
  | cons a t ih =>
    intro r
    unfold Remote.takeWatches
    obtain ⟨l, hl⟩ := EnsureWatch_frame up r a.reset
    rw [hl]
    obtain ⟨l2, hl2⟩ := ih { r with watch := l }
    exact ⟨l2, hl2⟩

theorem takeRelays_distinct (up : Upstream) (rls : List Relay) :
    ∀ r, ChannelsDistinct r.relay → ChannelsDistinct (Remote.takeRelays up r rls).relay := by
  induction rls with
  | nil => intro r h; exact h
  | cons a t ih =>
    intro r h
    unfold Remote.takeRelays
    exact ih _ (EnsureRelay_distinct up r a.reset h)

theorem TakeWorkload_distinct (up : Upstream) (r other : Remote)
    (h : ChannelsDistinct r.relay) : ChannelsDistinct (r.TakeWorkload up other).1.relay := by
  unfold Remote.TakeWorkload
  simp only
  apply takeRelays_distinct
  obtain ⟨l, hl⟩ := takeWatches_frame up other.watch r
  rw [hl]
  exact h

/-- Every reachable remote holds at most one relay per channel. -/
theorem Reachable_channels (r : Remote) (h : Remote.Reachable r) :
    ChannelsDistinct r.relay := by
  induction h with
  | literal name cfg => simp [ChannelsDistinct]
  | assign r name cfg _ ih => exact ih
  | start up r _ ih => rw [Start_relay]; exact ih
  | shutdown r _ ih => rw [Shutdown_relay]; exact ih
  | reset r _ _ => simp [Remote.Reset, ChannelsDistinct]
  | ensureWatch up r w _ ih =>
    obtain ⟨l, hl⟩ := EnsureWatch_frame up r w
    rw [hl]
    exact ih
  | ensureRelay up r relay _ ih => exact EnsureRelay_distinct up r relay ih
  | endRelay r relay r1 _ he ih =>
    rw [EndRelay_of_distinct r relay ih] at he
    cases he
    unfold ChannelsDistinct at ih ⊢
    exact (List.Sublist.map _ (List.filter_sublist _)).nodup ih
  | takeWorkload up r other _ _ ih _ => exact TakeWorkload_distinct up r other ih
  | takenFrom up r other _ _ _ _ => simp [Remote.TakeWorkload, Remote.Reset, ChannelsDistinct]


/-! ## Remotes that are not started -/

theorem ensureWatch_unstarted_absent (up : Upstream) (r : Remote) (w : Watch)
    (hr : r.started = false) (h : ∀ x ∈ r.watch, ToKind x.Subject ≠ ToKind w.Subject) :
    r.ensureWatch up w = ({ r with watch := r.watch ++ [w] }, none) := by
  have hf : r.findWatch w.Subject = none :=
    (findFirst_eq_none _ _).mpr (fun x hx => (Match_false_iff x w.Subject).mpr (h x hx))
  simp [Remote.ensureWatch, hf, Watch.start, hr]

theorem ensureWatch_unstarted_ok (up : Upstream) (r : Remote) (w : Watch)
    (hr : r.started = false) : (r.ensureWatch up w).2 = none := by
  cases hf : r.findWatch w.Subject with
  | some ix => rw [ensureWatch_found up r w ix.1 ix.2 hf]
  | none =>
    rw [ensureWatch_unstarted_absent up r w hr
      (fun x hx => (Match_false_iff x w.Subject).mp ((findFirst_eq_none _ _).mp hf x hx))]

theorem ensureWatch_started (up : Upstream) (r : Remote) (w : Watch) :
    (r.ensureWatch up w).1.started = r.started := by
  obtain ⟨l, hl⟩ := ensureWatch_frame up r w
  rw [hl]

theorem ensureWatch_keeps_other (up : Upstream) (r : Remote) (w0 w : Watch)
    (hw : w ∈ r.watch) (hk : ToKind w.Subject ≠ ToKind w0.Subject) :
    w ∈ (r.ensureWatch up w0).1.watch := by
  cases hf : r.findWatch w0.Subject with
  | some iy =>
    obtain ⟨i, y⟩ := iy
    obtain ⟨pre, post, hl, hlen, _, hy⟩ := findFirst_eq_some _ _ _ _ hf
    subst hlen
    rw [ensureWatch_found up r w0 _ y hf]
    simp only [hl, updateAt_append]
    rw [hl] at hw
    rcases List.mem_append.mp hw with h | h
    · simp [h]
    · rcases List.mem_cons.mp h with rfl | h
      · exact absurd ((Match_iff w w0.Subject).mp hy) hk
      · simp [h]
  | none =>
    rw [ensureWatch_absent up r w0 hf]
    simp [hw]

theorem ensureWatch_unstarted_flags (up : Upstream) (r : Remote) (w0 : Watch)
    (hr : r.started = false) (h0 : w0.started = false)
    (h : ∀ w ∈ r.watch, w.started = false) :
    ∀ w ∈ (r.ensureWatch up w0).1.watch, w.started = false := by
  cases hf : r.findWatch w0.Subject with
  | some iy =>
    obtain ⟨i, y⟩ := iy
    obtain ⟨pre, post, hl, hlen, _, _⟩ := findFirst_eq_some _ _ _ _ hf
    subst hlen
    rw [ensureWatch_found up r w0 _ y hf]
    simp only [hl, updateAt_append]
    rw [hl] at h
    intro w hw
    rcases List.mem_append.mp hw with hw | hw
    · exact h w (by simp [hw])
    · rcases List.mem_cons.mp hw with rfl | hw
      · exact h y (by simp)
      · exact h w (by simp [hw])
  | none =>
    rw [ensureWatch_unstarted_absent up r w0 hr
      (fun x hx => (Match_false_iff x w0.Subject).mp ((findFirst_eq_none _ _).mp hf x hx))]
    intro w hw
    rcases List.mem_append.mp hw with hw | hw
    · exact h w hw
    · simp at hw
      rw [hw]
      exact h0

/-- What the loop of `EnsureRelay` does on a remote that is not started. -/
theorem ensureWatches_unstarted (up : Upstream) (ws : List Watch) :
    ∀ r : Remote, r.started = false →
      (Remote.ensureWatches up r ws).2 = none ∧
      ((∀ w ∈ r.watch, w.started = false) →
        ∀ w ∈ (Remote.ensureWatches up r ws).1.watch, w.started = false) ∧
      (∀ w ∈ r.watch, (∀ x ∈ ws, ToKind x.Subject ≠ ToKind w.Subject) →
        w ∈ (Remote.ensureWatches up r ws).1.watch) := by
  induction ws with
  | nil => intro r _; exact ⟨rfl, fun h => h, fun w hw _ => hw⟩
  | cons a t ih =>
    intro r hr
    have hok := ensureWatch_unstarted_ok up r
      { Subject := a.Subject, Predicates := [], started := false } hr
    have hst := ensureWatch_started up r
      { Subject := a.Subject, Predicates := [], started := false }
    have hfl := ensureWatch_unstarted_flags up r
      { Subject := a.Subject, Predicates := [], started := false } hr rfl
    have hko := ensureWatch_keeps_other up r
      { Subject := a.Subject, Predicates := [], started := false }
    unfold Remote.ensureWatches
    rcases hres : r.ensureWatch up
      { Subject := a.Subject, Predicates := [], started := false } with ⟨r1, _ | err⟩
    · rw [hres] at hst hfl hko
      simp only at hst hfl hko ⊢
      obtain ⟨i1, i2, i3⟩ := ih r1 (by rw [hst]; exact hr)
      refine ⟨i1, fun h => i2 (hfl h), ?_⟩
      intro w hw hall
      apply i3 w
      · exact hko w hw (fun e => hall a (List.mem_cons_self _ _) e.symm)
      · exact fun x hx => hall x (List.mem_cons_of_mem _ hx)
    · rw [hres] at hok
      cases hok

theorem EnsureWatch_unstarted_absent (up : Upstream) (r : Remote) (w : Watch)
    (hr : r.started = false) (h : ∀ x ∈ r.watch, ToKind x.Subject ≠ ToKind w.Subject) :
    (r.EnsureWatch up w).1 = { r with watch := r.watch ++ [w] } := by
  rw [EnsureWatch_fst, ensureWatch_unstarted_absent up r w hr h]

theorem takeWatches_distinct (up : Upstream) (ws : List Watch) :
    ∀ r : Remote, r.started = false → KindsDistinct (r.watch ++ ws) →
      Remote.takeWatches up r ws = { r with watch := r.watch ++ ws.map Watch.reset } := by
  induction ws with
  | nil => intro r _ _; simp [Remote.takeWatches]
  | cons a t ih =>
    intro r hr hd
    unfold Remote.takeWatches
    have hd1 : (r.watch.map (fun w => ToKind w.Subject) ++
        ToKind a.Subject :: t.map (fun w => ToKind w.Subject)).Nodup := by
      simpa [KindsDistinct] using hd
    have habs : ∀ x ∈ r.watch, ToKind x.Subject ≠ ToKind a.reset.Subject := by
      intro x hx e
      have h3 := (List.nodup_append.mp hd1).2.2
      exact h3 (List.mem_map.mpr ⟨x, hx, rfl⟩) (by rw [e]; simp [Watch.reset]) 
    rw [EnsureWatch_unstarted_absent up r a.reset hr habs]
    rw [ih { r with watch := r.watch ++ [a.reset] } hr
      (by simpa [KindsDistinct, Watch.reset] using hd1)]
    simp

theorem EnsureRelay_started (up : Upstream) (r : Remote) (relay : Relay) :
    (r.EnsureRelay up relay).1.started = r.started := by
  unfold Remote.EnsureRelay
  cases r.findRelay relay with
  | none =>
    obtain ⟨l, hl⟩ := ensureWatches_frame up relay.Watch { r with relay := r.relay ++ [relay] }
    simp only
    rw [hl]
  | some ix =>
    obtain ⟨l, hl⟩ := ensureWatches_frame up (ix.2.merge relay).Watch
      { r with relay := updateAt (fun x => x.merge relay) ix.1 r.relay }
    simp only
    rw [hl]

theorem EnsureRelay_kind_mono (up : Upstream) (r : Remote) (relay : Relay) (k : String)
    (h : ∃ x ∈ r.watch, ToKind x.Subject = k) :
    ∃ x ∈ (r.EnsureRelay up relay).1.watch, ToKind x.Subject = k := by
  unfold Remote.EnsureRelay
  cases r.findRelay relay with
  | none => exact ensureWatches_kind_mono up _ _ k h
  | some ix => exact ensureWatches_kind_mono up _ _ k h

/-- The second loop of `TakeWorkload` on a remote that is not started and holds none of
the channels to come. -/
theorem takeRelays_unstarted (up : Upstream) (rls : List Relay) :
    ∀ r : Remote, r.started = false → ChannelsDistinct (r.relay ++ rls) →
      (Remote.takeRelays up r rls).relay = r.relay ++ rls ∧
      ((∀ w ∈ r.watch, w.started = false) →
        ∀ w ∈ (Remote.takeRelays up r rls).watch, w.started = false) ∧
      (∀ w ∈ r.watch,
        (∀ rl ∈ rls, ∀ x ∈ rl.Watch, ToKind x.Subject ≠ ToKind w.Subject) →
        w ∈ (Remote.takeRelays up r rls).watch) ∧
      (∀ k, (∃ x ∈ r.watch, ToKind x.Subject = k) →
        ∃ x ∈ (Remote.takeRelays up r rls).watch, ToKind x.Subject = k) := by
  induction rls with
  | nil => intro r _ _; exact ⟨by simp [Remote.takeRelays], fun h => h, fun w hw _ => hw,
      fun k h => h⟩
  | cons a t ih =>
    intro r hr hd
    unfold Remote.takeRelays
    have hd1 : (r.relay.map (fun rl => rl.Channel) ++
        a.Channel :: t.map (fun rl => rl.Channel)).Nodup := by
      simpa [ChannelsDistinct] using hd
    have hf : r.findRelay a = none := by
      refine (findFirst_eq_none _ _).mpr (fun x hx => (Relay_Match_false_iff x a).mpr ?_)
      intro e
      exact (List.nodup_append.mp hd1).2.2 (List.mem_map.mpr ⟨x, hx, rfl⟩) (by rw [e]; simp)
    have hst := EnsureRelay_started up r a
    have hmono := EnsureRelay_kind_mono up r a
    have hE : r.EnsureRelay up a.reset =
        Remote.ensureWatches up { r with relay := r.relay ++ [a] } a.Watch :=
      EnsureRelay_absent up r a hf
    obtain ⟨l, hl⟩ := ensureWatches_frame up a.Watch { r with relay := r.relay ++ [a] }
    obtain ⟨_, u2, u3⟩ := ensureWatches_unstarted up a.Watch
      { r with relay := r.relay ++ [a] } hr
    have hrel : (r.EnsureRelay up a.reset).1.relay = r.relay ++ [a] := by rw [hE, hl]
    obtain ⟨j1, j2, j3, j4⟩ := ih (r.EnsureRelay up a.reset).1
      (by rw [Relay.reset, hst]; exact hr)
      (by rw [hrel]; simpa [ChannelsDistinct] using hd1)
    refine ⟨by rw [j1, hrel]; simp, ?_, ?_, ?_⟩
    · intro h
      apply j2
      rw [hE]
      exact u2 h
    · intro w hw hall
      apply j3 w
      · rw [hE]
        exact u3 w hw (fun x hx => hall a (List.mem_cons_self _ _) x hx)
      · exact fun rl hrl => hall rl (List.mem_cons_of_mem _ hrl)
    · intro k hk
      exact j4 k (hmono k hk)


/-! ## The map of the container -/

theorem lookupIn_storeIn_same (k : Key) (r : Remote) (l : List (Key × Remote)) :
    lookupIn k (storeIn k r l) = some r := by
  induction l with
  | nil => simp [storeIn, lookupIn]
  | cons a t ih =>
    obtain ⟨k1, r1⟩ := a
    by_cases h : k1 = k
    · simp [storeIn, lookupIn, h]
    · simp [storeIn, lookupIn, h, ih]

theorem lookupIn_storeIn_other (k k2 : Key) (r : Remote) (l : List (Key × Remote))
    (hne : k ≠ k2) : lookupIn k2 (storeIn k r l) = lookupIn k2 l := by
  induction l with
  | nil => simp [storeIn, lookupIn, hne]
  | cons a t ih =>
    obtain ⟨k1, r1⟩ := a
    by_cases h : k1 = k
    · subst h
      simp [storeIn, lookupIn, hne]
    · simp [storeIn, lookupIn, h, ih]

theorem storeIn_noop (k : Key) (r : Remote) (l : List (Key × Remote))
    (h : lookupIn k l = some r) : storeIn k r l = l := by
  induction l with
  | nil => simp [lookupIn] at h
  | cons a t ih =>
    obtain ⟨k1, r1⟩ := a
    by_cases hk : k1 = k
    · subst hk
      simp [lookupIn] at h
      simp [storeIn, h]
    · simp [lookupIn, hk] at h
      simp [storeIn, hk, ih h]

theorem storeIn_storeIn (k : Key) (r r2 : Remote) (l : List (Key × Remote)) :
    storeIn k r2 (storeIn k r l) = storeIn k r2 l := by
  induction l with
  | nil => simp [storeIn]
  | cons a t ih =>
    obtain ⟨k1, r1⟩ := a
    by_cases hk : k1 = k
    · simp [storeIn, hk]
    · simp [storeIn, hk, ih]

theorem mem_storeIn (k : Key) (r : Remote) (l : List (Key × Remote)) (kr : Key × Remote)
    (h : kr ∈ storeIn k r l) : kr = (k, r) ∨ kr ∈ l := by
  induction l with
  | nil => simpa [storeIn] using h
  | cons a t ih =>
    obtain ⟨k1, r1⟩ := a
    by_cases hk : k1 = k
    · simp [storeIn, hk] at h
      rcases h with h | h
      · exact Or.inl h
      · exact Or.inr (List.mem_cons_of_mem _ h)
    · simp only [storeIn, hk, if_false, List.mem_cons] at h
      rcases h with h | h
      · exact Or.inr (by rw [h]; exact List.mem_cons_self _ _)
      · rcases ih h with h | h
        · exact Or.inl h
        · exact Or.inr (List.mem_cons_of_mem _ h)

theorem mem_of_lookupIn (k : Key) (r : Remote) (l : List (Key × Remote))
    (h : lookupIn k l = some r) : (k, r) ∈ l := by
  induction l with
  | nil => simp [lookupIn] at h
  | cons a t ih =>
    obtain ⟨k1, r1⟩ := a
    by_cases hk : k1 = k
    · subst hk
      simp [lookupIn] at h
      simp [h]
    · simp [lookupIn, hk] at h
      exact List.mem_cons_of_mem _ (ih h)

theorem Wrap_some_ne_none (stack : String) (err : Error) : Wrap stack (some err) ≠ none := by
  cases err <;> simp [Wrap]

/-- One round of the second loop of `EnsureRelayDefinition`. -/
theorem ensureDefs_cons (up : Upstream) (d : RelayDefinition) (c : Container)
    (wDef : WatchDefinition) (rest : List WatchDefinition) :
    Container.ensureDefs up d c (wDef :: rest) =
      match ((c.lookup (Container.key wDef.RemoteOwner)).getD Remote.zero).EnsureRelay up
          (d.relayFor wDef) with
      | (r1, some err) =>
        (c.store (Container.key wDef.RemoteOwner) r1,
          Wrap "Container.EnsureRelayDefinition" (some err))
      | (r1, none) =>
        Container.ensureDefs up d (c.store (Container.key wDef.RemoteOwner) r1) rest := by
  rw [Container.ensureDefs]
  cases hl : c.lookup (Container.key wDef.RemoteOwner) with
  | none =>
    simp only [Container.lookup, Container.store, lookupIn_storeIn_same, storeIn_storeIn,
      Option.getD_some, Option.getD_none]
  | some r =>
    simp only [hl, Option.getD_some]

/-! ## The first loop of `EnsureRelayDefinition` -/

theorem endStale_of_distinct (d : RelayDefinition) (l : List (Key × Remote))
    (h : ∀ kr ∈ l, ChannelsDistinct kr.2.relay) :
    Container.endStale d l = some (l.map d.ended) := by
  induction l with
  | nil => rfl
  | cons a t ih =>
    obtain ⟨k, r⟩ := a
    have ht := ih (fun kr hkr => h kr (List.mem_cons_of_mem _ hkr))
    have hr : ChannelsDistinct r.relay := h (k, r) (List.mem_cons_self _ _)
    rw [Container.endStale]
    cases hk : d.hasRemote k Container.key with
    | true => simp [ht, RelayDefinition.ended, hk]
    | false =>
      have := EndRelay_of_distinct r d.probe hr
      unfold RelayDefinition.probe at this
      simp [ht, RelayDefinition.ended, hk, this, RelayDefinition.probe]

theorem lookupIn_map_ended (d : RelayDefinition) (k : Key) (l : List (Key × Remote)) :
    lookupIn k (l.map d.ended) = (lookupIn k l).map (fun r => (d.ended (k, r)).2) := by
  induction l with
  | nil => rfl
  | cons a t ih =>
    obtain ⟨k1, r1⟩ := a
    have hk1 : (d.ended (k1, r1)).1 = k1 := by
      unfold RelayDefinition.ended
      split <;> rfl
    have hpair : d.ended (k1, r1) = (k1, (d.ended (k1, r1)).2) := Prod.ext hk1 rfl
    rw [List.map_cons, hpair]
    by_cases hk : k1 = k
    · subst hk
      simp [lookupIn]
    · simp [lookupIn, hk, ih]

theorem ended_kept (d : RelayDefinition) (k : Key) (r : Remote)
    (h : d.hasRemote k Container.key = true) : d.ended (k, r) = (k, r) := by
  simp [RelayDefinition.ended, h]

theorem ended_distinct (d : RelayDefinition) (kr : Key × Remote)
    (h : ChannelsDistinct kr.2.relay) : ChannelsDistinct (d.ended kr).2.relay := by
  unfold RelayDefinition.ended
  split
  · exact h
  · unfold ChannelsDistinct at h ⊢
    exact (List.Sublist.map _ (List.filter_sublist _)).nodup h

theorem ended_stale (d : RelayDefinition) (kr : Key × Remote)
    (h : d.hasRemote kr.1 Container.key = false) :
    ∀ rl ∈ (d.ended kr).2.relay, rl.Channel ≠ d.Channel := by
  intro rl hrl
  simp only [RelayDefinition.ended, h, Bool.false_eq_true, if_false, List.mem_filter] at hrl
  simpa [Relay.Match, RelayDefinition.probe] using hrl.2

theorem ended_key (d : RelayDefinition) (kr : Key × Remote) : (d.ended kr).1 = kr.1 := by
  unfold RelayDefinition.ended
  split <;> rfl

theorem ended_noop (d : RelayDefinition) (kr : Key × Remote)
    (h : d.hasRemote kr.1 Container.key = false → ∀ rl ∈ kr.2.relay, rl.Channel ≠ d.Channel) :
    d.ended kr = kr := by
  unfold RelayDefinition.ended
  cases hk : d.hasRemote kr.1 Container.key with
  | true => simp
  | false =>
    have hall := h hk
    simp only [Bool.false_eq_true, if_false]
    rw [filter_all_keep _ _ (fun rl hrl => by
      simpa [Relay.Match, RelayDefinition.probe] using hall rl hrl)]

theorem hasRemote_of_mem (d : RelayDefinition) (wDef : WatchDefinition)
    (h : wDef ∈ d.Watch) :
    d.hasRemote (Container.key wDef.RemoteOwner) Container.key = true := by
  unfold RelayDefinition.hasRemote
  rw [List.any_eq_true]
  exact ⟨wDef, h, by simp⟩

theorem hasRemote_false (d : RelayDefinition) (k : Key)
    (h : d.hasRemote k Container.key = false) :
    ∀ wDef ∈ d.Watch, Container.key wDef.RemoteOwner ≠ k := by
  intro wDef hw e
  rw [← e, hasRemote_of_mem d wDef hw] at h
  cases h

/-! ## The second loop of `EnsureRelayDefinition` -/

/-- A property of the entries of the map that `EnsureRelay` keeps, and that `&Remote{}`
has, holds of every entry after the second loop. -/
theorem ensureDefs_inv (up : Upstream) (d : RelayDefinition) (P : Key → Remote → Prop)
    (ws : List WatchDefinition)
    (hzero : ∀ wDef ∈ ws, P (Container.key wDef.RemoteOwner) Remote.zero)
    (hstep : ∀ wDef ∈ ws, ∀ r, P (Container.key wDef.RemoteOwner) r →
      P (Container.key wDef.RemoteOwner) (r.EnsureRelay up (d.relayFor wDef)).1) :
    ∀ c : Container, (∀ kr ∈ c.remote, P kr.1 kr.2) →
      ∀ kr ∈ (Container.ensureDefs up d c ws).1.remote, P kr.1 kr.2 := by
  induction ws with
  | nil => intro c hc; exact hc
  | cons a t ih =>
    intro c hc
    rw [ensureDefs_cons]
    have h0 : P (Container.key a.RemoteOwner)
        ((c.lookup (Container.key a.RemoteOwner)).getD Remote.zero) := by
      cases hl : c.lookup (Container.key a.RemoteOwner) with
      | none => exact hzero a (List.mem_cons_self _ _)
      | some r => exact hc _ (mem_of_lookupIn _ _ _ hl)
    have h1 := hstep a (List.mem_cons_self _ _) _ h0
    have hstore : ∀ r1, P (Container.key a.RemoteOwner) r1 →
        ∀ kr ∈ (c.store (Container.key a.RemoteOwner) r1).remote, P kr.1 kr.2 := by
      intro r1 hr1 kr hkr
      rcases mem_storeIn _ _ _ _ hkr with h | h
      · rw [h]; exact hr1
      · exact hc kr h
    rcases hres : ((c.lookup (Container.key a.RemoteOwner)).getD Remote.zero).EnsureRelay up
        (d.relayFor a) with ⟨r1, _ | err⟩
    · rw [hres] at h1
      simp only
      exact ih (fun w hw => hzero w (List.mem_cons_of_mem _ hw))
        (fun w hw => hstep w (List.mem_cons_of_mem _ hw)) _ (hstore r1 h1)
    · rw [hres] at h1
      exact hstore r1 h1

/-- A property that a successful `EnsureRelay` for `wDef` establishes, and that later
successful `EnsureRelay` calls of the definition keep, holds after a successful second
loop of the remote of every `wDef`. -/
theorem ensureDefs_post (up : Upstream) (d : RelayDefinition)
    (Q : WatchDefinition → Remote → Prop)
    (hest : ∀ (wDef : WatchDefinition) (r : Remote),
      (r.EnsureRelay up (d.relayFor wDef)).2 = none →
      Q wDef (r.EnsureRelay up (d.relayFor wDef)).1)
    (hpres : ∀ (wDef wDef2 : WatchDefinition) (r : Remote), Q wDef r →
      (r.EnsureRelay up (d.relayFor wDef2)).2 = none →
      Q wDef (r.EnsureRelay up (d.relayFor wDef2)).1)
    (ws : List WatchDefinition) :
    ∀ (c : Container) (seen : List WatchDefinition),
      (∀ wDef ∈ seen, ∃ r, c.lookup (Container.key wDef.RemoteOwner) = some r ∧ Q wDef r) →
      (Container.ensureDefs up d c ws).2 = none →
      ∀ wDef, wDef ∈ seen ∨ wDef ∈ ws →
        ∃ r, (Container.ensureDefs up d c ws).1.lookup (Container.key wDef.RemoteOwner) =
          some r ∧ Q wDef r := by
  induction ws with
  | nil =>
    intro c seen hseen _ wDef hw
    rcases hw with hw | hw
    · exact hseen wDef hw
    · cases hw
  | cons a t ih =>
    intro c seen hseen hok wDef hw
    rw [ensureDefs_cons] at hok ⊢
    have he := hest a ((c.lookup (Container.key a.RemoteOwner)).getD Remote.zero)
    have hp := fun w => hpres w a ((c.lookup (Container.key a.RemoteOwner)).getD Remote.zero)
    rcases hres : ((c.lookup (Container.key a.RemoteOwner)).getD Remote.zero).EnsureRelay up
        (d.relayFor a) with ⟨r1, _ | err⟩
    · rw [hres] at hok he hp
      simp only at hok he hp ⊢
      apply ih (c.store (Container.key a.RemoteOwner) r1) (a :: seen) _ hok wDef
      · rcases hw with hw | hw
        · exact Or.inl (List.mem_cons_of_mem _ hw)
        · rcases List.mem_cons.mp hw with rfl | hw
          · exact Or.inl (List.mem_cons_self _ _)
          · exact Or.inr hw
      · intro w hwm
        rcases List.mem_cons.mp hwm with rfl | hwm
        · exact ⟨r1, lookupIn_storeIn_same _ _ _, he trivial⟩
        · obtain ⟨r, hl, hq⟩ := hseen w hwm
          by_cases hk : Container.key a.RemoteOwner = Container.key w.RemoteOwner
          · refine ⟨r1, by rw [hk]; exact lookupIn_storeIn_same _ _ _, ?_⟩
            rw [hk, hl] at hp
            exact hp w hq trivial
          · exact ⟨r, by
              show lookupIn _ (storeIn _ _ _) = _
              rw [lookupIn_storeIn_other _ _ _ _ hk]; exact hl, hq⟩
    · rw [hres] at hok
      exact absurd hok (Wrap_some_ne_none _ _)

/-- The remote under each key after a successful second loop. -/
theorem ensureDefs_lookup (up : Upstream) (d : RelayDefinition) (k : Key)
    (ws : List WatchDefinition) :
    ∀ c : Container, (Container.ensureDefs up d c ws).2 = none →
      (Container.ensureDefs up d c ws).1.lookup k =
        Container.remoteAfter up d k (c.lookup k) ws := by
  induction ws with
  | nil => intro c _; rfl
  | cons a t ih =>
    intro c hok
    rw [ensureDefs_cons] at hok ⊢
    rw [Container.remoteAfter]
    rcases hres : ((c.lookup (Container.key a.RemoteOwner)).getD Remote.zero).EnsureRelay up
        (d.relayFor a) with ⟨r1, _ | err⟩
    · rw [hres] at hok
      simp only at hok ⊢
      rw [ih _ hok]
      by_cases hk : Container.key a.RemoteOwner = k
      · subst hk
        simp only [if_true, hres]
        congr 1
        exact lookupIn_storeIn_same _ _ _
      · simp only [hk, if_false]
        congr 1
        exact lookupIn_storeIn_other _ _ _ _ hk
    · rw [hres] at hok
      exact absurd hok (Wrap_some_ne_none _ _)

/-! ## Saturated remotes -/

theorem findFirst_updateAt {α : Type} (p : α → Bool) (f : α → α) (hf : ∀ y, p (f y) = p y)
    (l : List α) : ∀ j, findFirst p (updateAt f j l) =
      match findFirst p l with
      | none => none
      | some (i, x) => some (i, if i = j then f x else x) := by
  induction l with
  | nil => intro j; simp [updateAt, findFirst]
  | cons a t ih =>
    intro j
    cases j with
    | zero =>
      cases hpa : p a with
      | true => simp [updateAt, findFirst, hpa, hf]
      | false =>
        cases hft : findFirst p t with
        | none => simp [updateAt, findFirst, hpa, hf, hft]
        | some iy => simp [updateAt, findFirst, hpa, hf, hft]
    | succ n =>
      cases hpa : p a with
      | true => simp [updateAt, findFirst, hpa]
      | false =>
        have := ih n
        cases hft : findFirst p t with
        | none =>
          rw [hft] at this
          simp [updateAt, findFirst, hpa, hft, this]
        | some iy =>
          rw [hft] at this
          simp [updateAt, findFirst, hpa, hft, this]

theorem findFirst_append_left {α : Type} (p : α → Bool) (l l2 : List α) (ix : Nat × α)
    (h : findFirst p l = some ix) : findFirst p (l ++ l2) = some ix := by
  obtain ⟨i, x⟩ := ix
  obtain ⟨lead, post, hl, hlen, hlead, hx⟩ := findFirst_eq_some p l i x h
  subst hlen
  rw [hl, List.append_assoc, List.cons_append]
  exact findFirst_append p lead (post ++ l2) x hlead hx

theorem ensureWatch_nil_keeps (up : Upstream) (r : Remote) (s s2 : Resource)
    (h : NilFirst r.watch s) :
    NilFirst (r.ensureWatch up { Subject := s2, Predicates := [], started := false }).1.watch
      s := by
  obtain ⟨i, x, hfx, hpx⟩ := h
  cases hf : r.findWatch s2 with
  | some jy =>
    obtain ⟨j, y⟩ := jy
    rw [ensureWatch_found up r _ j y hf]
    simp only
    have := findFirst_updateAt (fun w : Watch => w.Match s)
      (fun w : Watch => w.merge { Subject := s2, Predicates := [], started := false })
      (fun y => rfl) r.watch j
    rw [hfx] at this
    refine ⟨i, _, this, ?_⟩
    split
    · rfl
    · exact hpx
  | none =>
    rw [ensureWatch_absent up r _ hf]
    exact ⟨i, x, findFirst_append_left _ _ _ _ hfx, hpx⟩

theorem ensureWatch_nil_est (up : Upstream) (r : Remote) (s : Resource) :
    NilFirst (r.ensureWatch up { Subject := s, Predicates := [], started := false }).1.watch
      s := by
  cases hf : r.findWatch s with
  | some jy =>
    obtain ⟨j, y⟩ := jy
    obtain ⟨lead, post, hl, hlen, hlead, hy⟩ := findFirst_eq_some _ _ _ _ hf
    subst hlen
    rw [ensureWatch_found up r _ _ y hf]
    simp only [hl, updateAt_append]
    exact ⟨lead.length, _, findFirst_append _ lead post _ hlead hy, rfl⟩
  | none =>
    rw [ensureWatch_absent up r _ hf]
    have hall := (findFirst_eq_none _ _).mp hf
    obtain ⟨hs, hp⟩ := start_subject up
      { Subject := s, Predicates := [], started := false }
      { r with watch := r.watch ++ [{ Subject := s, Predicates := [], started := false }] }
    refine ⟨r.watch.length, _, findFirst_append _ r.watch [] _ hall ?_, hp⟩
    simp [Watch.Match, hs]

theorem ensureWatches_nil_keeps (up : Upstream) (ws : List Watch) (s : Resource) :
    ∀ r : Remote, NilFirst r.watch s → NilFirst (Remote.ensureWatches up r ws).1.watch s := by
  induction ws with
  | nil => intro r h; exact h
  | cons a t ih =>
    intro r h
    have h1 := ensureWatch_nil_keeps up r s a.Subject h
    unfold Remote.ensureWatches
    rcases hres : r.ensureWatch up
      { Subject := a.Subject, Predicates := [], started := false } with ⟨r1, _ | err⟩
    · rw [hres] at h1
      exact ih r1 h1
    · rw [hres] at h1
      exact h1

theorem ensureWatches_nil_est (up : Upstream) (ws : List Watch) :
    ∀ r : Remote, (Remote.ensureWatches up r ws).2 = none →
      ∀ w ∈ ws, NilFirst (Remote.ensureWatches up r ws).1.watch w.Subject := by
  induction ws with
  | nil => intro r _ w hw; cases hw
  | cons a t ih =>
    intro r hok w hw
    have h1 := ensureWatch_nil_est up r a.Subject
    unfold Remote.ensureWatches at hok ⊢
    rcases hres : r.ensureWatch up
      { Subject := a.Subject, Predicates := [], started := false } with ⟨r1, _ | err⟩
    · rw [hres] at h1 hok
      simp only at hok ⊢
      rcases List.mem_cons.mp hw with rfl | hw
      · exact ensureWatches_nil_keeps up t _ r1 h1
      · exact ih r1 hok w hw
    · rw [hres] at hok
      exact absurd hok (Wrap_some_ne_none _ _)

theorem ensureWatch_noop (up : Upstream) (r : Remote) (s : Resource)
    (h : NilFirst r.watch s) :
    r.ensureWatch up { Subject := s, Predicates := [], started := false } = (r, none) := by
  obtain ⟨i, x, hfx, hpx⟩ := h
  obtain ⟨lead, post, hl, hlen, _, _⟩ := findFirst_eq_some _ _ _ _ hfx
  subst hlen
  rw [ensureWatch_found up r { Subject := s, Predicates := [], started := false }
    lead.length x hfx]
  have hx : x.merge { Subject := s, Predicates := [], started := false } = x := by
    cases x
    simp only [Watch.merge] at hpx ⊢
    simp [hpx]
  simp only [hl, updateAt_append, hx]
  rw [← hl]

theorem ensureWatches_noop (up : Upstream) (r : Remote) (ws : List Watch)
    (h : ∀ w ∈ ws, NilFirst r.watch w.Subject) :
    Remote.ensureWatches up r ws = (r, none) := by
  induction ws with
  | nil => rfl
  | cons a t ih =>
    unfold Remote.ensureWatches
    rw [ensureWatch_noop up r a.Subject (h a (List.mem_cons_self _ _))]
    exact ih (fun w hw => h w (List.mem_cons_of_mem _ hw))

theorem Saturated_noop (up : Upstream) (d : RelayDefinition) (wDef : WatchDefinition)
    (r : Remote) (h : Saturated d wDef r) :
    r.EnsureRelay up (d.relayFor wDef) = (r, none) := by
  obtain ⟨i, rl, hf, hcov, hnil⟩ := h
  obtain ⟨lead, post, hl, hlen, _, _⟩ := findFirst_eq_some _ _ _ _ hf
  subst hlen
  rw [EnsureRelay_found up r _ _ rl hf]
  have hm : rl.merge (d.relayFor wDef) = rl := merge_saturated rl _ hcov
  simp only [hl, updateAt_append, hm]
  rw [← hl]
  exact ensureWatches_noop up r rl.Watch hnil

/-- The shape of every `EnsureRelay` call: the relay list is settled first, with the
resulting relay `rl1` the first on the channel, then the watches of `rl1` are ensured. -/
theorem EnsureRelay_shape (up : Upstream) (r : Remote) (relay : Relay) :
    ∃ r1 i rl1, r.EnsureRelay up relay = Remote.ensureWatches up r1 rl1.Watch ∧
      r1.findRelay relay = some (i, rl1) ∧ r1.watch = r.watch ∧
      (∀ w ∈ relay.Watch, ∃ x ∈ rl1.Watch, ToKind x.Subject = ToKind w.Subject) ∧
      (∀ j rl, r.findRelay relay = some (j, rl) → ∀ x ∈ rl.Watch, x ∈ rl1.Watch) := by
  cases hf : r.findRelay relay with
  | none =>
    have hall := (findFirst_eq_none _ _).mp hf
    refine ⟨{ r with relay := r.relay ++ [relay] }, r.relay.length, relay,
      EnsureRelay_absent up r relay hf, ?_, rfl, fun w hw => ⟨w, hw, rfl⟩, ?_⟩
    · exact findFirst_append _ r.relay [] relay hall (by simp [Relay.Match])
    · intro j rl h; cases h
  | some ix =>
    obtain ⟨i, rl⟩ := ix
    obtain ⟨lead, post, hl, hlen, hlead, hrl⟩ := findFirst_eq_some _ _ _ _ hf
    subst hlen
    refine ⟨{ r with relay := updateAt (fun x => x.merge relay) lead.length r.relay },
      lead.length, rl.merge relay, EnsureRelay_found up r relay _ rl hf, ?_, rfl,
      merge_covers rl relay, ?_⟩
    · simp only [Remote.findRelay, hl, updateAt_append]
      refine findFirst_append _ lead post _ hlead ?_
      simpa [Relay.Match, merge_Channel] using hrl
    · intro j rl2 h x hx
      cases h
      obtain ⟨ext, he, _⟩ := merge_frame rl relay
      rw [he]
      simp [hx]

theorem findRelay_relayFor (d : RelayDefinition) (w1 w2 : WatchDefinition) (r : Remote) :
    r.findRelay (d.relayFor w1) = r.findRelay (d.relayFor w2) := rfl

theorem Saturated_of_shape (up : Upstream) (d : RelayDefinition) (wDef wDef2 : WatchDefinition)
    (r : Remote) (hok : (r.EnsureRelay up (d.relayFor wDef2)).2 = none)
    (hcov : (∀ j rl, r.findRelay (d.relayFor wDef2) = some (j, rl) →
        ∀ w ∈ wDef.Watch, ∃ x ∈ rl.Watch, ToKind x.Subject = ToKind w.Subject) ∨
      wDef = wDef2) :
    (∃ j rl, r.findRelay (d.relayFor wDef2) = some (j, rl)) ∨ wDef = wDef2 →
    Saturated d wDef (r.EnsureRelay up (d.relayFor wDef2)).1 := by
  intro hcase
  obtain ⟨r1, i, rl1, hE, hf1, _, hc1, hold⟩ := EnsureRelay_shape up r (d.relayFor wDef2)
  rw [hE] at hok ⊢
  obtain ⟨l, hl⟩ := ensureWatches_frame up rl1.Watch r1
  refine ⟨i, rl1, ?_, ?_, ensureWatches_nil_est up rl1.Watch r1 hok⟩
  · rw [hl, findRelay_relayFor d wDef wDef2]
    exact hf1
  · rcases hcase with ⟨j, rl, hfj⟩ | rfl
    · rcases hcov with hcov | rfl
      · intro w hw
        obtain ⟨x, hx, hk⟩ := hcov j rl hfj w hw
        exact ⟨x, hold j rl hfj x hx, hk⟩
      · exact hc1
    · exact hc1

theorem Saturated_est (up : Upstream) (d : RelayDefinition) (wDef : WatchDefinition)
    (r : Remote) (hok : (r.EnsureRelay up (d.relayFor wDef)).2 = none) :
    Saturated d wDef (r.EnsureRelay up (d.relayFor wDef)).1 :=
  Saturated_of_shape up d wDef wDef r hok (Or.inr rfl) (Or.inr rfl)

theorem Saturated_pres (up : Upstream) (d : RelayDefinition) (wDef wDef2 : WatchDefinition)
    (r : Remote) (h : Saturated d wDef r)
    (hok : (r.EnsureRelay up (d.relayFor wDef2)).2 = none) :
    Saturated d wDef (r.EnsureRelay up (d.relayFor wDef2)).1 := by
  obtain ⟨i, rl, hf, hcov, _⟩ := h
  rw [findRelay_relayFor d wDef wDef2] at hf
  refine Saturated_of_shape up d wDef wDef2 r hok (Or.inl ?_) (Or.inl ⟨i, rl, hf⟩)
  intro j rl2 hj
  rw [hf] at hj
  cases hj
  exact hcov

/-- On a container in which the definition is saturated, the second loop changes
nothing and returns nil. -/
theorem ensureDefs_noop (up : Upstream) (d : RelayDefinition) (c : Container)
    (ws : List WatchDefinition)
    (h : ∀ wDef ∈ ws, ∃ r, c.lookup (Container.key wDef.RemoteOwner) = some r ∧
      Saturated d wDef r) :
    Container.ensureDefs up d c ws = (c, none) := by
  induction ws with
  | nil => rfl
  | cons a t ih =>
    obtain ⟨r, hl, hs⟩ := h a (List.mem_cons_self _ _)
    rw [ensureDefs_cons, hl]
    simp only [Option.getD_some, Saturated_noop up d a r hs]
    have hst : c.store (Container.key a.RemoteOwner) r = c := by
      cases c
      simp only [Container.store]
      congr 1
      exact storeIn_noop _ _ _ hl
    rw [hst]
    exact ih (fun w hw => h w (List.mem_cons_of_mem _ hw))

/-! ## Per-key view of `EnsureRelayDefinition` -/

theorem hasRemote_eq_false (d : RelayDefinition) (k : Key)
    (h : ∀ wDef ∈ d.Watch, Container.key wDef.RemoteOwner ≠ k) :
    d.hasRemote k Container.key = false := by
  unfold RelayDefinition.hasRemote
  rw [List.any_eq_false]
  intro wDef hw
  simpa using h wDef hw

theorem remoteAfter_inv (up : Upstream) (d : RelayDefinition) (k : Key) (P : Remote → Prop)
    (hzero : P Remote.zero)
    (hstep : ∀ (r : Remote) (wDef : WatchDefinition), P r →
      P (r.EnsureRelay up (d.relayFor wDef)).1)
    (ws : List WatchDefinition) :
    ∀ o : Option Remote, (∀ r0, o = some r0 → P r0) →
      ∀ r, Container.remoteAfter up d k o ws = some r → P r := by
  induction ws with
  | nil => intro o ho r hr; exact ho r hr
  | cons a t ih =>
    intro o ho r hr
    rw [Container.remoteAfter] at hr
    split at hr
    · refine ih _ ?_ r hr
      intro r0 h0
      cases h0
      apply hstep
      cases o with
      | none => exact hzero
      | some r1 => exact ho r1 rfl
    · exact ih o ho r hr

theorem remoteAfter_skip (up : Upstream) (d : RelayDefinition) (k : Key)
    (ws : List WatchDefinition) (h : ∀ wDef ∈ ws, Container.key wDef.RemoteOwner ≠ k) :
    ∀ o, Container.remoteAfter up d k o ws = o := by
  induction ws with
  | nil => intro o; rfl
  | cons a t ih =>
    intro o
    rw [Container.remoteAfter]
    simp only [h a (List.mem_cons_self _ _), if_false]
    exact ih (fun w hw => h w (List.mem_cons_of_mem _ hw)) o

theorem post_no_match (lead post : List Relay) (x : Relay)
    (h : ChannelsDistinct (lead ++ x :: post)) : ∀ y ∈ post, y.Channel ≠ x.Channel := by
  intro y hy hc
  unfold ChannelsDistinct at h
  rw [List.map_append, List.map_cons] at h
  have h2 := (List.nodup_append.mp h).2.1
  exact (List.nodup_cons.mp h2).1 (List.mem_map.mpr ⟨y, hy, hc⟩)

theorem filter_none {α : Type} (p : α → Bool) (l : List α) (h : ∀ x ∈ l, p x = false) :
    l.filter p = [] := by
  induction l with
  | nil => rfl
  | cons a t ih =>
    simp [List.filter, h a (List.mem_cons_self _ _),
      ih (fun x hx => h x (List.mem_cons_of_mem _ hx))]

theorem filter_channel_single (l : List Relay) (probe : Relay) (i : Nat) (rl : Relay)
    (hd : ChannelsDistinct l)
    (hf : findFirst (fun v : Relay => v.Match probe) l = some (i, rl)) :
    l.filter (fun x => decide (x.Channel = probe.Channel)) = [rl] := by
  obtain ⟨lead, post, hl, _, hlead, hrl⟩ := findFirst_eq_some _ _ _ _ hf
  have hc : rl.Channel = probe.Channel := (Relay_Match_iff rl probe).mp hrl
  rw [hl] at hd
  have hpost := post_no_match lead post rl hd
  rw [hl, List.filter_append, List.filter_cons]
  rw [filter_none _ lead (fun y hy => by
    simpa using (Relay_Match_false_iff y probe).mp (hlead y hy))]
  rw [filter_none _ post (fun y hy => by
    have := hpost y hy
    rw [hc] at this
    simpa using this)]
  simp [hc]

theorem EnsureRelay_target (up : Upstream) (d : RelayDefinition) (wDef : WatchDefinition)
    (r : Remote)
    (h : ∀ x ∈ r.relay, x.Channel = d.Channel → x.Target = d.Target) :
    ∀ x ∈ (r.EnsureRelay up (d.relayFor wDef)).1.relay,
      x.Channel = d.Channel → x.Target = d.Target := by
  rcases EnsureRelay_relay up r (d.relayFor wDef) with
    ⟨_, he⟩ | ⟨lead, rl, post, _, hl, _, _, he⟩
  · rw [he]
    intro x hx hc
    rcases List.mem_append.mp hx with hx | hx
    · exact h x hx hc
    · simp at hx
      rw [hx]
      rfl
  · rw [he]
    rw [hl] at h
    intro x hx hc
    rcases List.mem_append.mp hx with hx | hx
    · exact h x (by simp [hx]) hc
    · rcases List.mem_cons.mp hx with rfl | hx
      · rw [merge_Target]
        rw [merge_Channel] at hc
        exact h rl (by simp) hc
      · exact h x (by simp [hx]) hc

/-- The outcome of a successful `EnsureRelayDefinition` on a container whose remotes hold
at most one relay per channel. -/
theorem EnsureRelayDefinition_outcome (up : Upstream) (c c1 : Container)
    (d : RelayDefinition) (hc : c.RelaysDistinct)
    (h : c.EnsureRelayDefinition up d = some (c1, none)) :
    Container.ensureDefs up d { remote := c.remote.map d.ended } d.Watch = (c1, none) ∧
    (∀ kr ∈ c1.remote, ChannelsDistinct kr.2.relay ∧
      (d.hasRemote kr.1 Container.key = false →
        ∀ rl ∈ kr.2.relay, rl.Channel ≠ d.Channel)) ∧
    (∀ wDef ∈ d.Watch, ∃ r, c1.lookup (Container.key wDef.RemoteOwner) = some r ∧
      Saturated d wDef r) := by
  unfold Container.EnsureRelayDefinition at h
  rw [endStale_of_distinct d c.remote hc] at h
  simp only [Option.some.injEq] at h
  have hinv := ensureDefs_inv up d
    (fun k r => ChannelsDistinct r.relay ∧
      (d.hasRemote k Container.key = false → ∀ rl ∈ r.relay, rl.Channel ≠ d.Channel))
    d.Watch
    (fun wDef _ => ⟨by simp [ChannelsDistinct, Remote.zero], fun _ rl hrl => by
      simp [Remote.zero] at hrl⟩)
    (fun wDef hw r hP => ⟨EnsureRelay_distinct up r _ hP.1, fun hf => by
      rw [hasRemote_of_mem d wDef hw] at hf; cases hf⟩)
    { remote := c.remote.map d.ended }
    (by
      intro kr hkr
      obtain ⟨kr0, hkr0, rfl⟩ := List.mem_map.mp hkr
      refine ⟨ended_distinct d kr0 (hc kr0 hkr0), fun hf => ended_stale d kr0 ?_⟩
      rw [ended_key] at hf
      exact hf)
  have hpost := ensureDefs_post up d (Saturated d) (Saturated_est up d)
    (Saturated_pres up d) d.Watch { remote := c.remote.map d.ended } []
    (fun w hw => by cases hw) (by rw [h])
  rw [h] at hinv hpost
  exact ⟨h, hinv, fun wDef hw => hpost wDef (Or.inr hw)⟩


/-! ## Containers of remotes that are not started -/

theorem EnsureRelay_unstarted_ok (up : Upstream) (r : Remote) (relay : Relay)
    (hr : r.started = false) : (r.EnsureRelay up relay).2 = none := by
  cases hf : r.findRelay relay with
  | none =>
    rw [EnsureRelay_absent up r relay hf]
    refine (ensureWatches_unstarted up _ _ ?_).1
    exact hr
  | some ix =>
    rw [EnsureRelay_found up r relay ix.1 ix.2 hf]
    refine (ensureWatches_unstarted up _ _ ?_).1
    exact hr

theorem ensureDefs_unstarted (up : Upstream) (d : RelayDefinition)
    (ws : List WatchDefinition) :
    ∀ c : Container, (∀ kr ∈ c.remote, kr.2.started = false) →
      (Container.ensureDefs up d c ws).2 = none := by
  induction ws with
  | nil => intro c _; rfl
  | cons a t ih =>
    intro c hc
    rw [ensureDefs_cons]
    have h0 : ((c.lookup (Container.key a.RemoteOwner)).getD Remote.zero).started = false := by
      cases hl : c.lookup (Container.key a.RemoteOwner) with
      | none => rfl
      | some r => exact hc _ (mem_of_lookupIn _ _ _ hl)
    have hok := EnsureRelay_unstarted_ok up _ (d.relayFor a) h0
    have hst := EnsureRelay_started up
      ((c.lookup (Container.key a.RemoteOwner)).getD Remote.zero) (d.relayFor a)
    rcases hres : ((c.lookup (Container.key a.RemoteOwner)).getD Remote.zero).EnsureRelay up
        (d.relayFor a) with ⟨r1, _ | err⟩
    · rw [hres] at hst
      simp only at hst ⊢
      apply ih
      intro kr hkr
      rcases mem_storeIn _ _ _ _ hkr with h | h
      · rw [h]
        simp only
        rw [hst]
        exact h0
      · exact hc kr h
    · rw [hres] at hok
      cases hok

theorem ensureDefs_congr (up : Upstream) (d1 d2 : RelayDefinition)
    (h : ∀ w, d1.relayFor w = d2.relayFor w) (ws : List WatchDefinition) :
    ∀ c, Container.ensureDefs up d1 c ws = Container.ensureDefs up d2 c ws := by
  induction ws with
  | nil => intro c; rfl
  | cons a t ih =>
    intro c
    rw [ensureDefs_cons, ensureDefs_cons, h a]
    rcases ((c.lookup (Container.key a.RemoteOwner)).getD Remote.zero).EnsureRelay up
        (d2.relayFor a) with ⟨r1, _ | err⟩
    · exact ih _
    · rfl

theorem remoteAfter_append (up : Upstream) (d : RelayDefinition) (k : Key)
    (l1 l2 : List WatchDefinition) :
    ∀ o, Container.remoteAfter up d k o (l1 ++ l2) =
      Container.remoteAfter up d k (Container.remoteAfter up d k o l1) l2 := by
  induction l1 with
  | nil => intro o; rfl
  | cons a t ih =>
    intro o
    rw [List.cons_append, Container.remoteAfter, Container.remoteAfter]
    split
    · exact ih _
    · exact ih _

theorem zero_EnsureRelay_relay (up : Upstream) (relay : Relay) :
    (Remote.zero.EnsureRelay up relay).1.relay = [relay] := by
  rcases EnsureRelay_relay up Remote.zero relay with ⟨_, h⟩ | ⟨lead, rl, post, _, hl, _⟩
  · rw [h]; rfl
  · have : (Remote.zero.relay).length = (lead ++ rl :: post).length := by rw [hl]
    simp [Remote.zero] at this
    omega


/-! ## C1, C8: `Remote.EnsureWatch` -/

/-- C1. `Remote.EnsureWatch(w)`, for a watch `w` constructed by a caller (so not yet
started): when the remote holds a watch of the kind of `w`, the first such watch gets
exactly the predicate list of `w` and nothing else in the remote changes, the watch list
keeping its length and order; when it holds none, `w` is appended at the end of the
watch list, and its started flag is true afterwards iff the remote is started and the
upstream install (`controller.Watch`) succeeded. -/
theorem EnsureWatch_contract (up : Upstream) (r : Remote) (w : Watch)
    (hw : w.started = false) :
    ((∃ x ∈ r.watch, ToKind x.Subject = ToKind w.Subject) →
      ∃ pre x post, r.watch = pre ++ x :: post ∧
        (∀ y ∈ pre, ToKind y.Subject ≠ ToKind w.Subject) ∧
        ToKind x.Subject = ToKind w.Subject ∧
        (r.EnsureWatch up w).1 =
          { r with watch := pre ++ { x with Predicates := w.Predicates } :: post }) ∧
    ((∀ x ∈ r.watch, ToKind x.Subject ≠ ToKind w.Subject) →
      ∃ w1, (r.EnsureWatch up w).1 = { r with watch := r.watch ++ [w1] } ∧
        w1.Subject = w.Subject ∧ w1.Predicates = w.Predicates ∧
        (w1.started = true ↔
          (r.started = true ∧ up.controllerWatch w.Subject w.chain = none))) := by
  constructor
  · rintro ⟨x, hx, hk⟩
    obtain ⟨i, y, hf⟩ := exists_of_not_all_false (fun v => v.Match w.Subject) r.watch
      ⟨x, hx, (Match_iff x w.Subject).mpr hk⟩
    obtain ⟨pre, post, hl, hlen, hpre, hy⟩ := findFirst_eq_some _ _ _ _ hf
    refine ⟨pre, y, post, hl, ?_, (Match_iff y w.Subject).mp hy, ?_⟩
    · intro z hz
      exact (Match_false_iff z w.Subject).mp (hpre z hz)
    · rw [EnsureWatch_fst, ensureWatch_found up r w i y hf]
      subst hlen
      simp only [hl, updateAt_append, Watch.merge]
  · intro hall
    have hf : r.findWatch w.Subject = none :=
      (findFirst_eq_none _ _).mpr
        (fun x hx => (Match_false_iff x w.Subject).mpr (hall x hx))
    refine ⟨(w.start up { r with watch := r.watch ++ [w] }).1, ?_, ?_, ?_, ?_⟩
    · rw [EnsureWatch_fst, ensureWatch_absent up r w hf]
    · exact (start_subject up w _).1
    · exact (start_subject up w _).2
    · exact start_started up w _ hw

/-- C8. `Remote.EnsureWatch` is idempotent: a second call with the same watch, whatever
the upstream answers then, leaves the whole remote (watch list with subjects, predicates
and started flags, relay list, started flag and the rest) as the first call left it. -/
theorem EnsureWatch_idempotent (up up2 : Upstream) (r : Remote) (w : Watch) :
    ((r.EnsureWatch up w).1.EnsureWatch up2 w).1 = (r.EnsureWatch up w).1 := by
  rw [EnsureWatch_fst up r w, EnsureWatch_fst]
  cases hf : r.findWatch w.Subject with
  | some ix =>
    obtain ⟨i, x⟩ := ix
    obtain ⟨pre, post, hl, hlen, hpre, hx⟩ := findFirst_eq_some _ _ _ _ hf
    subst hlen
    rw [ensureWatch_found up r w _ x hf]
    have hf2 : Remote.findWatch
        { r with watch := updateAt (fun y => y.merge w) pre.length r.watch } w.Subject =
        some (pre.length, x.merge w) := by
      simp only [Remote.findWatch, hl, updateAt_append]
      exact findFirst_append _ pre post (x.merge w) hpre hx
    rw [ensureWatch_found up2 _ w _ _ hf2]
    simp only [hl, updateAt_append, Watch.merge]
  | none =>
    rw [ensureWatch_absent up r w hf]
    have hnone := (findFirst_eq_none _ _).mp hf
    obtain ⟨hs, hp⟩ := start_subject up w { r with watch := r.watch ++ [w] }
    generalize w.start up { r with watch := r.watch ++ [w] } = res at hs hp
    have hf2 : Remote.findWatch { r with watch := r.watch ++ [res.1] } w.Subject =
        some (r.watch.length, res.1) := by
      simp only [Remote.findWatch]
      exact findFirst_append _ r.watch [] res.1 hnone (by simp [Watch.Match, hs])
    rw [ensureWatch_found up2 _ w _ _ hf2]
    simp only [updateAt_append, Watch.merge, ← hp]

/-! ## C2, C3: `Remote.EnsureRelay` and `Relay.merge` -/

/-- C2. `Remote.EnsureRelay(relay)`: when no held relay has the channel of `relay`, `relay`
is appended to the relay list; when one has, the relay list keeps its length and order
and the first relay on that channel becomes its merge with `relay`, which keeps its old
watches in front and holds a watch of every incoming kind; in both cases, when the call
returns no error, the remote holds a watch of every kind the resulting relay mentions. -/
theorem EnsureRelay_contract (up : Upstream) (r : Remote) (relay : Relay) :
    ((∀ rl ∈ r.relay, rl.Channel ≠ relay.Channel) →
      (r.EnsureRelay up relay).1.relay = r.relay ++ [relay] ∧
      ((r.EnsureRelay up relay).2 = none →
        ∀ w ∈ relay.Watch, ∃ x ∈ (r.EnsureRelay up relay).1.watch,
          ToKind x.Subject = ToKind w.Subject)) ∧
    ((∃ rl ∈ r.relay, rl.Channel = relay.Channel) →
      ∃ pre rl post, r.relay = pre ++ rl :: post ∧
        (∀ y ∈ pre, y.Channel ≠ relay.Channel) ∧ rl.Channel = relay.Channel ∧
        (r.EnsureRelay up relay).1.relay = pre ++ rl.merge relay :: post ∧
        (∃ ext, (rl.merge relay).Watch = rl.Watch ++ ext) ∧
        (∀ w ∈ relay.Watch, ∃ x ∈ (rl.merge relay).Watch,
          ToKind x.Subject = ToKind w.Subject) ∧
        ((r.EnsureRelay up relay).2 = none →
          ∀ w ∈ (rl.merge relay).Watch, ∃ x ∈ (r.EnsureRelay up relay).1.watch,
            ToKind x.Subject = ToKind w.Subject)) := by
  constructor
  · intro hall
    have hf : r.findRelay relay = none :=
      (findFirst_eq_none _ _).mpr (fun x hx => (Relay_Match_false_iff x relay).mpr (hall x hx))
    rw [EnsureRelay_absent up r relay hf]
    obtain ⟨l, hl⟩ := ensureWatches_frame up relay.Watch { r with relay := r.relay ++ [relay] }
    exact ⟨by rw [hl], fun hok => ensureWatches_covers up _ _ hok⟩
  · rintro ⟨x, hx, hc⟩
    obtain ⟨i, rl, hf⟩ := exists_of_not_all_false (fun v : Relay => v.Match relay) r.relay
      ⟨x, hx, (Relay_Match_iff x relay).mpr hc⟩
    obtain ⟨pre, post, hl, hlen, hpre, hrl⟩ := findFirst_eq_some _ _ _ _ hf
    subst hlen
    rw [EnsureRelay_found up r relay _ rl hf]
    obtain ⟨l, hfr⟩ := ensureWatches_frame up (rl.merge relay).Watch
      { r with relay := updateAt (fun x => x.merge relay) pre.length r.relay }
    obtain ⟨ext, hext, _⟩ := merge_frame rl relay
    refine ⟨pre, rl, post, hl, ?_, (Relay_Match_iff rl relay).mp hrl, ?_, ⟨ext, ?_⟩,
      merge_covers rl relay, fun hok => ensureWatches_covers up _ _ hok⟩
    · intro y hy
      exact (Relay_Match_false_iff y relay).mp (hpre y hy)
    · rw [hfr]
      simp only [hl, updateAt_append]
    · rw [hext]

/-- C3 (code as written). `Relay.merge` leaves a watch it already holds as it is: on the
relay holding `Pod` with predicates `[p1]`, merging an incoming relay that holds `Pod`
with predicates `[p2]` returns the relay unchanged, `Pod` still with `[p1]`. -/
theorem Relay_merge_keeps_held_predicates :
    Relay.merge
      { Target := some Sample.target1, Channel := Sample.chan,
        Watch := [Sample.watchPod [Sample.p1]] }
      { Target := some Sample.target1, Channel := Sample.chan,
        Watch := [Sample.watchPod [Sample.p2]] } =
      { Target := some Sample.target1, Channel := Sample.chan,
        Watch := [Sample.watchPod [Sample.p1]] } := by
  decide

/-! ## C4: `Remote.EndRelay` -/

/-- C4. `Remote.EndRelay(relay)` on a reachable remote does not panic, changes nothing
but the relay list, leaves no relay whose channel is that of `relay`, and keeps the
relays of other channels, each once and in their order: the relay list afterwards is
the list before with the relays on that channel filtered out. -/
theorem EndRelay_removes (r : Remote) (relay : Relay) (hr : Remote.Reachable r) :
    ∃ r1, r.EndRelay relay = some r1 ∧
      r1 = { r with relay := r1.relay } ∧
      (∀ rl ∈ r1.relay, rl.Channel ≠ relay.Channel) ∧
      r1.relay = r.relay.filter (fun rl => decide (rl.Channel ≠ relay.Channel)) := by
  refine ⟨_, EndRelay_of_distinct r relay (Reachable_channels r hr), rfl, ?_, ?_⟩
  · intro rl hrl
    simp only [List.mem_filter] at hrl
    have := hrl.2
    simpa [Relay.Match] using this
  · simp only
    congr 1
    funext rl
    by_cases h : rl.Channel = relay.Channel <;> simp [Relay.Match, h]

/-! ## C9, C10: `Remote.Start` and `Remote.TakeWorkload` -/

/-- Go `Start` on a remote that is not started never changes a watch: `Watch.start` returns at
its guard because `r.started` is set only after the loop. -/
theorem startWatches_unstarted (up : Upstream) (r : Remote) (hr : r.started = false)
    (todo : List Watch) :
    ∀ visited, Remote.startWatches up r visited todo =
      ({ r with watch := visited ++ todo }, none) := by
  induction todo with
  | nil => intro visited; simp [Remote.startWatches]
  | cons a t ih =>
    intro visited
    unfold Remote.startWatches
    rw [start_unstarted up a r hr]
    simp only
    rw [ih (visited ++ [a])]
    simp

/-- C9 (code as written). On a remote that is not started, has a REST configuration and
holds one `Pod` watch, with an upstream on which every call succeeds, `Start` returns
nil and marks the remote started, and the watch is still not started: the loop calls
`Watch.start` while `r.started` is false, so the watch is not installed. -/
theorem Start_leaves_watch_uninstalled :
    Remote.Start Sample.upOk
      { Name := "a", RestCfg := some Sample.cfg, relay := [],
        watch := [Sample.watchPod []], started := false, done := DoneChan.isNil } =
      ({ Name := "a", RestCfg := some Sample.cfg, relay := [],
         watch := [{ Subject := Sample.pod, Predicates := [], started := false }],
         started := true, done := DoneChan.isNil }, none) := by
  decide

/-- C10 (claim as stated fails). A receiver without watches and relays takes the
workload of a remote holding the watch `Pod` with predicates `[p1]` and a relay that
mentions `Pod`.  Not started, it ends with no `Pod` watch carrying `[p1]`; started,
it ends with a `Pod` watch whose started flag is true. -/
theorem TakeWorkload_not_verbatim :
    (¬ ∃ w ∈ (Remote.TakeWorkload Sample.upOk Remote.zero
          { Remote.zero with
            watch := [Sample.watchPod [Sample.p1]],
            relay := [{ Target := some Sample.target1, Channel := Sample.chan,
                        Watch := [Sample.watchPod []] }] }).1.watch,
        ToKind w.Subject = "Pod" ∧ w.Predicates = [Sample.p1]) ∧
    (¬ ∃ w ∈ (Remote.TakeWorkload Sample.upOk
          { Remote.zero with RestCfg := some Sample.cfg, started := true }
          { Remote.zero with
            watch := [Sample.watchPod [Sample.p1]] }).1.watch,
        ToKind w.Subject = "Pod" ∧ w.started = false) := by
  decide

/-- C10 (amended). For a receiver `r` that is not started and holds no watches and no
relays, and a remote `other` with at most one watch per kind and one relay per channel:
after `r.TakeWorkload(other)`, `r` holds for every watch previously on `other` a watch
of the same kind that is not started, and that has the same predicate list when no
relay of `other` mentions the kind; `r` holds exactly the relays previously on `other`;
no watch of `r` is started; `other` holds no watches and no relays. -/
theorem TakeWorkload_moves (up : Upstream) (r other : Remote)
    (hw : r.watch = []) (hrl : r.relay = []) (hs : r.started = false)
    (hk : KindsDistinct other.watch) (hc : ChannelsDistinct other.relay) :
    (∀ w ∈ other.watch, ∃ x ∈ (r.TakeWorkload up other).1.watch,
      ToKind x.Subject = ToKind w.Subject ∧ x.started = false ∧
      ((∀ rl ∈ other.relay, ∀ y ∈ rl.Watch, ToKind y.Subject ≠ ToKind w.Subject) →
        x.Predicates = w.Predicates)) ∧
    (r.TakeWorkload up other).1.relay = other.relay ∧
    (∀ x ∈ (r.TakeWorkload up other).1.watch, x.started = false) ∧
    (r.TakeWorkload up other).2.watch = [] ∧
    (r.TakeWorkload up other).2.relay = [] := by
  have h1 : Remote.takeWatches up r other.watch =
      { r with watch := other.watch.map Watch.reset } := by
    rw [takeWatches_distinct up other.watch r hs (by rw [hw]; simpa using hk), hw]
    simp
  obtain ⟨t1, t2, t3, t4⟩ := takeRelays_unstarted up other.relay
    { r with watch := other.watch.map Watch.reset } hs
    (by simpa [hrl] using hc)
  have hflags : ∀ x ∈ (r.TakeWorkload up other).1.watch, x.started = false := by
    unfold Remote.TakeWorkload
    simp only [h1]
    apply t2
    intro w hw1
    obtain ⟨v, _, rfl⟩ := List.mem_map.mp hw1
    rfl
  refine ⟨?_, ?_, hflags, rfl, rfl⟩
  · intro w hwo
    by_cases hm : ∀ rl ∈ other.relay, ∀ y ∈ rl.Watch, ToKind y.Subject ≠ ToKind w.Subject
    · refine ⟨w.reset, ?_, rfl, rfl, fun _ => rfl⟩
      unfold Remote.TakeWorkload
      simp only [h1]
      exact t3 w.reset (List.mem_map.mpr ⟨w, hwo, rfl⟩) hm
    · have : ∃ x ∈ (r.TakeWorkload up other).1.watch, ToKind x.Subject = ToKind w.Subject := by
        unfold Remote.TakeWorkload
        simp only [h1]
        exact t4 _ ⟨w.reset, List.mem_map.mpr ⟨w, hwo, rfl⟩, rfl⟩
      obtain ⟨x, hx, hkx⟩ := this
      exact ⟨x, hx, hkx, hflags x hx, fun h => absurd h hm⟩
  · unfold Remote.TakeWorkload
    simp only [h1]
    rw [t1]
    simp [hrl]

/-! ## C5, C6: `Container.EnsureRelayDefinition` -/

/-- C5 (claim as stated fails). From the empty container, applying the definition
`{channel c, target t1, watches [(A, Pod)]}` and then `{channel c, target t2, watches
[(A, Pod)]}` succeeds twice and leaves at remote `A` one relay on `c` whose target is
still `t1`, not the target `t2` of the definition applied last. -/
theorem EnsureRelayDefinition_keeps_old_target :
    ((Container.empty.EnsureRelayDefinition Sample.upOk
        { Channel := Sample.chan, Target := some Sample.target1,
          Watch := [{ RemoteOwner := Sample.ownerA, Watch := [Sample.watchPod []] }] }).bind
      (fun x => x.1.EnsureRelayDefinition Sample.upOk
        { Channel := Sample.chan, Target := some Sample.target2,
          Watch := [{ RemoteOwner := Sample.ownerA, Watch := [Sample.watchPod []] }] })).map
      (fun x => (x.2, (x.1.lookup (Container.key Sample.ownerA)).map
        (fun r => r.relay.map (fun rl => (rl.Channel, rl.Target))))) =
      some (none, some [(Sample.chan, some Sample.target1)]) := by
  decide

/-- C5 (amended). After a successful `EnsureRelayDefinition(def)` on a container whose
remotes hold at most one relay per channel: every remote whose key is not the key of an
owner named in `def.Watch` holds no relay on `def.Channel`; every remote named in
`def.Watch` exists and holds exactly one relay on `def.Channel`, whose target is
`def.Target` provided the remote held no relay on that channel with another target
before the call.  In particular, applying `{c, [(A, Pod)]}` and then `{c, [(B, Pod)]}`
from the empty container leaves no relay on `c` at `A` and one relay on `c` at `B`. -/
theorem EnsureRelayDefinition_reconciles (up : Upstream) (c c1 : Container)
    (d : RelayDefinition) (hc : c.RelaysDistinct)
    (h : c.EnsureRelayDefinition up d = some (c1, none)) :
    (∀ kr ∈ c1.remote, (∀ wDef ∈ d.Watch, Container.key wDef.RemoteOwner ≠ kr.1) →
      ∀ rl ∈ kr.2.relay, rl.Channel ≠ d.Channel) ∧
    (∀ wDef ∈ d.Watch, ∃ r rl,
      c1.lookup (Container.key wDef.RemoteOwner) = some r ∧
      r.relay.filter (fun x => decide (x.Channel = d.Channel)) = [rl] ∧
      ((∀ r0, c.lookup (Container.key wDef.RemoteOwner) = some r0 →
          ∀ x ∈ r0.relay, x.Channel = d.Channel → x.Target = d.Target) →
        rl.Target = d.Target)) ∧
    ((Container.empty.EnsureRelayDefinition Sample.upOk
        { Channel := Sample.chan, Target := some Sample.target1,
          Watch := [{ RemoteOwner := Sample.ownerA, Watch := [Sample.watchPod []] }] }).bind
      (fun x => x.1.EnsureRelayDefinition Sample.upOk
        { Channel := Sample.chan, Target := some Sample.target1,
          Watch := [{ RemoteOwner := Sample.ownerB, Watch := [Sample.watchPod []] }] })).map
      (fun x => (x.2,
        (x.1.lookup (Container.key Sample.ownerA)).map
          (fun r => r.relay.map (fun rl => rl.Channel)),
        (x.1.lookup (Container.key Sample.ownerB)).map
          (fun r => r.relay.map (fun rl => rl.Channel)))) =
      some (none, some [], some [Sample.chan]) := by
  obtain ⟨hE, hinv, hsat⟩ := EnsureRelayDefinition_outcome up c c1 d hc h
  refine ⟨?_, ?_, by decide⟩
  · intro kr hkr hno
    exact (hinv kr hkr).2 (hasRemote_eq_false d kr.1 hno)
  · intro wDef hw
    obtain ⟨r, hl, i, rl, hf, _, _⟩ := hsat wDef hw
    have hd : ChannelsDistinct r.relay := (hinv _ (mem_of_lookupIn _ _ _ hl)).1
    refine ⟨r, rl, hl, filter_channel_single r.relay (d.relayFor wDef) i rl hd hf, ?_⟩
    intro h0
    have hlook := ensureDefs_lookup up d (Container.key wDef.RemoteOwner) d.Watch
      { remote := c.remote.map d.ended } (by rw [hE])
    rw [hE] at hlook
    simp only at hlook
    rw [hl] at hlook
    have hsrc : (Container.lookup { remote := c.remote.map d.ended }
        (Container.key wDef.RemoteOwner)) = c.lookup (Container.key wDef.RemoteOwner) := by
      simp only [Container.lookup, lookupIn_map_ended]
      cases hcl : lookupIn (Container.key wDef.RemoteOwner) c.remote with
      | none => rfl
      | some r0 => simp [ended_kept d _ r0 (hasRemote_of_mem d wDef hw)]
    rw [hsrc] at hlook
    have hT := remoteAfter_inv up d (Container.key wDef.RemoteOwner)
      (fun r => ∀ x ∈ r.relay, x.Channel = d.Channel → x.Target = d.Target)
      (by intro x hx; simp [Remote.zero] at hx)
      (fun r w hP => EnsureRelay_target up d w r hP)
      d.Watch (c.lookup (Container.key wDef.RemoteOwner)) h0 r hlook.symm
    obtain ⟨lead, post, hrl, _, _, hm⟩ := findFirst_eq_some _ _ _ _ hf
    exact hT rl (by rw [hrl]; simp) ((Relay_Match_iff rl _).mp hm)

/-- C6 (claim as stated fails). Remote `A` is started and the upstream refuses
`controller.Watch` for `Pod`.  The first application of the definition with watches
`[(A, [Pod, Service])]` returns an error and leaves `A` with the watch `Pod` only; the
second application returns nil and leaves `A` with `Pod` and `Service`. -/
theorem EnsureRelayDefinition_retry_differs :
    ((Container.EnsureRelayDefinition Sample.upNoPod
        { remote := [(Container.key Sample.ownerA,
            { Remote.zero with RestCfg := some Sample.cfg, started := true })] }
        { Channel := Sample.chan, Target := some Sample.target1,
          Watch := [{ RemoteOwner := Sample.ownerA,
                      Watch := [Sample.watchPod [], Sample.watchSvc []] }] }).map
      (fun x => (x.2.isSome, (x.1.lookup (Container.key Sample.ownerA)).map
        (fun r => r.watch.map (fun w => ToKind w.Subject)))) =
      some (true, some ["Pod"])) ∧
    (((Container.EnsureRelayDefinition Sample.upNoPod
        { remote := [(Container.key Sample.ownerA,
            { Remote.zero with RestCfg := some Sample.cfg, started := true })] }
        { Channel := Sample.chan, Target := some Sample.target1,
          Watch := [{ RemoteOwner := Sample.ownerA,
                      Watch := [Sample.watchPod [], Sample.watchSvc []] }] }).bind
      (fun x => x.1.EnsureRelayDefinition Sample.upNoPod
        { Channel := Sample.chan, Target := some Sample.target1,
          Watch := [{ RemoteOwner := Sample.ownerA,
                      Watch := [Sample.watchPod [], Sample.watchSvc []] }] })).map
      (fun x => (x.2.isSome, (x.1.lookup (Container.key Sample.ownerA)).map
        (fun r => r.watch.map (fun w => ToKind w.Subject)))) =
      some (false, some ["Pod", "Service"])) := by
  decide

/-- C6 (amended). On a container whose remotes hold at most one relay per channel, when
`EnsureRelayDefinition(d)` returns without error, applying `d` again (against any
upstream) returns without error and leaves the container exactly as the first
application left it: the same remotes, each with the same watch list and relay list. -/
theorem EnsureRelayDefinition_idempotent (up up2 : Upstream) (c c1 : Container)
    (d : RelayDefinition) (hc : c.RelaysDistinct)
    (h : c.EnsureRelayDefinition up d = some (c1, none)) :
    c1.EnsureRelayDefinition up2 d = some (c1, none) := by
  obtain ⟨_, hinv, hsat⟩ := EnsureRelayDefinition_outcome up c c1 d hc h
  unfold Container.EnsureRelayDefinition
  rw [endStale_of_distinct d c1.remote (fun kr hkr => (hinv kr hkr).1)]
  have hmap : c1.remote.map d.ended = c1.remote := by
    conv_rhs => rw [← List.map_id c1.remote]
    apply List.map_congr_left
    intro kr hkr
    exact ended_noop d kr (hinv kr hkr).2
  simp only [hmap]
  rw [ensureDefs_noop up2 d c1 d.Watch hsat]

/-! ## C7: a definition applied after a larger one -/

/-- C7 (claim as stated fails). From the empty container, applying
`{c, [(A, Pod), (B, Pod)]}` and then `{c, [(A, Pod)]}` leaves remote `B` in the
container, without relays and still with its `Pod` watch, while applying
`{c, [(A, Pod)]}` alone creates no remote `B`. -/
theorem extra_remote_stays_after_second_definition :
    (((Container.empty.EnsureRelayDefinition Sample.upOk
        { Channel := Sample.chan, Target := some Sample.target1,
          Watch := [{ RemoteOwner := Sample.ownerA, Watch := [Sample.watchPod []] },
                    { RemoteOwner := Sample.ownerB, Watch := [Sample.watchPod []] }] }).bind
      (fun x => x.1.EnsureRelayDefinition Sample.upOk
        { Channel := Sample.chan, Target := some Sample.target1,
          Watch := [{ RemoteOwner := Sample.ownerA, Watch := [Sample.watchPod []] }] })).map
      (fun x => x.1.lookup (Container.key Sample.ownerB)) =
      some (some { Remote.zero with watch := [Sample.watchPod []] })) ∧
    ((Container.empty.EnsureRelayDefinition Sample.upOk
        { Channel := Sample.chan, Target := some Sample.target1,
          Watch := [{ RemoteOwner := Sample.ownerA, Watch := [Sample.watchPod []] }] }).map
      (fun x => x.1.lookup (Container.key Sample.ownerB)) = some none) := by
  decide

/-- C7 (amended). From the empty container, for a definition `d` and an extra
`(remote-owner, watches)` pair whose owner is not named in `d`, placed anywhere in the
watch list: applying `d ∪ {extra}` and then `d` succeeds, and under every key but that of
the extra owner the container holds the same remote, with the same watches and relays,
as after applying `d` once.  Under the key of the extra owner, applying `d` once holds
no remote, while after `d ∪ {extra}` then `d` the remote created for the extra owner
remains, with the watches `EnsureRelay` registered and no relay. -/
theorem EnsureRelayDefinition_extra (up : Upstream) (d : RelayDefinition)
    (lead post : List WatchDefinition) (extra : WatchDefinition)
    (hd : d.Watch = lead ++ post)
    (hx : ∀ wDef ∈ d.Watch, Container.key wDef.RemoteOwner ≠ Container.key extra.RemoteOwner) :
    ∃ c1 cx c2,
      Container.empty.EnsureRelayDefinition up d = some (c1, none) ∧
      Container.empty.EnsureRelayDefinition up { d with Watch := lead ++ extra :: post } =
        some (cx, none) ∧
      cx.EnsureRelayDefinition up d = some (c2, none) ∧
      (∀ k, k ≠ Container.key extra.RemoteOwner → c2.lookup k = c1.lookup k) ∧
      c1.lookup (Container.key extra.RemoteOwner) = none ∧
      c2.lookup (Container.key extra.RemoteOwner) =
        some { (Remote.zero.EnsureRelay up (d.relayFor extra)).1 with relay := [] } := by
  have hempty : ∀ kr ∈ Container.empty.remote, kr.2.started = false := by
    intro kr hkr; cases hkr
  -- the three applications
  have ok1 := ensureDefs_unstarted up d d.Watch Container.empty hempty
  have okx := ensureDefs_unstarted up d (lead ++ extra :: post) Container.empty hempty
  have hcx : Container.empty.EnsureRelayDefinition up { d with Watch := lead ++ extra :: post } =
      some ((Container.ensureDefs up d Container.empty (lead ++ extra :: post)).1, none) := by
    unfold Container.EnsureRelayDefinition
    simp only [Container.empty, Container.endStale]
    rw [ensureDefs_congr up { d with Watch := lead ++ extra :: post } d (fun w => rfl)]
    rw [← okx]
    rfl
  have hc1 : Container.empty.EnsureRelayDefinition up d =
      some ((Container.ensureDefs up d Container.empty d.Watch).1, none) := by
    unfold Container.EnsureRelayDefinition
    simp only [Container.empty, Container.endStale]
    rw [← ok1]
    rfl
  -- per-key content
  have look1 := fun k => ensureDefs_lookup up d k d.Watch Container.empty ok1
  have lookx := fun k => ensureDefs_lookup up d k (lead ++ extra :: post) Container.empty okx
  have hnone : ∀ k, Container.empty.lookup k = none := fun k => rfl
  have hxl : ∀ wDef ∈ lead, Container.key wDef.RemoteOwner ≠ Container.key extra.RemoteOwner :=
    fun w hw => hx w (by rw [hd]; simp [hw])
  have hxp : ∀ wDef ∈ post, Container.key wDef.RemoteOwner ≠ Container.key extra.RemoteOwner :=
    fun w hw => hx w (by rw [hd]; simp [hw])
  have same : ∀ k, k ≠ Container.key extra.RemoteOwner →
      (Container.ensureDefs up d Container.empty (lead ++ extra :: post)).1.lookup k =
        (Container.ensureDefs up d Container.empty d.Watch).1.lookup k := by
    intro k hk
    rw [lookx k, look1 k, hd, remoteAfter_append, remoteAfter_append]
    rw [Container.remoteAfter.eq_2]
    rw [if_neg (fun e => hk (Eq.symm e))]
  have atE : (Container.ensureDefs up d Container.empty (lead ++ extra :: post)).1.lookup
      (Container.key extra.RemoteOwner) =
        some (Remote.zero.EnsureRelay up (d.relayFor extra)).1 := by
    rw [lookx, hnone, remoteAfter_append, remoteAfter_skip up d _ lead hxl]
    rw [Container.remoteAfter.eq_2]
    simp only [if_true, Option.getD_none]
    rw [remoteAfter_skip up d _ post hxp]
  have atE1 : (Container.ensureDefs up d Container.empty d.Watch).1.lookup
      (Container.key extra.RemoteOwner) = none := by
    rw [look1, hnone, remoteAfter_skip up d _ d.Watch hx]
  -- the second application of `d`
  have hdist : Container.RelaysDistinct
      (Container.ensureDefs up d Container.empty (lead ++ extra :: post)).1 :=
    ensureDefs_inv up d (fun _ r => ChannelsDistinct r.relay) (lead ++ extra :: post)
      (fun _ _ => by simp [ChannelsDistinct, Remote.zero])
      (fun w _ r hP => EnsureRelay_distinct up r _ hP) Container.empty
      (by intro kr hkr; cases hkr)
  have hsatx := ensureDefs_post up d (Saturated d) (Saturated_est up d)
    (Saturated_pres up d) (lead ++ extra :: post) Container.empty []
    (fun w hw => by cases hw) okx
  have hended : ∀ k, Container.lookup
      { remote := (Container.ensureDefs up d Container.empty
          (lead ++ extra :: post)).1.remote.map d.ended } k =
      ((Container.ensureDefs up d Container.empty (lead ++ extra :: post)).1.lookup k).map
        (fun r => (d.ended (k, r)).2) := fun k => lookupIn_map_ended d k _
  have hc2 : (Container.ensureDefs up d Container.empty
        (lead ++ extra :: post)).1.EnsureRelayDefinition up d =
      some ({ remote := (Container.ensureDefs up d Container.empty
          (lead ++ extra :: post)).1.remote.map d.ended }, none) := by
    unfold Container.EnsureRelayDefinition
    rw [endStale_of_distinct d _ hdist]
    simp only
    rw [ensureDefs_noop up d _ d.Watch]
    intro wDef hw
    obtain ⟨r, hl, hs⟩ := hsatx wDef (Or.inr (by
      rw [hd] at hw
      rcases List.mem_append.mp hw with h | h
      · simp [h]
      · simp [h]))
    refine ⟨r, ?_, hs⟩
    rw [hended, hl]
    simp [ended_kept d _ r (hasRemote_of_mem d wDef hw)]
  refine ⟨_, _, _, hc1, hcx, hc2, ?_, atE1, ?_⟩
  · intro k hk
    rw [hended, same k hk]
    cases hh : d.hasRemote k Container.key with
    | true =>
      cases hl : (Container.ensureDefs up d Container.empty d.Watch).1.lookup k with
      | none => rfl
      | some r => simp [ended_kept d k r hh]
    | false =>
      rw [look1, hnone, remoteAfter_skip up d k d.Watch (hasRemote_false d k hh)]
      rfl
  · rw [hended, atE]
    have hh := hasRemote_eq_false d _ hx
    simp only [Option.map_some', RelayDefinition.ended, hh, Bool.false_eq_true, if_false,
      zero_EnsureRelay_relay]
    congr 2
    simp [List.filter, Relay.Match, RelayDefinition.probe, RelayDefinition.relayFor]

/-! ## Instances of the theorems at sample values -/

/-- C1 at a started remote holding a `Service` watch and a fresh `Pod` watch. -/
theorem EnsureWatch_contract_witness :
    (Sample.watchPod [Sample.p1]).started = false ∧
    (((∃ x ∈ Sample.running.watch,
        ToKind x.Subject = ToKind (Sample.watchPod [Sample.p1]).Subject) →
      ∃ pre x post, Sample.running.watch = pre ++ x :: post ∧
        (∀ y ∈ pre, ToKind y.Subject ≠ ToKind (Sample.watchPod [Sample.p1]).Subject) ∧
        ToKind x.Subject = ToKind (Sample.watchPod [Sample.p1]).Subject ∧
        (Sample.running.EnsureWatch Sample.upOk (Sample.watchPod [Sample.p1])).1 =
          { Sample.running with
            watch := pre ++
              { x with Predicates := (Sample.watchPod [Sample.p1]).Predicates } :: post }) ∧
    ((∀ x ∈ Sample.running.watch,
        ToKind x.Subject ≠ ToKind (Sample.watchPod [Sample.p1]).Subject) →
      ∃ w1, (Sample.running.EnsureWatch Sample.upOk (Sample.watchPod [Sample.p1])).1 =
          { Sample.running with watch := Sample.running.watch ++ [w1] } ∧
        w1.Subject = (Sample.watchPod [Sample.p1]).Subject ∧
        w1.Predicates = (Sample.watchPod [Sample.p1]).Predicates ∧
        (w1.started = true ↔
          (Sample.running.started = true ∧
            Sample.upOk.controllerWatch (Sample.watchPod [Sample.p1]).Subject
              (Sample.watchPod [Sample.p1]).chain = none)))) :=
  ⟨rfl, EnsureWatch_contract Sample.upOk Sample.running (Sample.watchPod [Sample.p1]) rfl⟩

/-- C4 at the remote reached by one `EnsureRelay`. -/
theorem EndRelay_removes_witness :
    Remote.Reachable Sample.held ∧
    ∃ r1, Sample.held.EndRelay Sample.relayPod = some r1 ∧
      r1 = { Sample.held with relay := r1.relay } ∧
      (∀ rl ∈ r1.relay, rl.Channel ≠ Sample.relayPod.Channel) ∧
      r1.relay = Sample.held.relay.filter
        (fun rl => decide (rl.Channel ≠ Sample.relayPod.Channel)) :=
  ⟨Remote.Reachable.ensureRelay Sample.upOk _ Sample.relayPod (Remote.Reachable.literal "" none),
   EndRelay_removes Sample.held Sample.relayPod
    (Remote.Reachable.ensureRelay Sample.upOk _ Sample.relayPod
      (Remote.Reachable.literal "" none))⟩

/-- C10 at `&Remote{}` taking over a remote with two watches. -/
theorem TakeWorkload_moves_witness :
    Remote.zero.watch = [] ∧ Remote.zero.relay = [] ∧ Remote.zero.started = false ∧
    KindsDistinct Sample.loaded.watch ∧ ChannelsDistinct Sample.loaded.relay ∧
    ((∀ w ∈ Sample.loaded.watch,
      ∃ x ∈ (Remote.zero.TakeWorkload Sample.upOk Sample.loaded).1.watch,
        ToKind x.Subject = ToKind w.Subject ∧ x.started = false ∧
        ((∀ rl ∈ Sample.loaded.relay, ∀ y ∈ rl.Watch,
            ToKind y.Subject ≠ ToKind w.Subject) →
          x.Predicates = w.Predicates)) ∧
    (Remote.zero.TakeWorkload Sample.upOk Sample.loaded).1.relay = Sample.loaded.relay ∧
    (∀ x ∈ (Remote.zero.TakeWorkload Sample.upOk Sample.loaded).1.watch,
      x.started = false) ∧
    (Remote.zero.TakeWorkload Sample.upOk Sample.loaded).2.watch = [] ∧
    (Remote.zero.TakeWorkload Sample.upOk Sample.loaded).2.relay = []) :=
  ⟨rfl, rfl, rfl, by unfold KindsDistinct; decide, by unfold ChannelsDistinct; decide,
   TakeWorkload_moves Sample.upOk Remote.zero Sample.loaded rfl rfl rfl
    (by unfold KindsDistinct; decide) (by unfold ChannelsDistinct; decide)⟩

/-- C5 at the empty container and `Sample.defA`. -/
theorem EnsureRelayDefinition_reconciles_witness :
    Container.empty.RelaysDistinct ∧
    Container.empty.EnsureRelayDefinition Sample.upOk Sample.defA =
      some (Sample.afterA, none) ∧
    ((∀ kr ∈ Sample.afterA.remote,
      (∀ wDef ∈ Sample.defA.Watch, Container.key wDef.RemoteOwner ≠ kr.1) →
      ∀ rl ∈ kr.2.relay, rl.Channel ≠ Sample.defA.Channel) ∧
    (∀ wDef ∈ Sample.defA.Watch, ∃ r rl,
      Sample.afterA.lookup (Container.key wDef.RemoteOwner) = some r ∧
      r.relay.filter (fun x => decide (x.Channel = Sample.defA.Channel)) = [rl] ∧
      ((∀ r0, Container.empty.lookup (Container.key wDef.RemoteOwner) = some r0 →
          ∀ x ∈ r0.relay, x.Channel = Sample.defA.Channel → x.Target = Sample.defA.Target) →
        rl.Target = Sample.defA.Target)) ∧
    ((Container.empty.EnsureRelayDefinition Sample.upOk
        { Channel := Sample.chan, Target := some Sample.target1,
          Watch := [{ RemoteOwner := Sample.ownerA, Watch := [Sample.watchPod []] }] }).bind
      (fun x => x.1.EnsureRelayDefinition Sample.upOk
        { Channel := Sample.chan, Target := some Sample.target1,
          Watch := [{ RemoteOwner := Sample.ownerB, Watch := [Sample.watchPod []] }] })).map
      (fun x => (x.2,
        (x.1.lookup (Container.key Sample.ownerA)).map
          (fun r => r.relay.map (fun rl => rl.Channel)),
        (x.1.lookup (Container.key Sample.ownerB)).map
          (fun r => r.relay.map (fun rl => rl.Channel)))) =
      some (none, some [], some [Sample.chan])) :=
  ⟨(fun kr hkr => by cases hkr), (by decide),
   EnsureRelayDefinition_reconciles Sample.upOk Container.empty Sample.afterA Sample.defA
    (fun kr hkr => by cases hkr) (by decide)⟩

/-- C6 at the empty container and `Sample.defA`. -/
theorem EnsureRelayDefinition_idempotent_witness :
    Container.empty.RelaysDistinct ∧
    Container.empty.EnsureRelayDefinition Sample.upOk Sample.defA =
      some (Sample.afterA, none) ∧
    Sample.afterA.EnsureRelayDefinition Sample.upNoPod Sample.defA =
      some (Sample.afterA, none) :=
  ⟨(fun kr hkr => by cases hkr), (by decide),
   EnsureRelayDefinition_idempotent Sample.upOk Sample.upNoPod Container.empty Sample.afterA
    Sample.defA (fun kr hkr => by cases hkr) (by decide)⟩

/-- C7 at `Sample.defA` with the extra pair `(B, Pod)` placed last. -/
theorem EnsureRelayDefinition_extra_witness :
    Sample.defA.Watch = [Sample.wDefA] ++ [] ∧
    (∀ wDef ∈ Sample.defA.Watch,
      Container.key wDef.RemoteOwner ≠ Container.key Sample.wDefB.RemoteOwner) ∧
    ∃ c1 cx c2,
      Container.empty.EnsureRelayDefinition Sample.upOk Sample.defA = some (c1, none) ∧
      Container.empty.EnsureRelayDefinition Sample.upOk
        { Sample.defA with Watch := [Sample.wDefA] ++ Sample.wDefB :: [] } =
        some (cx, none) ∧
      cx.EnsureRelayDefinition Sample.upOk Sample.defA = some (c2, none) ∧
      (∀ k, k ≠ Container.key Sample.wDefB.RemoteOwner → c2.lookup k = c1.lookup k) ∧
      c1.lookup (Container.key Sample.wDefB.RemoteOwner) = none ∧
      c2.lookup (Container.key Sample.wDefB.RemoteOwner) =
        some { (Remote.zero.EnsureRelay Sample.upOk
            (Sample.defA.relayFor Sample.wDefB)).1 with relay := [] } :=
  ⟨rfl, by decide,
   EnsureRelayDefinition_extra Sample.upOk Sample.defA [Sample.wDefA] [] Sample.wDefB rfl
    (by decide)⟩

/-! ## Frames of `EnsureRelay`, `TakeWorkload` and `Start` -/

theorem EnsureRelay_frame (up : Upstream) (r : Remote) (relay : Relay) :
    ∃ rls ws, (r.EnsureRelay up relay).1 = { r with relay := rls, watch := ws } := by
  cases hf : r.findRelay relay with
  | none =>
    rw [EnsureRelay_absent up r relay hf]
    obtain ⟨l2, hl2⟩ := ensureWatches_frame up relay.Watch
      { r with relay := r.relay ++ [relay] }
    exact ⟨_, l2, hl2⟩
  | some ix =>
    rw [EnsureRelay_found up r relay ix.1 ix.2 hf]
    obtain ⟨l2, hl2⟩ := ensureWatches_frame up (ix.2.merge relay).Watch
      { r with relay := updateAt (fun x => x.merge relay) ix.1 r.relay }
    exact ⟨_, l2, hl2⟩

theorem takeRelays_frame (up : Upstream) (rls : List Relay) :
    ∀ r : Remote, ∃ l ws, Remote.takeRelays up r rls = { r with relay := l, watch := ws } := by
  induction rls with
  | nil => intro r; exact ⟨r.relay, r.watch, rfl⟩
  | cons a t ih =>
    intro r
    unfold Remote.takeRelays
    obtain ⟨l, ws, h⟩ := EnsureRelay_frame up r a.reset
    rw [h]
    obtain ⟨l2, ws2, h2⟩ := ih { r with relay := l, watch := ws }
    exact ⟨l2, ws2, h2⟩

theorem TakeWorkload_frame (up : Upstream) (r other : Remote) :
    ∃ l ws, (r.TakeWorkload up other).1 = { r with relay := l, watch := ws } := by
  unfold Remote.TakeWorkload
  obtain ⟨ws, h⟩ := takeWatches_frame up other.watch r
  simp only [h]
  obtain ⟨l2, ws2, h2⟩ := takeRelays_frame up other.relay { r with watch := ws }
  exact ⟨l2, ws2, h2⟩

theorem Start_not_configured (up : Upstream) (r : Remote) (hs : r.started = false)
    (hc : r.RestCfg = none) :
    r.Start up = (r, some (Error.lib (Error.other "not configured") "Remote.Start")) := by
  simp [Remote.Start, hs, hc]

/-! ## The loops of the forward filter -/

theorem create_eq_all (env : PredicateEnv) (e : CreateEvent) (ps : List Predicate) :
    Watch.create env e ps = ps.all (fun p => (env p).Create e) := by
  induction ps with
  | nil => rfl
  | cons p t ih => cases h : (env p).Create e <;> simp [Watch.create, h, ih]

theorem update_eq_all (env : PredicateEnv) (e : UpdateEvent) (ps : List Predicate) :
    Watch.update env e ps = ps.all (fun p => (env p).Update e) := by
  induction ps with
  | nil => rfl
  | cons p t ih => cases h : (env p).Update e <;> simp [Watch.update, h, ih]

theorem delete_eq_all (env : PredicateEnv) (e : DeleteEvent) (ps : List Predicate) :
    Watch.delete env e ps = ps.all (fun p => (env p).Delete e) := by
  induction ps with
  | nil => rfl
  | cons p t ih => cases h : (env p).Delete e <;> simp [Watch.delete, h, ih]

theorem generic_eq_all (env : PredicateEnv) (e : GenericEvent) (ps : List Predicate) :
    Watch.generic env e ps = ps.all (fun p => (env p).Generic e) := by
  induction ps with
  | nil => rfl
  | cons p t ih => cases h : (env p).Generic e <;> simp [Watch.generic, h, ih]

theorem watchLoop_eq (object : Resource) (approve : Watch → Bool) (holds : Predicate → Bool)
    (happ : ∀ w, approve w = w.Predicates.all holds) (relay : Relay) (ws : List Watch) :
    Forward.watchLoop { Subject := object, Predicates := [], started := false } approve
        relay ws =
      (ws.filter (fun w =>
          decide (ToKind w.Subject = ToKind object) && w.Predicates.all holds)).map
        (fun _ => { Channel := relay.Channel,
                    Event := { Meta := relay.Target, Object := relay.Target } }) := by
  induction ws with
  | nil => rfl
  | cons w t ih =>
    rw [Forward.watchLoop, ih, happ w]
    by_cases hk : ToKind w.Subject = ToKind object
    · cases hp : w.Predicates.all holds
      · simp [Watch.Match, hk, hp, List.filter]
      · simp [Watch.Match, hk, hp, List.filter, Relay.event]
    · have hk2 : ¬ ToKind object = ToKind w.Subject := fun e => hk e.symm
      simp [Watch.Match, hk, hk2, List.filter]

theorem relayLoop_eq (object : Resource) (approve : Watch → Bool) (holds : Predicate → Bool)
    (happ : ∀ w, approve w = w.Predicates.all holds) (relays : List Relay) :
    Forward.relayLoop { Subject := object, Predicates := [], started := false } approve
        relays = Forward.expected holds object relays := by
  induction relays with
  | nil => rfl
  | cons relay t ih =>
    rw [Forward.relayLoop, ih, watchLoop_eq object approve holds happ]
    simp [Forward.expected]

theorem expected_from_relay (holds : Predicate → Bool) (object : Resource)
    (relays : List Relay) :
    ∀ s ∈ Forward.expected holds object relays,
      ∃ relay ∈ relays, s.Channel = relay.Channel ∧ s.Event.Meta = relay.Target ∧
        s.Event.Object = relay.Target := by
  intro s hs
  simp only [Forward.expected, List.mem_flatMap, List.mem_map] at hs
  obtain ⟨relay, hr, _, _, rfl⟩ := hs
  exact ⟨relay, hr, rfl, rfl, rfl⟩

/-! ## The forward filter on closed and nil channels -/

theorem set_same (chs : Channels) (c : Channel) : chs.set c (chs c) = chs := by
  funext x
  by_cases h : x = c
  · simp [Channels.set, h]
  · simp [Channels.set, h]

theorem watchRun_closed (subject : Watch) (approve : Watch → Bool) (relay : Relay)
    (chs : Channels) (queue : List GenericEvent)
    (hc : chs relay.Channel = ChanState.isClosed queue) (ws : List Watch) :
    (Forward.watchRun subject approve relay chs ws).ending = CallEnd.returns ∧
    (Forward.watchRun subject approve relay chs ws).channels = chs ∧
    (Forward.watchRun subject approve relay chs ws).sent =
      Forward.watchLoop subject approve relay ws := by
  induction ws with
  | nil => exact ⟨rfl, rfl, rfl⟩
  | cons w t ih =>
    obtain ⟨i1, i2, i3⟩ := ih
    have hsend : relay.send (chs relay.Channel) = (chs relay.Channel, CallEnd.returns) := by
      rw [hc]; rfl
    unfold Forward.watchRun Forward.watchLoop
    split
    · exact ⟨i1, i2, i3⟩
    · simp only [hsend, set_same]
      exact ⟨i1, i2, by rw [i3]⟩

theorem relayRun_closed (subject : Watch) (approve : Watch → Bool) (chs : Channels)
    (relays : List Relay)
    (hall : ∀ rl ∈ relays, ∃ queue, chs rl.Channel = ChanState.isClosed queue) :
    (Forward.relayRun subject approve chs relays).ending = CallEnd.returns ∧
    (Forward.relayRun subject approve chs relays).channels = chs ∧
    (Forward.relayRun subject approve chs relays).sent =
      Forward.relayLoop subject approve relays := by
  induction relays with
  | nil => exact ⟨rfl, rfl, rfl⟩
  | cons rl t ih =>
    obtain ⟨queue, hq⟩ := hall rl (List.mem_cons_self _ _)
    obtain ⟨i1, i2, i3⟩ := ih (fun x hx => hall x (List.mem_cons_of_mem _ hx))
    obtain ⟨h1, h2, h3⟩ := watchRun_closed subject approve rl chs queue hq rl.Watch
    simp only [Forward.relayRun, Forward.relayLoop, h1, h2, h3]
    exact ⟨i1, i2, by rw [i3]⟩

theorem watchRun_nil (subject : Watch) (approve : Watch → Bool) (relay : Relay)
    (chs : Channels) (hc : chs relay.Channel = ChanState.isNil) (ws : List Watch)
    (hw : ∃ w ∈ ws, subject.Match w.Subject = true ∧ approve w = true) :
    (Forward.watchRun subject approve relay chs ws).ending = CallEnd.parked ∧
    (Forward.watchRun subject approve relay chs ws).sent = [] := by
  induction ws with
  | nil => obtain ⟨w, hw, _⟩ := hw; cases hw
  | cons a t ih =>
    have hsend : relay.send (chs relay.Channel) = (chs relay.Channel, CallEnd.parked) := by
      rw [hc]; rfl
    unfold Forward.watchRun
    split
    · next hskip =>
      apply ih
      obtain ⟨w, hwm, h1, h2⟩ := hw
      rcases List.mem_cons.mp hwm with rfl | hwt
      · simp [h1, h2] at hskip
      · exact ⟨w, hwt, h1, h2⟩
    · simp only [hsend]
      exact ⟨trivial, trivial⟩

/-- When the inner loop runs through, the calls of `send` that have returned are the calls
`Forward.watchLoop` lists. -/
theorem watchRun_sent (subject : Watch) (approve : Watch → Bool) (relay : Relay)
    (ws : List Watch) :
    ∀ chs : Channels,
      (Forward.watchRun subject approve relay chs ws).ending = CallEnd.returns →
      (Forward.watchRun subject approve relay chs ws).sent =
        Forward.watchLoop subject approve relay ws := by
  induction ws with
  | nil => intro chs _; rfl
  | cons w t ih =>
    intro chs h
    unfold Forward.watchRun at h ⊢
    unfold Forward.watchLoop
    split
    · next hskip =>
      simp only [hskip, if_true] at h
      exact ih chs h
    · next hskip =>
      simp only [hskip] at h
      rcases hs : relay.send (chs relay.Channel) with ⟨ch1, _ | _ | _⟩
      · rw [hs] at h
        simp only at h ⊢
        rw [ih _ h]
      · rw [hs] at h
        cases h
      · rw [hs] at h
        cases h

/-- When the loops of the forward filter run through, the calls of `send` that have
returned are the calls `Forward.relayLoop` lists. -/
theorem relayRun_sent (subject : Watch) (approve : Watch → Bool) (relays : List Relay) :
    ∀ chs : Channels,
      (Forward.relayRun subject approve chs relays).ending = CallEnd.returns →
      (Forward.relayRun subject approve chs relays).sent =
        Forward.relayLoop subject approve relays := by
  induction relays with
  | nil => intro chs _; rfl
  | cons rl t ih =>
    intro chs h
    unfold Forward.relayRun at h ⊢
    unfold Forward.relayLoop
    rcases he : (Forward.watchRun subject approve rl chs rl.Watch).ending with _ | _ | _
    · simp only [he] at h ⊢
      rw [ih _ h, watchRun_sent subject approve rl rl.Watch chs he]
    · simp only [he] at h
      cases h
    · simp only [he] at h
      cases h

/-! ## C11, C12, C18: `Container.Ensure` -/

/-- C11. `Container.Ensure(owner, new)` when the key of `owner` maps to a remote whose REST
configuration equals that of `new`: the existing remote is returned with a nil error, the
container is unchanged, the existing remote is unchanged (watches, relays, started flag
and the rest), and `new` is unchanged: not started, no workload given. -/
theorem Ensure_equal_is_lookup (up : Upstream) (c : Container) (owner : Resource)
    (new remote : Remote)
    (hl : c.lookup (Container.key owner) = some remote)
    (he : remote.RestCfg = new.RestCfg) :
    c.Ensure up owner new =
      { container := c, new := new, found := some remote, returnsNew := false,
        err := none } := by
  simp [Container.Ensure, hl, Remote.Equals, he]

/-- C12 (code as written). The key of `A` maps to the started remote `A` with installed
watches on `Pod` and `Service` and one relay; `Ensure(owner, A2)` with the literal
`A2` of another REST configuration and an upstream on which every call succeeds returns
`A2` with a nil error, maps the key to `A2`, leaves `A` without watches and relays, and
`A2` holds the relay and both watches, and both watches are not started: `TakeWorkload`
runs while `A2` is not started and `Start` does not install them. -/
theorem Ensure_replacement_leaves_watches_uninstalled :
    Container.Ensure Sample.upOk { remote := [(Container.key Sample.ownerA, Sample.remoteA)] }
        Sample.ownerA Sample.remoteA2 =
      { container := { remote := [(Container.key Sample.ownerA,
          { Name := "a2", RestCfg := some Sample.cfg2, relay := [Sample.relayPod],
            watch := [{ Subject := Sample.pod, Predicates := [], started := false },
                      { Subject := Sample.svc, Predicates := [], started := false }],
            started := true, done := DoneChan.isNil })] },
        new :=
          { Name := "a2", RestCfg := some Sample.cfg2, relay := [Sample.relayPod],
            watch := [{ Subject := Sample.pod, Predicates := [], started := false },
                      { Subject := Sample.svc, Predicates := [], started := false }],
            started := true, done := DoneChan.isNil },
        found := some { Sample.remoteA with watch := [], relay := [] },
        returnsNew := true,
        err := none } := by
  decide

/-- C18 (claim as stated fails). `Container.EnsureWatch` on the empty container creates
`&Remote{}` under the key of `A`; `Ensure(A, &Remote{})`, whose `new` has no REST
configuration either, then finds the two equal and returns the existing remote with a
nil error. -/
theorem Ensure_unconfigured_equal_returns_nil :
    (Container.Ensure Sample.upOk
        (Container.EnsureWatch Sample.upOk Container.empty Sample.ownerA
          (Sample.watchPod [])).1
        Sample.ownerA Remote.zero).err = none ∧
    (Container.Ensure Sample.upOk
        (Container.EnsureWatch Sample.upOk Container.empty Sample.ownerA
          (Sample.watchPod [])).1
        Sample.ownerA Remote.zero).returnsNew = false := by
  decide

/-- C18 (amended). `Container.Ensure(owner, new)` with a `new` that is not started and has
no REST configuration: when the key of `owner` maps to no remote, or to a remote that has
a REST configuration, the call returns `new` with the non-nil error `not configured` and
does not assign `new` to the key (the map is unchanged, or still holds the remote found,
emptied by `TakeWorkload`); when the key maps to a remote without REST configuration,
the two are equal and the call returns that remote with a nil error, the map
unchanged. -/
theorem Ensure_not_configured (up : Upstream) (c : Container) (owner : Resource)
    (new : Remote) (hc : new.RestCfg = none) (hs : new.started = false) :
    (c.lookup (Container.key owner) = none →
      (c.Ensure up owner new).err.map Error.Error = some "not configured" ∧
      (c.Ensure up owner new).returnsNew = true ∧
      (c.Ensure up owner new).container = c) ∧
    (∀ remote, c.lookup (Container.key owner) = some remote → remote.RestCfg ≠ none →
      (c.Ensure up owner new).err.map Error.Error = some "not configured" ∧
      (c.Ensure up owner new).returnsNew = true ∧
      (c.Ensure up owner new).container =
        c.store (Container.key owner) (new.TakeWorkload up remote).2.Shutdown ∧
      (new.TakeWorkload up remote).2.Shutdown.watch = [] ∧
      (new.TakeWorkload up remote).2.Shutdown.relay = []) ∧
    (∀ remote, c.lookup (Container.key owner) = some remote → remote.RestCfg = none →
      c.Ensure up owner new =
        { container := c, new := new, found := some remote, returnsNew := false,
          err := none }) := by
  refine ⟨?_, ?_, ?_⟩
  · intro hl
    simp [Container.Ensure, hl, Start_not_configured up new hs hc, Wrap, Error.Error]
  · intro remote hl hne
    obtain ⟨l, ws, hT⟩ := TakeWorkload_frame up new remote
    have hst : (new.TakeWorkload up remote).1.Start up =
        ((new.TakeWorkload up remote).1,
          some (Error.lib (Error.other "not configured") "Remote.Start")) :=
      Start_not_configured up _ (by rw [hT]; exact hs) (by rw [hT]; exact hc)
    have hneq : remote.Equals new = false := by
      cases hr : remote.RestCfg with
      | none => exact absurd hr hne
      | some cfg => simp [Remote.Equals, hr, hc]
    have hempty : (new.TakeWorkload up remote).2.Shutdown.watch = [] ∧
        (new.TakeWorkload up remote).2.Shutdown.relay = [] := by
      simp only [Remote.TakeWorkload, Remote.Reset, Remote.Shutdown]
      cases remote.done <;> exact ⟨rfl, rfl⟩
    simp only [Container.Ensure, hl, hneq, hst]
    exact ⟨by simp [Wrap, Error.Error], rfl, rfl, hempty⟩
  · intro remote hl he
    simp [Container.Ensure, hl, Remote.Equals, he, hc]

/-! ## C13, C14: the forward filter -/

/-- C13. For every predicate environment, remote and upstream event that carries its
object, each of `Forward.Create`, `Forward.Update`, `Forward.Delete` and
`Forward.Generic` makes exactly the sends the specification lists: relay by relay and
watch by watch in order, one event `{Meta: relay.Target, Object: relay.Target}` on
`relay.Channel` for every watch of the kind of the object whose predicates all return
true, so a relay with `k` such watches is sent `k` events and a relay with none is sent
none; every event sent carries the target of its relay, not the upstream object. -/
theorem Forward_fanout (env : PredicateEnv) (remote : Remote) :
    (∀ (e : CreateEvent) (object : Resource), e.Object = some object →
      Forward.Create env remote e =
        some (false, Forward.expected (fun p => (env p).Create e) object remote.relay)) ∧
    (∀ (e : UpdateEvent) (object : Resource), e.ObjectNew = some object →
      Forward.Update env remote e =
        some (false, Forward.expected (fun p => (env p).Update e) object remote.relay)) ∧
    (∀ (e : DeleteEvent) (object : Resource), e.Object = some object →
      Forward.Delete env remote e =
        some (false, Forward.expected (fun p => (env p).Delete e) object remote.relay)) ∧
    (∀ (e : GenericEvent) (object : Resource), e.Object = some object →
      Forward.Generic env remote e =
        some (false, Forward.expected (fun p => (env p).Generic e) object remote.relay)) ∧
    (∀ (holds : Predicate → Bool) (object : Resource) (relay : Relay),
      (Forward.expected holds object [relay]).length =
        (relay.Watch.filter (fun w =>
          decide (ToKind w.Subject = ToKind object) && w.Predicates.all holds)).length) ∧
    (∀ (holds : Predicate → Bool) (object : Resource),
      ∀ s ∈ Forward.expected holds object remote.relay,
        ∃ relay ∈ remote.relay, s.Channel = relay.Channel ∧ s.Event.Meta = relay.Target ∧
          s.Event.Object = relay.Target) := by
  refine ⟨?_, ?_, ?_, ?_, ?_, ?_⟩
  · intro e object he
    simp only [Forward.Create, he]
    rw [relayLoop_eq object _ (fun p => (env p).Create e)
      (fun w => create_eq_all env e w.Predicates)]
  · intro e object he
    simp only [Forward.Update, he]
    rw [relayLoop_eq object _ (fun p => (env p).Update e)
      (fun w => update_eq_all env e w.Predicates)]
  · intro e object he
    simp only [Forward.Delete, he]
    rw [relayLoop_eq object _ (fun p => (env p).Delete e)
      (fun w => delete_eq_all env e w.Predicates)]
  · intro e object he
    simp only [Forward.Generic, he]
    rw [relayLoop_eq object _ (fun p => (env p).Generic e)
      (fun w => generic_eq_all env e w.Predicates)]
  · intro holds object relay
    simp [Forward.expected]
  · intro holds object
    exact expected_from_relay holds object remote.relay

/-- C14. For every predicate environment, remote and event that carries its object,
`Forward.Create`, `Forward.Update`, `Forward.Delete` and `Forward.Generic` return
false, whatever was sent.  `Watch.start` installs the forward filter last: the chain is
the predicates of the watch in their order followed by the forward filter, and on a watch
that is not started in a started remote `Watch.start` hands exactly that chain to
`controller.Watch`, whose answer alone decides the outcome (nil: the watch is marked
started; an error: the watch is unchanged and the wrapped error is returned).  On a started
watch or a remote that is not started `Watch.start` installs nothing. -/
theorem Forward_returns_false (env : PredicateEnv) (remote : Remote) :
    (∀ (e : CreateEvent) (object : Resource), e.Object = some object →
      (Forward.Create env remote e).map Prod.fst = some false) ∧
    (∀ (e : UpdateEvent) (object : Resource), e.ObjectNew = some object →
      (Forward.Update env remote e).map Prod.fst = some false) ∧
    (∀ (e : DeleteEvent) (object : Resource), e.Object = some object →
      (Forward.Delete env remote e).map Prod.fst = some false) ∧
    (∀ (e : GenericEvent) (object : Resource), e.Object = some object →
      (Forward.Generic env remote e).map Prod.fst = some false) ∧
    (∀ w : Watch, w.chain.getLast? = some Filter.forward ∧
      w.chain.dropLast = w.Predicates.map Filter.pred) ∧
    (∀ (up up2 : Upstream) (w : Watch) (r : Remote),
      up.controllerWatch w.Subject w.chain = up2.controllerWatch w.Subject w.chain →
      w.start up r = w.start up2 r) ∧
    (∀ (up : Upstream) (w : Watch) (r : Remote),
      w.started = false → r.started = true →
      up.controllerWatch w.Subject (w.Predicates.map Filter.pred ++ [Filter.forward]) =
        none →
      w.start up r = ({ w with started := true }, none)) ∧
    (∀ (up : Upstream) (w : Watch) (r : Remote) (err : Error),
      w.started = false → r.started = true →
      up.controllerWatch w.Subject (w.Predicates.map Filter.pred ++ [Filter.forward]) =
        some err →
      w.start up r = (w, Wrap "Watch.start" (some err))) ∧
    (∀ (up : Upstream) (w : Watch) (r : Remote),
      (w.started = true ∨ r.started = false) → w.start up r = (w, none)) ∧
    (Sample.watchPod [Sample.p1]).start Sample.upOk Sample.running =
      ({ Subject := Sample.pod, Predicates := [Sample.p1], started := true }, none) ∧
    (Sample.watchPod [Sample.p1]).start Sample.upNoPod Sample.running =
      (Sample.watchPod [Sample.p1],
        some (Error.lib (Error.other "no kind Pod") "Watch.start")) := by
  refine ⟨?_, ?_, ?_, ?_, ?_, ?_, ?_, ?_, ?_, by decide, by decide⟩
  · intro e object he
    simp [Forward.Create, he]
  · intro e object he
    simp [Forward.Update, he]
  · intro e object he
    simp [Forward.Delete, he]
  · intro e object he
    simp [Forward.Generic, he]
  · intro w
    simp [Watch.chain]
  · intro up up2 w r h
    simp [Watch.start, h]
  · intro up w r hw hr h
    simp [Watch.start, Watch.chain, hw, hr, h]
  · intro up w r err hw hr h
    simp [Watch.start, Watch.chain, hw, hr, h]
  · intro up w r h
    rcases h with h | h <;> simp [Watch.start, h]

/-! ## C15, C16: `Relay.send` -/

/-- C15 (claim as stated fails). A nil channel is unusable, and `Relay.send` on it does
not return: the goroutine is parked in the send statement for ever.  With the relay on the
nil channel first in the remote, the forward filter is parked in that send, no call of
`send` has returned, and the second relay, whose channel is open and has room, gets
nothing. -/
theorem send_on_nil_channel_parks :
    Sample.relayPod.send ChanState.isNil = (ChanState.isNil, CallEnd.parked) ∧
    (Forward.CreateOn Sample.env Sample.twoRelays Sample.chansNil Sample.podCreated).map
      (fun e => (e.ending, e.sent, e.channels Sample.relayPod2.Channel)) =
      some (CallEnd.parked, [], ChanState.isOpen 1 []) := by
  decide

/-- C15 (amended). `Relay.send` on a closed channel returns normally and leaves the channel
as it is: the panic of the send statement is stopped by the deferred `recover()`; in no
state of the channel does a panic leave `send`.  So the forward filter continues with the
remaining relays: for a relay whose channel is closed every `send` the loops make
returns, the channels are as before, and the loops go on with the remaining relays as they
would without that relay.  On a nil channel `send` does not return, and the loops stop
at a relay on a nil channel as soon as one of its watches matches and approves. -/
theorem send_closed_returns (r : Relay) :
    (∀ queue, r.send (ChanState.isClosed queue) =
      (ChanState.isClosed queue, CallEnd.returns)) ∧
    (∀ ch, (r.send ch).2 ≠ CallEnd.panics) ∧
    (∀ (subject : Watch) (approve : Watch → Bool) (chs : Channels) (rest : List Relay)
        (queue : List GenericEvent),
      chs r.Channel = ChanState.isClosed queue →
      (Forward.relayRun subject approve chs (r :: rest)).ending =
        (Forward.relayRun subject approve chs rest).ending ∧
      (Forward.relayRun subject approve chs (r :: rest)).channels =
        (Forward.relayRun subject approve chs rest).channels ∧
      (Forward.relayRun subject approve chs (r :: rest)).sent =
        Forward.watchLoop subject approve r r.Watch ++
          (Forward.relayRun subject approve chs rest).sent) ∧
    (∀ (subject : Watch) (approve : Watch → Bool) (chs : Channels) (relays : List Relay),
      (∀ rl ∈ relays, ∃ queue, chs rl.Channel = ChanState.isClosed queue) →
      (Forward.relayRun subject approve chs relays).ending = CallEnd.returns ∧
      (Forward.relayRun subject approve chs relays).channels = chs ∧
      (Forward.relayRun subject approve chs relays).sent =
        Forward.relayLoop subject approve relays) ∧
    (r.send ChanState.isNil = (ChanState.isNil, CallEnd.parked)) ∧
    (∀ (subject : Watch) (approve : Watch → Bool) (chs : Channels) (rest : List Relay),
      chs r.Channel = ChanState.isNil →
      (∃ w ∈ r.Watch, subject.Match w.Subject = true ∧ approve w = true) →
      (Forward.relayRun subject approve chs (r :: rest)).ending = CallEnd.parked ∧
      (Forward.relayRun subject approve chs (r :: rest)).sent = []) ∧
    (Forward.CreateOn Sample.env Sample.twoRelays Sample.chansClosed Sample.podCreated).map
      (fun e => (e.ending, e.sent, e.channels Sample.relayPod.Channel,
        e.channels Sample.relayPod2.Channel)) =
      some (CallEnd.returns,
        [{ Channel := Sample.chan, Event := Sample.relayPod.event },
         { Channel := { id := 2 }, Event := Sample.relayPod2.event }],
        ChanState.isClosed [], ChanState.isOpen 1 [Sample.relayPod2.event]) := by
  refine ⟨fun _ => rfl, ?_, ?_, ?_, rfl, ?_, by decide⟩
  · intro ch
    unfold Relay.send
    cases h : ch.send r.event <;> simp
  · intro subject approve chs rest queue hc
    obtain ⟨h1, h2, h3⟩ := watchRun_closed subject approve r chs queue hc r.Watch
    simp only [Forward.relayRun, h1, h2, h3]
    exact ⟨trivial, trivial, trivial⟩
  · intro subject approve chs relays hall
    exact relayRun_closed subject approve chs relays hall
  · intro subject approve chs rest hc hw
    obtain ⟨h1, h2⟩ := watchRun_nil subject approve r chs hc r.Watch hw
    simp only [Forward.relayRun, h1, h2]
    exact ⟨trivial, trivial⟩

/-- C16 (claim as stated fails). On an open channel with one buffer place that is taken,
`Relay.send` does not return: the call is parked in the send statement. -/
theorem send_full_parks :
    (Sample.relayPod.send (ChanState.isOpen 1 [Sample.relayPod.event])).2 ≠
      CallEnd.returns := by
  decide

/-- C16 (amended). `Relay.send` is a plain, blocking send.  On an open channel that is
full (or unbuffered) with no receiver waiting the call is parked and the contents of the
channel are unchanged; the event is not dropped: when the buffer has room, and so after
a receiver has taken an element from a full buffer, `send` returns with exactly the event
`{Meta: target, Object: target}` added at the end of the contents of the channel. -/
theorem send_blocks_when_full (r : Relay) (capacity : Nat) (queue : List GenericEvent) :
    (capacity ≤ queue.length →
      r.send (ChanState.isOpen capacity queue) =
        (ChanState.isOpen capacity queue, CallEnd.parked)) ∧
    (queue.length < capacity →
      r.send (ChanState.isOpen capacity queue) =
        (ChanState.isOpen capacity (queue ++ [r.event]), CallEnd.returns)) ∧
    (∀ v rest, queue = v :: rest → queue.length = capacity →
      ∃ ch, (ChanState.isOpen capacity queue).receive = some (v, ch) ∧
        r.send ch = (ChanState.isOpen capacity (rest ++ [r.event]), CallEnd.returns)) := by
  refine ⟨?_, ?_, ?_⟩
  · intro h
    simp [Relay.send, ChanState.send, Nat.not_lt.mpr h]
  · intro h
    simp [Relay.send, ChanState.send, h]
  · intro v rest hq hlen
    subst hq
    refine ⟨ChanState.isOpen capacity rest, rfl, ?_⟩
    have : rest.length < capacity := by
      simp at hlen
      omega
    simp [Relay.send, ChanState.send, this]

/-! ## C17: `Remote.Shutdown` -/

/-- C17. For every remote, whatever the state of its `done` channel: `Shutdown` ends
without a panic leaving it and with the mutex released, the remote it leaves is the one
`Remote.Shutdown` computes, and a second `Shutdown` changes nothing more. -/
theorem Shutdown_idempotent (r : Remote) :
    r.ShutdownRun.panics = false ∧ r.ShutdownRun.locked = false ∧
    r.ShutdownRun.remote = r.Shutdown ∧
    r.Shutdown.Shutdown = r.Shutdown ∧
    r.ShutdownRun.remote.ShutdownRun = r.ShutdownRun := by
  cases hd : r.done <;>
    simp [Remote.ShutdownRun, Remote.Shutdown, DoneChan.close, hd]

/-! ## Instances at sample values, continued -/

/-- C11 at the container holding `Sample.remoteA` and a literal with the same REST
configuration. -/
theorem Ensure_equal_is_lookup_witness :
    Container.lookup { remote := [(Container.key Sample.ownerA, Sample.remoteA)] }
        (Container.key Sample.ownerA) = some Sample.remoteA ∧
    Sample.remoteA.RestCfg = ({ Remote.zero with RestCfg := some Sample.cfg } : Remote).RestCfg ∧
    Container.Ensure Sample.upOk
        { remote := [(Container.key Sample.ownerA, Sample.remoteA)] } Sample.ownerA
        { Remote.zero with RestCfg := some Sample.cfg } =
      { container := { remote := [(Container.key Sample.ownerA, Sample.remoteA)] },
        new := { Remote.zero with RestCfg := some Sample.cfg },
        found := some Sample.remoteA, returnsNew := false, err := none } :=
  ⟨by decide, rfl,
   Ensure_equal_is_lookup Sample.upOk
    { remote := [(Container.key Sample.ownerA, Sample.remoteA)] } Sample.ownerA
    { Remote.zero with RestCfg := some Sample.cfg } Sample.remoteA (by decide) rfl⟩

/-- C18 at the container holding `Sample.remoteA` and the literal `&Remote{}`. -/
theorem Ensure_not_configured_witness :
    Remote.zero.RestCfg = none ∧ Remote.zero.started = false ∧
    ((Container.lookup { remote := [(Container.key Sample.ownerA, Sample.remoteA)] }
        (Container.key Sample.ownerA) = none →
      (Container.Ensure Sample.upOk
          { remote := [(Container.key Sample.ownerA, Sample.remoteA)] } Sample.ownerA
          Remote.zero).err.map Error.Error = some "not configured" ∧
      (Container.Ensure Sample.upOk
          { remote := [(Container.key Sample.ownerA, Sample.remoteA)] } Sample.ownerA
          Remote.zero).returnsNew = true ∧
      (Container.Ensure Sample.upOk
          { remote := [(Container.key Sample.ownerA, Sample.remoteA)] } Sample.ownerA
          Remote.zero).container =
        { remote := [(Container.key Sample.ownerA, Sample.remoteA)] }) ∧
    (∀ remote,
      Container.lookup { remote := [(Container.key Sample.ownerA, Sample.remoteA)] }
        (Container.key Sample.ownerA) = some remote → remote.RestCfg ≠ none →
      (Container.Ensure Sample.upOk
          { remote := [(Container.key Sample.ownerA, Sample.remoteA)] } Sample.ownerA
          Remote.zero).err.map Error.Error = some "not configured" ∧
      (Container.Ensure Sample.upOk
          { remote := [(Container.key Sample.ownerA, Sample.remoteA)] } Sample.ownerA
          Remote.zero).returnsNew = true ∧
      (Container.Ensure Sample.upOk
          { remote := [(Container.key Sample.ownerA, Sample.remoteA)] } Sample.ownerA
          Remote.zero).container =
        Container.store { remote := [(Container.key Sample.ownerA, Sample.remoteA)] }
          (Container.key Sample.ownerA)
          (Remote.zero.TakeWorkload Sample.upOk remote).2.Shutdown ∧
      (Remote.zero.TakeWorkload Sample.upOk remote).2.Shutdown.watch = [] ∧
      (Remote.zero.TakeWorkload Sample.upOk remote).2.Shutdown.relay = []) ∧
    (∀ remote,
      Container.lookup { remote := [(Container.key Sample.ownerA, Sample.remoteA)] }
        (Container.key Sample.ownerA) = some remote → remote.RestCfg = none →
      Container.Ensure Sample.upOk
          { remote := [(Container.key Sample.ownerA, Sample.remoteA)] } Sample.ownerA
          Remote.zero =
        { container := { remote := [(Container.key Sample.ownerA, Sample.remoteA)] },
          new := Remote.zero, found := some remote, returnsNew := false, err := none })) :=
  ⟨rfl, rfl,
   Ensure_not_configured Sample.upOk
    { remote := [(Container.key Sample.ownerA, Sample.remoteA)] } Sample.ownerA Remote.zero
    rfl rfl⟩

/-! ## One watch per kind -/

theorem ensureWatch_kinds (up : Upstream) (r : Remote) (w : Watch)
    (h : KindsDistinct r.watch) : KindsDistinct (r.ensureWatch up w).1.watch := by
  unfold KindsDistinct at h ⊢
  cases hf : r.findWatch w.Subject with
  | some iy =>
    obtain ⟨i, y⟩ := iy
    obtain ⟨pre, post, hl, hlen, _, _⟩ := findFirst_eq_some _ _ _ _ hf
    rw [ensureWatch_found up r w i y hf]
    simp only
    rw [hl, ← hlen, updateAt_append]
    rw [hl] at h
    simpa [Watch.merge] using h
  | none =>
    rw [ensureWatch_absent up r w hf]
    simp only [List.map_append, List.map_cons, List.map_nil]
    rw [(start_subject up w _).1]
    have hall := (findFirst_eq_none _ _).mp hf
    refine List.nodup_append.mpr ⟨h, List.nodup_singleton _, ?_⟩
    intro c hc1 hc2
    obtain ⟨y, hy, rfl⟩ := List.mem_map.mp hc1
    have := (Match_false_iff y w.Subject).mp (hall y hy)
    simp at hc2
    exact this hc2

theorem EnsureWatch_kinds (up : Upstream) (r : Remote) (w : Watch)
    (h : KindsDistinct r.watch) : KindsDistinct (r.EnsureWatch up w).1.watch := by
  rw [EnsureWatch_fst]
  exact ensureWatch_kinds up r w h

theorem ensureWatches_kinds (up : Upstream) (ws : List Watch) :
    ∀ r : Remote, KindsDistinct r.watch →
      KindsDistinct (Remote.ensureWatches up r ws).1.watch := by
  induction ws with
  | nil => intro r h; exact h
  | cons a t ih =>
    intro r h
    have h1 := ensureWatch_kinds up r
      { Subject := a.Subject, Predicates := [], started := false } h
    unfold Remote.ensureWatches
    rcases hres : r.ensureWatch up
      { Subject := a.Subject, Predicates := [], started := false } with ⟨r1, _ | err⟩
    · rw [hres] at h1
      exact ih r1 h1
    · rw [hres] at h1
      exact h1

theorem EnsureRelay_kinds (up : Upstream) (r : Remote) (relay : Relay)
    (h : KindsDistinct r.watch) : KindsDistinct (r.EnsureRelay up relay).1.watch := by
  obtain ⟨r1, i, rl1, he, _, hw, _, _⟩ := EnsureRelay_shape up r relay
  rw [he]
  apply ensureWatches_kinds
  rw [hw]
  exact h

theorem takeWatches_kinds (up : Upstream) (ws : List Watch) :
    ∀ r : Remote, KindsDistinct r.watch →
      KindsDistinct (Remote.takeWatches up r ws).watch := by
  induction ws with
  | nil => intro r h; exact h
  | cons a t ih =>
    intro r h
    unfold Remote.takeWatches
    exact ih _ (EnsureWatch_kinds up r a.reset h)

theorem takeRelays_kinds (up : Upstream) (rls : List Relay) :
    ∀ r : Remote, KindsDistinct r.watch →
      KindsDistinct (Remote.takeRelays up r rls).watch := by
  induction rls with
  | nil => intro r h; exact h
  | cons a t ih =>
    intro r h
    unfold Remote.takeRelays
    exact ih _ (EnsureRelay_kinds up r a.reset h)

theorem TakeWorkload_kinds (up : Upstream) (r other : Remote)
    (h : KindsDistinct r.watch) : KindsDistinct (r.TakeWorkload up other).1.watch := by
  unfold Remote.TakeWorkload
  simp only
  apply takeRelays_kinds
  exact takeWatches_kinds up other.watch r h

/-- Each call keeps both halves of the invariant, and none panics under it. -/
theorem call_keeps (r : Remote) (c : Call) (hk : KindsDistinct r.watch)
    (hc : ChannelsDistinct r.relay) :
    ∃ r1, r.call c = some r1 ∧ KindsDistinct r1.watch ∧ ChannelsDistinct r1.relay := by
  cases c with
  | ensureWatch up watch =>
    refine ⟨_, rfl, EnsureWatch_kinds up r watch hk, ?_⟩
    obtain ⟨l, hl⟩ := EnsureWatch_frame up r watch
    rw [hl]
    exact hc
  | ensureRelay up relay =>
    exact ⟨_, rfl, EnsureRelay_kinds up r relay hk, EnsureRelay_distinct up r relay hc⟩
  | endRelay relay =>
    refine ⟨_, EndRelay_of_distinct r relay hc, hk, ?_⟩
    unfold ChannelsDistinct at hc ⊢
    exact (List.Sublist.map _ (List.filter_sublist _)).nodup hc
  | reset =>
    exact ⟨_, rfl, by simp [Remote.Reset, KindsDistinct],
      by simp [Remote.Reset, ChannelsDistinct]⟩
  | takeWorkload up other =>
    exact ⟨_, rfl, TakeWorkload_kinds up r other hk, TakeWorkload_distinct up r other hc⟩

theorem calls_keep (cs : List Call) :
    ∀ r : Remote, KindsDistinct r.watch → ChannelsDistinct r.relay →
      ∃ r1, r.calls cs = some r1 ∧ KindsDistinct r1.watch ∧ ChannelsDistinct r1.relay := by
  induction cs with
  | nil => intro r hk hc; exact ⟨r, rfl, hk, hc⟩
  | cons c t ih =>
    intro r hk hc
    obtain ⟨r1, h1, hk1, hc1⟩ := call_keeps r c hk hc
    obtain ⟨r2, h2, hk2, hc2⟩ := ih r1 hk1 hc1
    refine ⟨r2, ?_, hk2, hc2⟩
    simp [Remote.calls, h1, h2]

/-! ## Kinds a relay does not mention -/

theorem ensureWatches_keeps_other (up : Upstream) (ws : List Watch) (w : Watch) :
    ∀ r : Remote, w ∈ r.watch → (∀ x ∈ ws, ToKind x.Subject ≠ ToKind w.Subject) →
      w ∈ (Remote.ensureWatches up r ws).1.watch := by
  induction ws with
  | nil => intro r h _; exact h
  | cons a t ih =>
    intro r h hne
    have h1 := ensureWatch_keeps_other up r
      { Subject := a.Subject, Predicates := [], started := false } w h
      (fun e => hne a (List.mem_cons_self _ _) e.symm)
    unfold Remote.ensureWatches
    rcases hres : r.ensureWatch up
      { Subject := a.Subject, Predicates := [], started := false } with ⟨r1, _ | err⟩
    · rw [hres] at h1
      exact ih r1 h1 (fun x hx => hne x (List.mem_cons_of_mem _ hx))
    · rw [hres] at h1
      exact h1

theorem NilFirst_split (l : List Watch) (s : Resource) (h : NilFirst l s) :
    ∃ lead y post, l = lead ++ y :: post ∧
      (∀ z ∈ lead, ToKind z.Subject ≠ ToKind s) ∧ ToKind y.Subject = ToKind s ∧
      y.Predicates = [] := by
  obtain ⟨i, y, hf, hp⟩ := h
  obtain ⟨lead, post, hl, _, hlead, hy⟩ := findFirst_eq_some _ _ _ _ hf
  exact ⟨lead, y, post, hl, fun z hz => (Match_false_iff z s).mp (hlead z hz),
    (Match_iff y s).mp hy, hp⟩

/-! ## The `done` channel of a reachable remote -/

theorem Start_done (up : Upstream) (r : Remote) : (r.Start up).1.done = r.done := by
  unfold Remote.Start
  split
  · rfl
  · split
    · rfl
    · split
      · rfl
      · split
        · rfl
        · obtain ⟨l, hl⟩ := startWatches_frame up r r.watch []
          split
          · next r1 err hs => rw [hs] at hl; simp only at hl; rw [hl]
          · next r1 hs => rw [hs] at hl; simp only at hl; rw [hl]

/-- No exported operation creates the `done` channel: it is nil in every reachable
remote, so `Shutdown` changes nothing there. -/
theorem Reachable_done (r : Remote) (h : Remote.Reachable r) :
    r.done = DoneChan.isNil ∧ r.Shutdown = r := by
  have hd : r.done = DoneChan.isNil := by
    induction h with
    | literal name cfg => rfl
    | assign r name cfg _ ih => exact ih
    | start up r _ ih => rw [Start_done]; exact ih
    | shutdown r _ ih => simp [Remote.Shutdown, ih]
    | reset r _ ih => exact ih
    | ensureWatch up r w _ ih =>
      obtain ⟨l, hl⟩ := EnsureWatch_frame up r w
      rw [hl]
      exact ih
    | ensureRelay up r relay _ ih =>
      obtain ⟨l, ws, hl⟩ := EnsureRelay_frame up r relay
      rw [hl]
      exact ih
    | endRelay r relay r1 _ he ih =>
      unfold Remote.EndRelay at he
      split at he
      · cases he
      · cases he
        exact ih
    | takeWorkload up r other _ _ ih _ =>
      obtain ⟨l, ws, hl⟩ := TakeWorkload_frame up r other
      rw [hl]
      exact ih
    | takenFrom up r other _ _ _ ih => exact ih
  exact ⟨hd, by simp [Remote.Shutdown, hd]⟩

/-! ## C27: `Wrap` -/

/-- C27. `Wrap` is idempotent and transparent.  `Wrap(nil)` is nil; for an error that is
not a `*LibError`, `Wrap` yields a `*LibError` whose `Unwrap()` is that error and whose
`Error()` is the text of that error; and wrapping the result of a `Wrap` again, from any
call site, gives back that very result. -/
theorem Wrap_idempotent :
    (∀ stack : String, Wrap stack none = none) ∧
    (∀ (stack msg : String), ∃ le : Error,
      Wrap stack (some (Error.other msg)) = some le ∧
      (∃ st, le = Error.lib (Error.other msg) st) ∧
      le.Unwrap = some (Error.other msg) ∧
      le.Error = (Error.other msg).Error) ∧
    (∀ (stack stack2 : String) (e : Option Error),
      Wrap stack2 (Wrap stack e) = Wrap stack e) := by
  refine ⟨fun _ => rfl, ?_, ?_⟩
  · intro stack msg
    exact ⟨Error.lib (Error.other msg) stack, rfl, ⟨stack, rfl⟩, rfl, rfl⟩
  · intro stack stack2 e
    cases e with
    | none => rfl
    | some err => cases err <;> rfl

/-! ## C28: one watch per kind, one relay per channel -/

/-- C28. Starting from a remote with no watches and no relays, every finite sequence of
`EnsureWatch`, `EnsureRelay`, `EndRelay`, `Reset` and `TakeWorkload` calls (against any
upstream, with any arguments) runs through without a panic and leaves a remote in which
no two watches have the same kind and no two relays have the same channel. -/
theorem calls_keep_unique (r0 : Remote) (cs : List Call)
    (hw : r0.watch = []) (hr : r0.relay = []) :
    ∃ r : Remote, r0.calls cs = some r ∧
      (r.watch.map (fun w => ToKind w.Subject)).Nodup ∧
      (r.relay.map (fun rl => rl.Channel)).Nodup := by
  have h := calls_keep cs r0 (by simp [KindsDistinct, hw]) (by simp [ChannelsDistinct, hr])
  simpa [KindsDistinct, ChannelsDistinct] using h

/-! ## C29: `EnsureRelay` and the predicates of the remote -/

/-- C29. For every remote and relay, when `EnsureRelay(relay)` returns without error the
remote holds a relay on the channel that mentions every kind of `relay`, and for every
kind that relay mentions the first watch of the remote of that kind has an empty
predicate list, whatever predicates an earlier `EnsureWatch` had put there; if the remote
had one watch per kind, every watch of such a kind has an empty predicate list.  A watch
of the remote whose kind the relay does not mention is still there, predicates
included. -/
theorem EnsureRelay_discards_predicates (up : Upstream) (r : Remote) (relay : Relay)
    (h : (r.EnsureRelay up relay).2 = none) :
    ∃ i rl, (r.EnsureRelay up relay).1.findRelay relay = some (i, rl) ∧
      (∀ w ∈ relay.Watch, ∃ x ∈ rl.Watch, ToKind x.Subject = ToKind w.Subject) ∧
      (∀ x ∈ rl.Watch, ∃ lead y post,
        (r.EnsureRelay up relay).1.watch = lead ++ y :: post ∧
        (∀ z ∈ lead, ToKind z.Subject ≠ ToKind x.Subject) ∧
        ToKind y.Subject = ToKind x.Subject ∧ y.Predicates = []) ∧
      (KindsDistinct r.watch → ∀ x ∈ rl.Watch, ∀ y ∈ (r.EnsureRelay up relay).1.watch,
        ToKind y.Subject = ToKind x.Subject → y.Predicates = []) ∧
      (∀ w ∈ r.watch, (∀ x ∈ rl.Watch, ToKind x.Subject ≠ ToKind w.Subject) →
        w ∈ (r.EnsureRelay up relay).1.watch) := by
  have hkinds := EnsureRelay_kinds up r relay
  obtain ⟨r1, i, rl1, he, hf, hw, hcov, _⟩ := EnsureRelay_shape up r relay
  rw [he] at h hkinds ⊢
  obtain ⟨l, hl⟩ := ensureWatches_frame up rl1.Watch r1
  have hnil := ensureWatches_nil_est up rl1.Watch r1 h
  have hsplit : ∀ x ∈ rl1.Watch, ∃ lead y post,
      (Remote.ensureWatches up r1 rl1.Watch).1.watch = lead ++ y :: post ∧
      (∀ z ∈ lead, ToKind z.Subject ≠ ToKind x.Subject) ∧
      ToKind y.Subject = ToKind x.Subject ∧ y.Predicates = [] :=
    fun x hx => NilFirst_split _ _ (hnil x hx)
  refine ⟨i, rl1, ?_, hcov, hsplit, ?_, ?_⟩
  · rw [hl]
    exact hf
  · intro hd x hx y hy hk
    obtain ⟨lead, y0, post, hl0, _, hk0, hp0⟩ := hsplit x hx
    have hy0 : y0 ∈ (Remote.ensureWatches up r1 rl1.Watch).1.watch := by
      rw [hl0]; simp
    have heq : y = y0 :=
      List.inj_on_of_nodup_map (hkinds hd) hy hy0 (by rw [hk, hk0])
    rw [heq]
    exact hp0
  · intro w hw0 hne
    apply ensureWatches_keeps_other up rl1.Watch w r1
    · rw [hw]; exact hw0
    · exact hne

/-! ## C30: `Shutdown` and the started flag -/

/-- C30 (code as written). The literal `&Remote{Name: "a2", RestCfg: cfg2}` is started by
`Start` without error and is then marked started with a nil `done` channel; `Shutdown`
leaves it exactly as it was, still marked started, and a later `Start` returns at its
first check, without error and without a call to the upstream. -/
theorem Shutdown_leaves_started :
    (Sample.remoteA2.Start Sample.upOk).2 = none ∧
    (Sample.remoteA2.Start Sample.upOk).1.started = true ∧
    (Sample.remoteA2.Start Sample.upOk).1.done = DoneChan.isNil ∧
    (Sample.remoteA2.Start Sample.upOk).1.Shutdown.started = true ∧
    (Sample.remoteA2.Start Sample.upOk).1.Shutdown = (Sample.remoteA2.Start Sample.upOk).1 ∧
    (Sample.remoteA2.Start Sample.upOk).1.Shutdown.Start Sample.upNoPod =
      ((Sample.remoteA2.Start Sample.upOk).1, none) := by
  decide

/-! ## Witnesses for C28 and C29 -/

/-- C28 at `&Remote{}` and four calls. -/
theorem calls_keep_unique_witness :
    Remote.zero.watch = [] ∧ Remote.zero.relay = [] ∧
    ∃ r : Remote,
      Remote.zero.calls
        [Call.ensureWatch Sample.upOk (Sample.watchPod [Sample.p1]),
         Call.ensureRelay Sample.upOk Sample.relayPod,
         Call.takeWorkload Sample.upOk Sample.loaded,
         Call.endRelay Sample.relayPod] = some r ∧
      (r.watch.map (fun w => ToKind w.Subject)).Nodup ∧
      (r.relay.map (fun rl => rl.Channel)).Nodup :=
  ⟨rfl, rfl, calls_keep_unique Remote.zero _ rfl rfl⟩

/-- C29 at a remote whose `Pod` watch holds the predicate `p1`. -/
theorem EnsureRelay_discards_predicates_witness :
    ((Remote.zero.EnsureWatch Sample.upOk (Sample.watchPod [Sample.p1])).1.EnsureRelay
      Sample.upOk Sample.relayPod).2 = none ∧
    ∃ i rl,
      ((Remote.zero.EnsureWatch Sample.upOk (Sample.watchPod [Sample.p1])).1.EnsureRelay
        Sample.upOk Sample.relayPod).1.findRelay Sample.relayPod = some (i, rl) ∧
      (∀ w ∈ Sample.relayPod.Watch, ∃ x ∈ rl.Watch, ToKind x.Subject = ToKind w.Subject) ∧
      (∀ x ∈ rl.Watch, ∃ lead y post,
        ((Remote.zero.EnsureWatch Sample.upOk (Sample.watchPod [Sample.p1])).1.EnsureRelay
          Sample.upOk Sample.relayPod).1.watch = lead ++ y :: post ∧
        (∀ z ∈ lead, ToKind z.Subject ≠ ToKind x.Subject) ∧
        ToKind y.Subject = ToKind x.Subject ∧ y.Predicates = []) ∧
      (KindsDistinct (Remote.zero.EnsureWatch Sample.upOk
          (Sample.watchPod [Sample.p1])).1.watch →
        ∀ x ∈ rl.Watch,
        ∀ y ∈ ((Remote.zero.EnsureWatch Sample.upOk
            (Sample.watchPod [Sample.p1])).1.EnsureRelay Sample.upOk
            Sample.relayPod).1.watch,
        ToKind y.Subject = ToKind x.Subject → y.Predicates = []) ∧
      (∀ w ∈ (Remote.zero.EnsureWatch Sample.upOk (Sample.watchPod [Sample.p1])).1.watch,
        (∀ x ∈ rl.Watch, ToKind x.Subject ≠ ToKind w.Subject) →
        w ∈ ((Remote.zero.EnsureWatch Sample.upOk
            (Sample.watchPod [Sample.p1])).1.EnsureRelay Sample.upOk
            Sample.relayPod).1.watch) :=
  ⟨by decide,
   EnsureRelay_discards_predicates Sample.upOk
     (Remote.zero.EnsureWatch Sample.upOk (Sample.watchPod [Sample.p1])).1 Sample.relayPod
     (by decide)⟩

end RemoteWatch

namespace Vmware

/-! ## The consistency flag -/

theorem apply_consistent (ctx : Context) (us : List ObjectUpdate) :
    ∀ r : Reconciler, (Reconciler.apply ctx r us).consistent = r.consistent := by
  induction us with
  | nil => intro r; rfl
  | cons u t ih =>
    intro r
    unfold Reconciler.apply
    split
    · rw [ih]
    · exact ih r

theorem applyAll_consistent (ctx : Context) (sets : List (List ObjectUpdate)) :
    ∀ r : Reconciler, (Reconciler.applyAll ctx r sets).consistent = r.consistent := by
  induction sets with
  | nil => intro r; rfl
  | cons s t ih =>
    intro r
    unfold Reconciler.applyAll
    rw [ih, apply_consistent]

/-- Once set, the flag stays set through any further answers of the endpoint. -/
theorem updateLoop_keeps (ctx : Context) (responses : List Response) :
    ∀ r : Reconciler, r.consistent = true →
      (Reconciler.updateLoop ctx r responses).1.consistent = true := by
  induction responses with
  | nil => intro r h; exact h
  | cons a t ih =>
    intro r h
    cases a with
    | fault err cancelled =>
      unfold Reconciler.updateLoop
      split <;> exact h
    | ended => exact h
    | updates updateSet =>
      unfold Reconciler.updateLoop
      apply ih
      split
      · rfl
      · rw [applyAll_consistent]; exact h

theorem updateLoop_batches (ctx : Context) (lead : List UpdateSet) (rest : List Response)
    (P : Reconciler → Prop)
    (h : ∀ r, P (Reconciler.updateLoop ctx r rest).1) :
    ∀ r, P (Reconciler.updateLoop ctx r (lead.map Response.updates ++ rest)).1 := by
  induction lead with
  | nil => intro r; exact h r
  | cons a t ih =>
    intro r
    simp only [List.map_cons, List.cons_append]
    unfold Reconciler.updateLoop
    exact ih _

/-! ## `Update.update` without scripted faults -/

theorem find_replace (m : VM) (rows : List VM) (row : VM)
    (h : DB.find m.Base.ID rows = some row) :
    DB.find m.Base.ID (DB.replace m rows) = some m := by
  induction rows with
  | nil => simp [DB.find] at h
  | cons x t ih =>
    by_cases hx : x.Base.ID = m.Base.ID
    · simp [DB.replace, DB.find, hx]
    · simp only [DB.find, hx, if_false] at h
      simp [DB.replace, DB.find, hx, ih h]

/-- With nothing scripted and the record in the store, `Update.update` makes one
`db.Update` call and stores the record with the blob built from the change set alone,
whatever blob the record had. -/
theorem update_replaces_blob (ctx : Context) (u : Update) (row : VM)
    (hg : u.db.getFaults = []) (hu : u.db.updateFaults = [])
    (hrow : DB.find u.model.Base.ID u.db.rows = some row)
    (hid : row.Base.ID = u.model.Base.ID) :
    (u.update ctx).attempts = 1 ∧ (u.update ctx).left = true ∧
    DB.find u.model.Base.ID (u.update ctx).update.db.rows =
      some { Base := { row.Base with
                       Object := Blob.marshal (Base.withLoop [] u.changeSet) } } := by
  have hfind : DB.find (row.With u.changeSet).Base.ID u.db.rows = some row := by
    simpa [VM.With, Base.With, hid] using hrow
  have hrep := find_replace (row.With u.changeSet) u.db.rows row hfind
  have hid2 : (row.With u.changeSet).Base.ID = u.model.Base.ID := by
    simpa [VM.With, Base.With] using hid
  rw [hid2] at hrep
  simp [Update.update, Update.updateLoop, hu, hg, DB.Get, DB.getRow, hrow, DB.Update,
    DB.updateRow, hfind, hrep]
  simp [VM.With, Base.With]

/-! ## C19, C20 -/

/-- C19. The consistency latch.  A new reconciler reports `HasConsistency() = false`.
For every run of the update loop over batches, once a batch whose `Truncated` is nil or
false has been processed, `HasConsistency()` is true after it and after whatever the
endpoint answers later, truncated batches included; a flag that is set stays set through
the loop, `getUpdates`, `Start` and `Shutdown`; `Reset()` sets it to false. -/
theorem consistency_latch :
    (∀ host user password db, (New host user password db).HasConsistency = false) ∧
    (∀ (ctx : Context) (r : Reconciler) (lead : List UpdateSet) (batch : UpdateSet)
        (later : List Response),
      (batch.Truncated = none ∨ batch.Truncated = some false) →
      (Reconciler.updateLoop ctx r
        (lead.map Response.updates ++ Response.updates batch :: later)).1.HasConsistency =
          true) ∧
    (∀ (ctx : Context) (r : Reconciler) (responses : List Response),
      r.HasConsistency = true →
      (Reconciler.updateLoop ctx r responses).1.HasConsistency = true) ∧
    (∀ (endpoint : Endpoint) (ctx : Context) (r : Reconciler),
      r.HasConsistency = true →
      (Reconciler.getUpdates endpoint ctx r).1.HasConsistency = true) ∧
    (∀ (endpoint : Endpoint) (r : Reconciler),
      (Reconciler.Start endpoint r).reconciler.HasConsistency = r.HasConsistency) ∧
    (∀ (r : Reconciler) (purge : Bool),
      (r.Shutdown purge).HasConsistency = r.HasConsistency) ∧
    (∀ r : Reconciler, r.Reset.HasConsistency = false) := by
  refine ⟨fun _ _ _ _ => rfl, ?_, ?_, ?_, ?_, fun _ _ => rfl, fun _ => rfl⟩
  · intro ctx r lead batch later hb
    apply updateLoop_batches ctx lead (Response.updates batch :: later)
      (fun x => x.HasConsistency = true)
    intro r0
    unfold Reconciler.updateLoop
    apply updateLoop_keeps
    rcases hb with hb | hb <;> simp [hb]
  · intro ctx r responses h
    exact updateLoop_keeps ctx responses r h
  · intro endpoint ctx r h
    unfold Reconciler.getUpdates
    split
    · exact h
    · split
      · exact h
      · exact updateLoop_keeps ctx _ r h
  · intro endpoint r
    unfold Reconciler.Start
    split
    · rfl
    · split <;> rfl

/-- C20 (code as written). The store holds `vm-1` with the blob `{name: "vm-1",
summary: "s0"}`; applying the `modify` update that assigns `summary = "s1"` succeeds
with one `db.Update` call, and reading `vm-1` then yields the blob `{summary: "s1"}`:
`name`, which the change set does not mention, is gone, from the decoded blob and from
the `Name` of the REST resource built from the record. -/
theorem Modify_drops_unnamed_properties :
    (Update.update { cancelled := false } Sample.modifySummary).attempts = 1 ∧
    ((Update.Apply { cancelled := false } Sample.modifySummary).db.Get
        { Base := { PK := "", ID := "vm-1", Object := Blob.empty } }).2 =
      ({ Base := { PK := "pk-1", ID := "vm-1",
                   Object := Blob.json [("summary", Val.str "s1")] } },
        none) ∧
    Blob.decode
      ((Update.Apply { cancelled := false } Sample.modifySummary).db.Get
        { Base := { PK := "", ID := "vm-1", Object := Blob.empty } }).2.1.Base.Object =
      [("summary", Decoded.str "s1")] ∧
    (WebVM.With { ID := "", Name := Decoded.null, Object := none }
      ((Update.Apply { cancelled := false } Sample.modifySummary).db.Get
        { Base := { PK := "", ID := "vm-1", Object := Blob.empty } }).2.1 true).Name =
      Decoded.null ∧
    (WebVM.With { ID := "", Name := Decoded.null, Object := none } Sample.vm1 true).Name =
      Decoded.str "vm-1" := by
  decide

end Vmware

namespace Vmware

/-! ## The blob `Base.With` builds -/

theorem object_get_set (name n : String) (v : Val) (o : JsonObject) :
    JsonObject.get name (JsonObject.set n v o) =
      if n = name then some v else JsonObject.get name o := by
  induction o with
  | nil => simp [JsonObject.set, JsonObject.get]
  | cons a t ih =>
    obtain ⟨c, w⟩ := a
    by_cases hc : c = n
    · subst hc
      by_cases hn : c = name <;> simp [JsonObject.set, JsonObject.get, hn]
    · by_cases hn : n = name
      · subst hn
        simp [JsonObject.set, JsonObject.get, hc, ih]
      · by_cases hcn : c = name
        · subst hcn
          simp [JsonObject.set, JsonObject.get, hc, hn]
        · simp [JsonObject.set, JsonObject.get, hc, hn, hcn, ih]

theorem mem_keys_set (name n : String) (v : Val) (o : JsonObject) :
    name ∈ (JsonObject.set n v o).map Prod.fst ↔ name = n ∨ name ∈ o.map Prod.fst := by
  induction o with
  | nil => simp [JsonObject.set]
  | cons a t ih =>
    obtain ⟨c, w⟩ := a
    by_cases hc : c = n
    · subst hc
      simp [JsonObject.set]
    · simp only [JsonObject.set, hc, if_false, List.map_cons, List.mem_cons, ih]
      tauto

theorem keys_set_nodup (n : String) (v : Val) (o : JsonObject)
    (h : (o.map Prod.fst).Nodup) : ((JsonObject.set n v o).map Prod.fst).Nodup := by
  induction o with
  | nil => simp [JsonObject.set]
  | cons a t ih =>
    obtain ⟨c, w⟩ := a
    have ht : (t.map Prod.fst).Nodup := (List.nodup_cons.mp h).2
    have hc0 : c ∉ t.map Prod.fst := (List.nodup_cons.mp h).1
    by_cases hc : c = n
    · subst hc
      simpa [JsonObject.set] using h
    · simp only [JsonObject.set, hc, if_false, List.map_cons]
      refine List.nodup_cons.mpr ⟨?_, ih ht⟩
      intro hm
      rcases (mem_keys_set c n v t).mp hm with e | e
      · exact hc e
      · exact hc0 e

theorem withLoop_append (a b : List PropertyChange) :
    ∀ o : JsonObject, Base.withLoop o (a ++ b) = Base.withLoop (Base.withLoop o a) b := by
  induction a with
  | nil => intro o; rfl
  | cons p t ih => intro o; simp [Base.withLoop, ih]

theorem withLoop_get_absent (name : String) (cs : List PropertyChange)
    (h : ∀ p ∈ cs, p.Name ≠ name) :
    ∀ o : JsonObject, JsonObject.get name (Base.withLoop o cs) = JsonObject.get name o := by
  induction cs with
  | nil => intro o; rfl
  | cons p t ih =>
    intro o
    have hp : p.Name ≠ name := h p (List.mem_cons_self _ _)
    simp only [Base.withLoop]
    rw [ih (fun q hq => h q (List.mem_cons_of_mem _ hq)), object_get_set]
    simp [hp]

theorem withLoop_get_last (lead rest : List PropertyChange) (p : PropertyChange)
    (h : ∀ q ∈ rest, q.Name ≠ p.Name) (o : JsonObject) :
    JsonObject.get p.Name (Base.withLoop o (lead ++ p :: rest)) = some p.Val := by
  rw [withLoop_append]
  simp only [Base.withLoop]
  rw [withLoop_get_absent p.Name rest h, object_get_set]
  simp

theorem withLoop_keys_nodup (cs : List PropertyChange) :
    ∀ o : JsonObject, (o.map Prod.fst).Nodup →
      ((Base.withLoop o cs).map Prod.fst).Nodup := by
  induction cs with
  | nil => intro o h; exact h
  | cons p t ih =>
    intro o h
    exact ih _ (keys_set_nodup p.Name p.Val o h)

theorem mem_keys_withLoop (name : String) (cs : List PropertyChange) :
    ∀ o : JsonObject, name ∈ (Base.withLoop o cs).map Prod.fst ↔
      (name ∈ o.map Prod.fst ∨ ∃ p ∈ cs, p.Name = name) := by
  induction cs with
  | nil => intro o; simp [Base.withLoop]
  | cons p t ih =>
    intro o
    simp only [Base.withLoop]
    rw [ih, mem_keys_set]
    simp only [List.mem_cons, exists_eq_or_imp]
    constructor
    · rintro ((h | h) | h)
      · exact Or.inr (Or.inl h.symm)
      · exact Or.inl h
      · exact Or.inr (Or.inr h)
    · rintro (h | h | h)
      · exact Or.inl (Or.inr h)
      · exact Or.inl (Or.inl h.symm)
      · exact Or.inr h

/-! ## The table -/

theorem find_some_id (id : String) (rows : List VM) (row : VM)
    (h : DB.find id rows = some row) : row.Base.ID = id := by
  induction rows with
  | nil => simp [DB.find] at h
  | cons x t ih =>
    by_cases hx : x.Base.ID = id
    · simp only [DB.find, hx, if_true, Option.some.injEq] at h
      rw [← h]; exact hx
    · simp only [DB.find, hx, if_false] at h
      exact ih h

theorem find_append_new (m : VM) (rows : List VM)
    (h : DB.find m.Base.ID rows = none) : DB.find m.Base.ID (rows ++ [m]) = some m := by
  induction rows with
  | nil => simp [DB.find]
  | cons x t ih =>
    by_cases hx : x.Base.ID = m.Base.ID
    · simp [DB.find, hx] at h
    · simp only [DB.find, hx, if_false] at h
      simp [DB.find, hx, ih h]

theorem replace_ids (m : VM) (rows : List VM) :
    (DB.replace m rows).map (fun x => x.Base.ID) = rows.map (fun x => x.Base.ID) := by
  induction rows with
  | nil => rfl
  | cons x t ih =>
    by_cases hx : x.Base.ID = m.Base.ID
    · simp [DB.replace, hx]
    · simp [DB.replace, hx, ih]

theorem find_replace_other (m : VM) (id : String) (h : id ≠ m.Base.ID) (rows : List VM) :
    DB.find id (DB.replace m rows) = DB.find id rows := by
  induction rows with
  | nil => rfl
  | cons x t ih =>
    by_cases hx : x.Base.ID = m.Base.ID
    · have hx2 : ¬ x.Base.ID = id := fun e => h (e.symm.trans hx)
      have hm2 : ¬ m.Base.ID = id := fun e => h e.symm
      simp [DB.replace, DB.find, hx, hx2, hm2]
    · by_cases hxi : x.Base.ID = id
      · subst hxi
        simp [DB.replace, DB.find, hx]
      · simp [DB.replace, DB.find, hx, hxi, ih]

/-! ## The retry loop under `Conflict` -/

theorem Get_ok (db : DB) (m row : VM) (hg : ∀ f ∈ db.getFaults, f = none)
    (hrow : DB.find m.Base.ID db.rows = some row) :
    ∃ db1, db.Get m = (db1, row, none) ∧ db1.rows = db.rows ∧
      db1.updateFaults = db.updateFaults ∧ (∀ f ∈ db1.getFaults, f = none) := by
  unfold DB.Get
  cases hs : db.getFaults with
  | nil => exact ⟨db, by simp [DB.getRow, hrow], rfl, rfl, hg⟩
  | cons f t =>
    have hf : f = none := hg f (by rw [hs]; exact List.mem_cons_self _ _)
    subst hf
    refine ⟨{ db with getFaults := t }, by simp [DB.getRow, hrow], rfl, rfl, ?_⟩
    intro g hgm
    exact hg g (by rw [hs]; exact List.mem_cons_of_mem _ hgm)

theorem Update_ok (db : DB) (m row : VM) (rest : List (Option DBError))
    (hrest : rest = [] ∨ ∃ t, rest = none :: t) (hu : db.updateFaults = rest)
    (hrow : DB.find m.Base.ID db.rows = some row) :
    ∃ db2, db.Update m = (db2, none) ∧ db2.rows = DB.replace m db.rows := by
  unfold DB.Update
  rcases hrest with h | ⟨t, h⟩
  · rw [hu, h]
    simp only [DB.updateRow, hrow]
    exact ⟨_, rfl, rfl⟩
  · rw [hu, h]
    simp only [DB.updateRow, hrow]
    exact ⟨_, rfl, rfl⟩

theorem updateLoop_conflicts (ctx : Context) (cs : List PropertyChange) (row : VM)
    (rest : List (Option DBError)) (hrest : rest = [] ∨ ∃ t, rest = none :: t) :
    ∀ (n extra k : Nat) (u : Update), u.changeSet = cs →
      (∀ f ∈ u.db.getFaults, f = none) →
      u.db.updateFaults = List.replicate n (some DBError.Conflict) ++ rest →
      DB.find u.model.Base.ID u.db.rows = some row →
      (Update.updateLoop (n + 1 + extra) ctx u k).attempts = k + n + 1 ∧
      (Update.updateLoop (n + 1 + extra) ctx u k).left = true ∧
      (Update.updateLoop (n + 1 + extra) ctx u k).update.db.rows =
        DB.replace (row.With cs) u.db.rows ∧
      (Update.updateLoop (n + 1 + extra) ctx u k).update.model = row.With cs := by
  intro n
  induction n with
  | zero =>
    intro extra k u hcs hg hu hrow
    obtain ⟨db1, hget, hrows1, hup1, _⟩ := Get_ok u.db u.model row hg hrow
    have hid : row.Base.ID = u.model.Base.ID := find_some_id _ _ _ hrow
    have hrow1 : DB.find (row.With cs).Base.ID db1.rows = some row := by
      rw [hrows1]; simpa [VM.With, Base.With, hid] using hrow
    obtain ⟨db2, hupd, hrows2⟩ := Update_ok db1 (row.With cs) row rest hrest
      (by rw [hup1, hu]; simp) hrow1
    have e : 0 + 1 + extra = extra + 1 := by omega
    rw [e]
    unfold Update.updateLoop
    simp only [hget, hcs, hupd]
    exact ⟨trivial, trivial, by rw [hrows2, hrows1], trivial⟩
  | succ n ih =>
    intro extra k u hcs hg hu hrow
    obtain ⟨db1, hget, hrows1, hup1, hg1⟩ := Get_ok u.db u.model row hg hrow
    have hid : row.Base.ID = u.model.Base.ID := find_some_id _ _ _ hrow
    have hupd : db1.Update (row.With cs) =
        ({ db1 with updateFaults := List.replicate n (some DBError.Conflict) ++ rest },
          some DBError.Conflict) := by
      unfold DB.Update
      rw [hup1, hu]
      simp [List.replicate_succ]
    have e : n + 1 + 1 + extra = (n + 1 + extra) + 1 := by omega
    rw [e]
    unfold Update.updateLoop
    simp only [hget, hcs, hupd, if_true]
    have hnext := ih extra (k + 1)
      { u with db := { db1 with updateFaults :=
                          List.replicate n (some DBError.Conflict) ++ rest },
               model := row.With cs }
      hcs hg1 rfl (by simpa [VM.With, Base.With, hid, hrows1] using hrow)
    simp only at hnext
    rw [hcs] at hnext
    obtain ⟨h1, h2, h3, h4⟩ := hnext
    exact ⟨by rw [h1]; omega, h2, h3.trans (by rw [hrows1]), h4⟩

theorem updateLoop_get_error (fuel : Nat) (ctx : Context) (u : Update) (k : Nat)
    (h : (u.db.Get u.model).2.2 ≠ none) :
    (Update.updateLoop (fuel + 1) ctx u k).attempts = k ∧
    (Update.updateLoop (fuel + 1) ctx u k).left = true := by
  unfold Update.updateLoop
  rcases hget : u.db.Get u.model with ⟨db1, m1, _ | err⟩
  · rw [hget] at h; exact absurd rfl h
  · exact ⟨rfl, rfl⟩

theorem updateLoop_update_error (fuel : Nat) (ctx : Context) (u : Update) (k : Nat)
    (err : DBError) (hg : (u.db.Get u.model).2.2 = none)
    (hu : ((u.db.Get u.model).1.Update ((u.db.Get u.model).2.1.With u.changeSet)).2 =
      some err)
    (hne : err ≠ DBError.Conflict) :
    (Update.updateLoop (fuel + 1) ctx u k).attempts = k + 1 ∧
    (Update.updateLoop (fuel + 1) ctx u k).left = true := by
  unfold Update.updateLoop
  rcases hget : u.db.Get u.model with ⟨db1, m1, _ | e1⟩
  · rw [hget] at hu
    simp only at hu
    rcases hupd : db1.Update (m1.With u.changeSet) with ⟨db2, _ | e2⟩
    · rw [hupd] at hu; cases hu
    · rw [hupd] at hu
      simp only [Option.some.injEq] at hu
      subst hu
      simp [hupd, hne]
  · rw [hget] at hg; cases hg

/-! ## Marshalling and decoding -/

theorem mem_set (e : String × Val) (n : String) (v : Val) (o : JsonObject)
    (h : e ∈ JsonObject.set n v o) : e = (n, v) ∨ e ∈ o := by
  induction o with
  | nil => simpa [JsonObject.set] using h
  | cons a t ih =>
    obtain ⟨c, w⟩ := a
    by_cases hc : c = n
    · simp only [JsonObject.set, hc, if_true, List.mem_cons] at h
      rcases h with h | h
      · exact Or.inl h
      · exact Or.inr (List.mem_cons_of_mem _ h)
    · simp only [JsonObject.set, hc, if_false, List.mem_cons] at h
      rcases h with h | h
      · exact Or.inr (by rw [h]; exact List.mem_cons_self _ _)
      · rcases ih h with h2 | h2
        · exact Or.inl h2
        · exact Or.inr (List.mem_cons_of_mem _ h2)

theorem withLoop_marshals (cs : List PropertyChange)
    (h : ∀ p ∈ cs, p.Val.marshals = true) :
    ∀ o : JsonObject, (∀ e ∈ o, e.2.marshals = true) →
      ∀ e ∈ Base.withLoop o cs, e.2.marshals = true := by
  induction cs with
  | nil => intro o ho e he; exact ho e he
  | cons p t ih =>
    intro o ho e he
    refine ih (fun q hq => h q (List.mem_cons_of_mem _ hq)) (JsonObject.set p.Name p.Val o)
      ?_ e he
    intro x hx
    rcases mem_set x p.Name p.Val o hx with hx | hx
    · rw [hx]; exact h p (List.mem_cons_self _ _)
    · exact ho x hx

theorem marshal_ok (o : JsonObject) (h : ∀ e ∈ o, e.2.marshals = true) :
    Blob.marshal o = Blob.json o := by
  have : o.all (fun p => p.2.marshals) = true := List.all_eq_true.mpr h
  simp [Blob.marshal, this]

theorem marshal_rejected (o : JsonObject) (h : ∃ e ∈ o, e.2.marshals = false) :
    Blob.marshal o = Blob.empty := by
  obtain ⟨e, he, hm⟩ := h
  have : o.all (fun p => p.2.marshals) = false := by
    rw [List.all_eq_false]
    exact ⟨e, he, by simp [hm]⟩
  simp [Blob.marshal, this]

theorem decoded_get (name : String) (o : JsonObject) :
    Decoded.get name (o.map (fun p => (p.1, p.2.decode))) =
      match JsonObject.get name o with
      | some v => v.decode
      | none => Decoded.null := by
  induction o with
  | nil => rfl
  | cons a t ih =>
    obtain ⟨c, w⟩ := a
    by_cases hc : c = name
    · simp [Decoded.get, JsonObject.get, hc]
    · simp [Decoded.get, JsonObject.get, hc, ih]

theorem excessBits_small (fuel a : Nat) (h : a < 2 ^ 53) : excessBits fuel a = 0 := by
  cases fuel with
  | zero => rfl
  | succ k =>
    unfold excessBits
    rw [if_pos h]

theorem float64_small (n : Int) (h : n.natAbs < 2 ^ 53) : float64 n = n := by
  unfold float64
  simp only [excessBits_small 64 n.natAbs h]
  simp [Nat.mod_one, Int.sign_mul_abs]

/-! ## C21: the blob of an `enter` update -/

/-- C21 (claim as stated fails). The `enter` update of `vm-3` names `name` and `load`,
the value of `load` being NaN: `json.Marshal` rejects the map, the record is inserted with
the empty string as its blob, and decoding it yields no property at all.  The `enter`
update of `vm-4` gives `memory` the value `2 ^ 53 + 1`: the blob holds that number, and
decoding it yields `2 ^ 53`. -/
theorem Enter_blob_empty_or_altered :
    DB.find "vm-3" (Sample.enterNaN.Apply { cancelled := false }).db.rows =
      some { Base := { PK := "", ID := "vm-3", Object := Blob.empty } } ∧
    (WebVM.With { ID := "", Name := Decoded.null, Object := none }
      { Base := { PK := "", ID := "vm-3", Object := Blob.empty } } true) =
      { ID := "vm-3", Name := Decoded.null, Object := some [] } ∧
    DB.find "vm-4" (Sample.enterBig.Apply { cancelled := false }).db.rows =
      some { Base := { PK := "", ID := "vm-4",
                       Object := Blob.json [("memory", Val.num 9007199254740993)] } } ∧
    (WebVM.With { ID := "", Name := Decoded.null, Object := none }
      { Base := { PK := "", ID := "vm-4",
                  Object := Blob.json [("memory", Val.num 9007199254740993)] } } true) =
      { ID := "vm-4", Name := Decoded.null,
        Object := some [("memory", Decoded.number 9007199254740992)] } := by
  decide

/-- C21 (amended). For every `enter` update on a store that has no record of the
identifier: the map `Base.With` fills has each name once, its names are exactly the
property names occurring in the change set, and the value of a name is the value of the
last change with that name; the record found after `Apply` is the model with the blob
`Base.With` makes of that map.  When `json.Marshal` accepts every value of the map (as it
does when it accepts every value of the change set), the blob is the JSON text of the map,
and the REST resource decoded from the record holds a map with the same names in which
the value of a name is the decoded value of its last change; an integer below `2 ^ 53` in
magnitude is decoded to itself.  When `json.Marshal` rejects a value of the map, the blob
is the empty string and the decoded map is empty. -/
theorem Enter_round_trip (ctx : Context) (u : Update) (hk : u.kind = Enter)
    (hnew : DB.find u.model.Base.ID u.db.rows = none) :
    ((Base.withLoop [] u.changeSet).map Prod.fst).Nodup ∧
    (∀ name : String, name ∈ (Base.withLoop [] u.changeSet).map Prod.fst ↔
      ∃ p ∈ u.changeSet, p.Name = name) ∧
    (∀ (lead : List PropertyChange) (p : PropertyChange) (rest : List PropertyChange),
      u.changeSet = lead ++ p :: rest → (∀ q ∈ rest, q.Name ≠ p.Name) →
      JsonObject.get p.Name (Base.withLoop [] u.changeSet) = some p.Val) ∧
    DB.find u.model.Base.ID (u.Apply ctx).db.rows = some (u.model.With u.changeSet) ∧
    (u.model.With u.changeSet).Base.ID = u.model.Base.ID ∧
    ((∀ e ∈ Base.withLoop [] u.changeSet, e.2.marshals = true) →
      (u.model.With u.changeSet).Base.Object = Blob.json (Base.withLoop [] u.changeSet) ∧
      ∀ r : WebVM, ∃ decoded : List (String × Decoded),
        (r.With (u.model.With u.changeSet) true).Object = some decoded ∧
        decoded.map Prod.fst = (Base.withLoop [] u.changeSet).map Prod.fst ∧
        (∀ (lead : List PropertyChange) (p : PropertyChange) (rest : List PropertyChange),
          u.changeSet = lead ++ p :: rest → (∀ q ∈ rest, q.Name ≠ p.Name) →
          Decoded.get p.Name decoded = p.Val.decode)) ∧
    ((∀ p ∈ u.changeSet, p.Val.marshals = true) →
      ∀ e ∈ Base.withLoop [] u.changeSet, e.2.marshals = true) ∧
    ((∃ e ∈ Base.withLoop [] u.changeSet, e.2.marshals = false) →
      (u.model.With u.changeSet).Base.Object = Blob.empty ∧
      ∀ r : WebVM, (r.With (u.model.With u.changeSet) true).Object = some [] ∧
        (r.With (u.model.With u.changeSet) true).Name = Decoded.null) ∧
    (∀ n : Int, n.natAbs < 2 ^ 53 → (Val.num n).decode = Decoded.number n) := by
  refine ⟨withLoop_keys_nodup _ [] (by simp), ?_, ?_, ?_, rfl, ?_, ?_, ?_, ?_⟩
  · intro name
    simpa using mem_keys_withLoop name u.changeSet []
  · intro lead p rest hcs hlast
    rw [hcs]
    exact withLoop_get_last lead rest p hlast []
  · have hfind : DB.find (u.model.With u.changeSet).Base.ID u.db.rows = none := hnew
    have happ := find_append_new (u.model.With u.changeSet) u.db.rows hfind
    simp only [Update.Apply, hk, if_true, Update.insert, DB.Insert, hfind]
    exact happ
  · intro hm
    have hblob : (u.model.With u.changeSet).Base.Object =
        Blob.json (Base.withLoop [] u.changeSet) := marshal_ok _ hm
    refine ⟨hblob, fun r =>
      ⟨(Base.withLoop [] u.changeSet).map (fun p => (p.1, p.2.decode)), ?_, ?_, ?_⟩⟩
    · simp only [WebVM.With, hblob, Blob.decode, if_true]
    · simp
    · intro lead p rest hcs hlast
      rw [decoded_get]
      have hget : JsonObject.get p.Name (Base.withLoop [] u.changeSet) = some p.Val := by
        rw [hcs]
        exact withLoop_get_last lead rest p hlast []
      rw [hget]
  · intro hm
    exact withLoop_marshals u.changeSet hm [] (by simp)
  · intro hm
    have hblob : (u.model.With u.changeSet).Base.Object = Blob.empty :=
      marshal_rejected _ hm
    refine ⟨hblob, fun r => ⟨?_, ?_⟩⟩
    · simp only [WebVM.With, hblob, Blob.decode, if_true]
    · simp only [WebVM.With, hblob, Blob.decode, if_true, Decoded.get]
  · intro n hn
    simp only [Val.decode, float64_small n hn]

/-! ## C22: `Conflict` is retried -/

/-- C22. Conflict retry.  For every `n`, when the store answers every `Get`, holds the
record, and answers `Conflict` to the first `n` `Update` calls and does the next one,
`Update.update` makes exactly `n + 1` `Update` calls and leaves its loop, the record then
carries the blob built from the change set, the identifiers in the table and every other
record are as before, and applying updates never changes the has-consistency flag.  A
failed `Get` ends the loop with no further `Update` call, and an `Update` error other
than `Conflict` ends it after that call.  All of this holds for every context. -/
theorem Conflict_retry (ctx : Context) (u : Update) (n : Nat)
    (rest : List (Option DBError)) (row : VM)
    (hg : ∀ f ∈ u.db.getFaults, f = none)
    (hu : u.db.updateFaults = List.replicate n (some DBError.Conflict) ++ rest)
    (hrest : rest = [] ∨ ∃ t, rest = none :: t)
    (hrow : DB.find u.model.Base.ID u.db.rows = some row) :
    (u.update ctx).attempts = n + 1 ∧ (u.update ctx).left = true ∧
    DB.find u.model.Base.ID (u.update ctx).update.db.rows =
      some { Base := { row.Base with
                       Object := Blob.marshal (Base.withLoop [] u.changeSet) } } ∧
    (u.update ctx).update.db.rows.map (fun x => x.Base.ID) =
      u.db.rows.map (fun x => x.Base.ID) ∧
    (∀ id : String, id ≠ u.model.Base.ID →
      DB.find id (u.update ctx).update.db.rows = DB.find id u.db.rows) ∧
    (∀ (r : Reconciler) (us : List ObjectUpdate),
      (Reconciler.apply ctx r us).HasConsistency = r.HasConsistency) ∧
    (∀ (fuel k : Nat) (v : Update), (v.db.Get v.model).2.2 ≠ none →
      (Update.updateLoop (fuel + 1) ctx v k).attempts = k ∧
      (Update.updateLoop (fuel + 1) ctx v k).left = true) ∧
    (∀ (fuel k : Nat) (v : Update) (err : DBError), (v.db.Get v.model).2.2 = none →
      ((v.db.Get v.model).1.Update ((v.db.Get v.model).2.1.With v.changeSet)).2 = some err →
      err ≠ DBError.Conflict →
      (Update.updateLoop (fuel + 1) ctx v k).attempts = k + 1 ∧
      (Update.updateLoop (fuel + 1) ctx v k).left = true) := by
  have hfuel : u.db.updateFaults.length + 1 = n + 1 + rest.length := by
    rw [hu]; simp; omega
  have hid : row.Base.ID = u.model.Base.ID := find_some_id _ _ _ hrow
  obtain ⟨h1, h2, h3, _⟩ :=
    updateLoop_conflicts ctx u.changeSet row rest hrest n rest.length 0 u rfl hg hu hrow
  have hfind : DB.find (row.With u.changeSet).Base.ID u.db.rows = some row := by
    simpa [VM.With, Base.With, hid] using hrow
  have hrep := find_replace (row.With u.changeSet) u.db.rows row hfind
  have hid2 : (row.With u.changeSet).Base.ID = u.model.Base.ID := hid
  rw [hid2] at hrep
  unfold Update.update
  rw [hfuel]
  refine ⟨by rw [h1]; omega, h2, ?_, ?_, ?_, ?_, ?_, ?_⟩
  · rw [h3, hrep]
    rfl
  · rw [h3, replace_ids]
  · intro id hne
    rw [h3]
    exact find_replace_other _ id (by rw [hid2]; exact hne) _
  · intro r us
    exact apply_consistent ctx us r
  · intro fuel k v h
    exact updateLoop_get_error fuel ctx v k h
  · intro fuel k v err hgv huv hne
    exact updateLoop_update_error fuel ctx v k err hgv huv hne

/-! ## C23: cancellation -/

/-- C23 (code as written). The store holds `vm-1` and answers `Conflict` to the next
three `Update` calls; with a context that is already cancelled, `Update.update` makes all
four `Update` calls, the last of which stores the new blob: the cancellation has ended
nothing. -/
theorem cancelled_update_keeps_retrying :
    (Update.update { cancelled := true } Sample.modifyContended).attempts = 4 ∧
    (Update.update { cancelled := true } Sample.modifyContended).left = true ∧
    (Update.update { cancelled := true } Sample.modifyContended).update.db.updateFaults =
      [] ∧
    DB.find "vm-1"
      (Update.update { cancelled := true } Sample.modifyContended).update.db.rows =
      some { Base := { PK := "pk-1", ID := "vm-1",
                       Object := Blob.json [("summary", Val.str "s1")] } } := by
  decide

/-! ## C24: a failed `Start` -/

/-- C24 (code as written). A new reconciler whose store is not open is started against an
endpoint that refuses the connection: `Start` returns the connection error without having
launched the update loop, and the store it opened is still open; `Shutdown` is what
closes it. -/
theorem failed_Start_leaves_store_open :
    Sample.fresh.db.isOpen = false ∧
    (Reconciler.Start Sample.unreachable Sample.fresh).err =
      some (RemoteWatch.Error.other "connection refused") ∧
    (Reconciler.Start Sample.unreachable Sample.fresh).launched = false ∧
    (Reconciler.Start Sample.unreachable Sample.fresh).reconciler.db.isOpen = true ∧
    ((Reconciler.Start Sample.unreachable Sample.fresh).reconciler.Shutdown true).db.isOpen =
      false := by
  decide

/-! ## Witnesses for C21 and C22 -/

/-- C21 (amended) at the `enter` update of `vm-2`, which names `summary` twice. -/
theorem Enter_round_trip_witness :
    Sample.enterVm2.kind = Enter ∧
    DB.find Sample.enterVm2.model.Base.ID Sample.enterVm2.db.rows = none ∧
    (((Base.withLoop [] Sample.enterVm2.changeSet).map Prod.fst).Nodup ∧
    (∀ name : String, name ∈ (Base.withLoop [] Sample.enterVm2.changeSet).map Prod.fst ↔
      ∃ p ∈ Sample.enterVm2.changeSet, p.Name = name) ∧
    (∀ (lead : List PropertyChange) (p : PropertyChange) (rest : List PropertyChange),
      Sample.enterVm2.changeSet = lead ++ p :: rest → (∀ q ∈ rest, q.Name ≠ p.Name) →
      JsonObject.get p.Name (Base.withLoop [] Sample.enterVm2.changeSet) = some p.Val) ∧
    DB.find Sample.enterVm2.model.Base.ID
        (Sample.enterVm2.Apply { cancelled := false }).db.rows =
      some (Sample.enterVm2.model.With Sample.enterVm2.changeSet) ∧
    (Sample.enterVm2.model.With Sample.enterVm2.changeSet).Base.ID =
      Sample.enterVm2.model.Base.ID ∧
    ((∀ e ∈ Base.withLoop [] Sample.enterVm2.changeSet, e.2.marshals = true) →
      (Sample.enterVm2.model.With Sample.enterVm2.changeSet).Base.Object =
        Blob.json (Base.withLoop [] Sample.enterVm2.changeSet) ∧
      ∀ r : WebVM, ∃ decoded : List (String × Decoded),
        (r.With (Sample.enterVm2.model.With Sample.enterVm2.changeSet) true).Object =
          some decoded ∧
        decoded.map Prod.fst = (Base.withLoop [] Sample.enterVm2.changeSet).map Prod.fst ∧
        (∀ (lead : List PropertyChange) (p : PropertyChange) (rest : List PropertyChange),
          Sample.enterVm2.changeSet = lead ++ p :: rest →
          (∀ q ∈ rest, q.Name ≠ p.Name) →
          Decoded.get p.Name decoded = p.Val.decode)) ∧
    ((∀ p ∈ Sample.enterVm2.changeSet, p.Val.marshals = true) →
      ∀ e ∈ Base.withLoop [] Sample.enterVm2.changeSet, e.2.marshals = true) ∧
    ((∃ e ∈ Base.withLoop [] Sample.enterVm2.changeSet, e.2.marshals = false) →
      (Sample.enterVm2.model.With Sample.enterVm2.changeSet).Base.Object = Blob.empty ∧
      ∀ r : WebVM,
        (r.With (Sample.enterVm2.model.With Sample.enterVm2.changeSet) true).Object =
          some [] ∧
        (r.With (Sample.enterVm2.model.With Sample.enterVm2.changeSet) true).Name =
          Decoded.null) ∧
    (∀ n : Int, n.natAbs < 2 ^ 53 → (Val.num n).decode = Decoded.number n)) :=
  ⟨by decide, by decide,
   Enter_round_trip { cancelled := false } Sample.enterVm2 (by decide) (by decide)⟩

/-- C22 at the store that answers `Conflict` three times. -/
theorem Conflict_retry_witness :
    (∀ f ∈ Sample.modifyContended.db.getFaults, f = none) ∧
    Sample.modifyContended.db.updateFaults =
      List.replicate 3 (some DBError.Conflict) ++ [] ∧
    (([] : List (Option DBError)) = [] ∨ ∃ t, ([] : List (Option DBError)) = none :: t) ∧
    DB.find Sample.modifyContended.model.Base.ID Sample.modifyContended.db.rows =
      some Sample.vm1 ∧
    ((Sample.modifyContended.update { cancelled := false }).attempts = 3 + 1 ∧
    (Sample.modifyContended.update { cancelled := false }).left = true ∧
    DB.find Sample.modifyContended.model.Base.ID
        (Sample.modifyContended.update { cancelled := false }).update.db.rows =
      some { Base := { Sample.vm1.Base with
                       Object := Blob.marshal
                         (Base.withLoop [] Sample.modifyContended.changeSet) } } ∧
    (Sample.modifyContended.update { cancelled := false }).update.db.rows.map
        (fun x => x.Base.ID) =
      Sample.modifyContended.db.rows.map (fun x => x.Base.ID) ∧
    (∀ id : String, id ≠ Sample.modifyContended.model.Base.ID →
      DB.find id (Sample.modifyContended.update { cancelled := false }).update.db.rows =
        DB.find id Sample.modifyContended.db.rows) ∧
    (∀ (r : Reconciler) (us : List ObjectUpdate),
      (Reconciler.apply { cancelled := false } r us).HasConsistency = r.HasConsistency) ∧
    (∀ (fuel k : Nat) (v : Update), (v.db.Get v.model).2.2 ≠ none →
      (Update.updateLoop (fuel + 1) { cancelled := false } v k).attempts = k ∧
      (Update.updateLoop (fuel + 1) { cancelled := false } v k).left = true) ∧
    (∀ (fuel k : Nat) (v : Update) (err : DBError), (v.db.Get v.model).2.2 = none →
      ((v.db.Get v.model).1.Update ((v.db.Get v.model).2.1.With v.changeSet)).2 = some err →
      err ≠ DBError.Conflict →
      (Update.updateLoop (fuel + 1) { cancelled := false } v k).attempts = k + 1 ∧
      (Update.updateLoop (fuel + 1) { cancelled := false } v k).left = true)) :=
  ⟨by decide, by decide, Or.inl rfl, by decide,
   Conflict_retry { cancelled := false } Sample.modifyContended 3 [] Sample.vm1
     (by decide) (by decide) (Or.inl rfl) (by decide)⟩

end Vmware

namespace Ovirt

/-! ## The map `init` builds -/

theorem adapterMap_get_set {A : Type} (c event : Int) (a : A) (m : AdapterMap A) :
    AdapterMap.get c (AdapterMap.set event a m) =
      if event = c then some a else AdapterMap.get c m := by
  induction m with
  | nil => simp [AdapterMap.set, AdapterMap.get]
  | cons x t ih =>
    obtain ⟨d, b⟩ := x
    by_cases hd : d = event
    · subst hd
      by_cases hc : d = c <;> simp [AdapterMap.set, AdapterMap.get, hc]
    · by_cases hdc : d = c
      · subst hdc
        have hne : ¬ event = d := fun e => hd e.symm
        simp [AdapterMap.set, AdapterMap.get, hd, hne]
      · simp [AdapterMap.set, AdapterMap.get, hd, hdc, ih]

theorem registerEvents_get {A : Type} (a : A) (c : Int) (evs : List Int) :
    ∀ m : AdapterMap A, AdapterMap.get c (registerEvents a m evs) =
      if c ∈ evs then some a else AdapterMap.get c m := by
  induction evs with
  | nil => intro m; simp [registerEvents]
  | cons e t ih =>
    intro m
    simp only [registerEvents]
    rw [ih, adapterMap_get_set]
    by_cases hct : c ∈ t
    · simp [hct]
    · by_cases hec : e = c
      · simp [hec]
      · have hce : ¬ c = e := fun h => hec h.symm
        simp [hct, hec, hce]

theorem register_append {A : Type} (event : A → List Int) (l1 l2 : List A) :
    ∀ m : AdapterMap A,
      register event m (l1 ++ l2) = register event (register event m l1) l2 := by
  induction l1 with
  | nil => intro m; rfl
  | cons a t ih => intro m; simp [register, ih]

theorem register_get_absent {A : Type} (event : A → List Int) (c : Int) (rest : List A)
    (h : ∀ b ∈ rest, c ∉ event b) :
    ∀ m : AdapterMap A, AdapterMap.get c (register event m rest) = AdapterMap.get c m := by
  induction rest with
  | nil => intro m; rfl
  | cons b t ih =>
    intro m
    simp only [register]
    rw [ih (fun x hx => h x (List.mem_cons_of_mem _ hx)), registerEvents_get]
    simp [h b (List.mem_cons_self _ _)]

/-- The map sends a code to the last adapter of the list that declares it. -/
theorem register_get_last {A : Type} (event : A → List Int) (lead rest : List A) (a : A)
    (c : Int) (hc : c ∈ event a) (h : ∀ b ∈ rest, c ∉ event b) (m : AdapterMap A) :
    AdapterMap.get c (register event m (lead ++ a :: rest)) = some a := by
  rw [register_append]
  simp only [register]
  rw [register_get_absent event c rest h, registerEvents_get]
  simp [hc]

/-! ## C25 -/

/-- C25 (claim as stated fails). Two adapters declare the event code 1, `DataCenterAdapter` as
its `DataCenterAdded` and `ClusterAdapter` as its `ClusterAdded`: `init` builds the map
all the same, and the map sends the code to `ClusterAdapter`, the later of the two in the
list, not to `DataCenterAdapter`. -/
theorem init_keeps_later_adapter :
    Adapter.DataCenterAdapter ∈ adapterList ∧
    (1 : Int) ∈ Adapter.DataCenterAdapter.Event Sample.clash ∧
    (1 : Int) ∈ Adapter.ClusterAdapter.Event Sample.clash ∧
    AdapterMap.get 1 (init Sample.clash) = some Adapter.ClusterAdapter ∧
    AdapterMap.get 1 (init Sample.clash) ≠ some Adapter.DataCenterAdapter := by
  decide

/-- C25 (amended). When the twelve event code constants are pairwise distinct, the map
`init` builds sends every code of every adapter of the list to that adapter, and a code
that is none of the constants to no adapter.  The loop of `init` rejects nothing: over any
list of adapters it yields a map, which sends a code to the last adapter of the list that
declares it. -/
theorem init_maps_distinct_codes (codes : EventCodes) (h : codes.all.Nodup) :
    (∀ a ∈ adapterList, ∀ c ∈ a.Event codes, AdapterMap.get c (init codes) = some a) ∧
    (∀ c : Int, c ∉ codes.all → AdapterMap.get c (init codes) = none) ∧
    (∀ (A : Type) (event : A → List Int) (lead : List A) (a : A) (rest : List A) (c : Int),
      c ∈ event a → (∀ b ∈ rest, c ∉ event b) →
      AdapterMap.get c (register event [] (lead ++ a :: rest)) = some a) := by
  refine ⟨?_, ?_, ?_⟩
  · intro a ha c hc
    have hr := List.nodup_reverse.mpr h
    have hrev : codes.all.reverse =
        [codes.VmDeleted, codes.VmUpdated, codes.VmAdded,
         codes.HostDeleted, codes.HostUpdated, codes.HostAdded,
         codes.ClusterDeleted, codes.ClusterUpdated, codes.ClusterAdded,
         codes.DataCenterDeleted, codes.DataCenterUpdated, codes.DataCenterAdded] := rfl
    rw [hrev] at hr
    simp only [List.nodup_cons, List.mem_cons, List.mem_singleton,
      not_or, List.not_mem_nil, not_false_eq_true, List.nodup_nil, and_true] at hr
    simp only [EventCodes.all, List.nodup_cons, List.mem_cons, List.mem_singleton,
      not_or, List.not_mem_nil, not_false_eq_true, List.nodup_nil, and_true] at h
    simp only [adapterList, List.mem_cons, List.mem_singleton, List.not_mem_nil,
      or_false] at ha
    rcases ha with rfl | rfl | rfl | rfl | rfl | rfl | rfl <;>
      simp only [Adapter.Event, List.mem_cons, List.mem_singleton, List.not_mem_nil,
        or_false] at hc
    all_goals
      rcases hc with rfl | rfl | rfl <;>
        simp [init, adapterList, register, registerEvents, Adapter.Event,
          adapterMap_get_set, h, hr]
  · intro c hc
    simp only [EventCodes.all, List.mem_cons, List.mem_singleton, List.not_mem_nil,
      or_false, not_or] at hc
    have hs : ∀ x : Int, ¬ c = x → ¬ x = c := fun x hx e => hx e.symm
    simp [init, adapterList, register, registerEvents, Adapter.Event, adapterMap_get_set,
      AdapterMap.get, hc, hs]
  · intro A event lead a rest c hc hrest
    exact register_get_last event lead rest a c hc hrest []

/-- C25 (amended) at the codes 1 to 12. -/
theorem init_maps_distinct_codes_witness :
    Sample.codes.all.Nodup ∧
    (∀ a ∈ adapterList, ∀ c ∈ a.Event Sample.codes,
      AdapterMap.get c (init Sample.codes) = some a) ∧
    (∀ c : Int, c ∉ Sample.codes.all → AdapterMap.get c (init Sample.codes) = none) ∧
    (∀ (A : Type) (event : A → List Int) (lead : List A) (a : A) (rest : List A) (c : Int),
      c ∈ event a → (∀ b ∈ rest, c ∉ event b) →
      AdapterMap.get c (register event [] (lead ++ a :: rest)) = some a) :=
  ⟨by decide, init_maps_distinct_codes Sample.codes (by decide)⟩

/-! ## C26 -/

/-- The `Deleted` case of `ClusterAdapter`, `HostAdapter` and `VMAdapter`: the record is
built from the reference of the event and deleted, and nothing is fetched. -/
theorem Deleted_by_reference (codes : EventCodes) (client : Client) (tx : Tx)
    (event : Event) :
    (event.code ≠ codes.ClusterAdded → event.code ≠ codes.ClusterUpdated →
      event.code = codes.ClusterDeleted →
      Adapter.ClusterAdapter.Apply codes client tx event =
        { tx := (tx.Delete { table := Table.Cluster,
                             Base := Base.withID event.Cluster.Ref }).1,
          err := (tx.Delete { table := Table.Cluster,
                              Base := Base.withID event.Cluster.Ref }).2,
          fetched := [] }) ∧
    (event.code ≠ codes.HostAdded → event.code ≠ codes.HostUpdated →
      event.code = codes.HostDeleted →
      Adapter.HostAdapter.Apply codes client tx event =
        { tx := (tx.Delete { table := Table.Host, Base := Base.withID event.Host.Ref }).1,
          err := (tx.Delete { table := Table.Host, Base := Base.withID event.Host.Ref }).2,
          fetched := [] }) ∧
    (event.code ≠ codes.VmAdded → event.code ≠ codes.VmUpdated →
      event.code = codes.VmDeleted →
      Adapter.VMAdapter.Apply codes client tx event =
        { tx := (tx.Delete { table := Table.VM, Base := Base.withID event.VM.Ref }).1,
          err := (tx.Delete { table := Table.VM, Base := Base.withID event.VM.Ref }).2,
          fetched := [] }) := by
  refine ⟨?_, ?_, ?_⟩
  · intro h1 h2 h3
    rw [h3] at h1 h2
    simp [Adapter.Apply, ClusterAdapter.Apply, h1, h2, h3]
  · intro h1 h2 h3
    rw [h3] at h1 h2
    simp [Adapter.Apply, HostAdapter.Apply, h1, h2, h3]
  · intro h1 h2 h3
    rw [h3] at h1 h2
    simp [Adapter.Apply, VMAdapter.Apply, h1, h2, h3]

/-- The `Deleted` case of `DataCenterAdapter`: the object is fetched first, and a failed
fetch is the result of `Apply`, the store untouched. -/
theorem DataCenter_Deleted_fetches (codes : EventCodes) (client : Client) (tx : Tx)
    (event : Event) (err : RemoteWatch.Error)
    (h1 : event.code ≠ codes.DataCenterAdded) (h2 : event.code ≠ codes.DataCenterUpdated)
    (h3 : event.code = codes.DataCenterDeleted)
    (hget : client.get event.DataCenter.Ref = Except.error err) :
    Adapter.DataCenterAdapter.Apply codes client tx event =
      { tx := tx, err := some err, fetched := [event.DataCenter.Ref] } := by
  rw [h3] at h1 h2
  simp [Adapter.Apply, DataCenterAdapter.Apply, h1, h2, h3, hget]

/-- C26 (code as written). The store holds the data center `dc-1` and the cluster `cl-1`,
and the remote no longer returns any object.  For the event that `cl-1` was deleted,
`ClusterAdapter.Apply` fetches nothing and deletes the record.  For the event that `dc-1`
was deleted, `DataCenterAdapter.Apply` fetches `dc-1`, returns the error of the fetch and
leaves the record in the store, although a delete of the bare record would have
succeeded. -/
theorem DataCenter_Deleted_needs_remote_object :
    Adapter.ClusterAdapter.Apply Sample.codes Sample.gone Sample.tx Sample.clusterDeleted =
      { tx := { rows := [{ table := Table.DataCenter,
                           Base := { Base.withID "dc-1" with Name := "Default" } }] },
        err := none, fetched := [] } ∧
    Adapter.DataCenterAdapter.Apply Sample.codes Sample.gone Sample.tx
        Sample.dataCenterDeleted =
      { tx := Sample.tx, err := some (RemoteWatch.Error.other "404 not found"),
        fetched := ["dc-1"] } ∧
    Sample.tx.Delete { table := Table.DataCenter, Base := Base.withID "dc-1" } =
      ({ rows := [{ table := Table.Cluster,
                    Base := { Base.withID "cl-1" with Name := "Default" } }] }, none) := by
  decide

end Ovirt
